import Mathlib

/-!
# godepgraph: traversal and rendering of a module's import graph

A shallow embedding of `main.go`.  The package-resolution service
(`buildContext.Import`) is a parameter `Resolver`; the three process-wide maps
(`pkgs`, `erroredPkgs`, `ids`) are passed explicitly; the text written to standard
output is the concatenation of the formatted `Line`s, one per `Printf` call.
-/

namespace Godepgraph

/-! ## Data model -/

/-- The fields of `build.Package` that the program reads. -/
structure Package where
  ImportPath : String
  Dir : String
  Imports : List String
  Goroot : Bool
  CgoFiles : List String
deriving DecidableEq, Repr

/-- A Go `map[string]α`: an association list read by first match, so that writing a
key is consing a binding; `keys` lists every key once, as `range` does. -/
abbrev GoMap (α : Type) := List (String × α)

namespace GoMap

/-- The lookup `m[key]` with its presence flag, as an option. -/
def get? {α : Type} : GoMap α → String → Option α
  | [], _ => none
  | (k, v) :: m, key => if key = k then some v else get? m key

/-- The assignment `m[k] = v`. -/
def set {α : Type} (m : GoMap α) (k : String) (v : α) : GoMap α := (k, v) :: m

/-- The keys of the map, each once (the order is the map's enumeration order). -/
def keys {α : Type} (m : GoMap α) : List String := (m.map Prod.fst).dedup

/-- The number of entries, `len(m)`. -/
def len {α : Type} (m : GoMap α) : Nat := (keys m).length

end GoMap

/-- The package-level configuration variables `ignored`, `ignoredPrefixes`,
`onlyPrefixes` and `moduleName`. -/
structure Config where
  ignored : GoMap Bool
  ignoredPrefixes : List String
  onlyPrefixes : List String
  moduleName : String

/-- The configuration the program starts with, for a given module name:
`ignored = {"C": true}` and both prefix lists nil. -/
def defaultConfig (moduleName : String) : Config :=
  { ignored := [("C", true)], ignoredPrefixes := [], onlyPrefixes := [], moduleName := moduleName }

/-- The constant `maxLevel`. -/
def maxLevel : Nat := 256

/-- The package-resolution service `buildContext.Import(pkgName, root, 0)`: it always
returns a descriptor, and an error message when resolution failed. -/
abbrev Resolver := String → String → Package × Option String

/-- The mutable globals written by the traversal, and (as a ghost field) the list of
`Import` invocations made so far, as pairs `(pkgName, root)`, oldest first. -/
structure State where
  pkgs : GoMap Package
  erroredPkgs : GoMap Bool
  calls : List (String × String)
deriving DecidableEq, Repr

/-- The state at the start of `main`: both maps freshly made. -/
def State.empty : State := { pkgs := [], erroredPkgs := [], calls := [] }

/-! ## String helpers -/

/-- The test `strings.HasPrefix(s, p)`. -/
def hasPrefix (s p : String) : Bool := p.data.isPrefixOf s.data

/-- Substring test on character lists. -/
def containsSub : List Char → List Char → Bool
  | [], sub => sub.isEmpty
  | c :: cs, sub => sub.isPrefixOf (c :: cs) || containsSub cs sub

/-- The test `strings.Contains(s, sub)`. -/
def strContains (s sub : String) : Bool := containsSub s.data sub.data

/-- Lexicographic comparison of code sequences. -/
def lexLe : List Nat → List Nat → Bool
  | [], _ => true
  | _ :: _, [] => false
  | a :: as, b :: bs => if a < b then true else if b < a then false else lexLe as bs

/-- The order of `sort.Strings`: byte-wise lexicographic, which on UTF-8 text is the
lexicographic order of the code points. -/
def strLe (a b : String) : Bool := lexLe (a.data.map Char.toNat) (b.data.map Char.toNat)

/-- The call `sort.Strings(l)`. -/
def sortStrings (l : List String) : List String :=
  l.insertionSort (fun a b => strLe a b = true)

/-! ## Helpers of `main.go` -/

/-- The function `pkgDocsURL`. -/
def pkgDocsURL (pkgName : String) : String := "https://godoc.org/" ++ pkgName

/-- The loop of `getImports`: `found` is the set of imports already kept. -/
def getImportsLoop (importPath : String) : List String → List String → List String
  | [], _ => []
  | imp :: rest, found =>
    if imp = importPath then getImportsLoop importPath rest found
    else if imp ∈ found then getImportsLoop importPath rest found
    else imp :: getImportsLoop importPath rest (imp :: found)

/-- The function `getImports`. -/
def getImports (pkg : Package) : List String :=
  getImportsLoop pkg.ImportPath pkg.Imports []

/-- The function `deriveNodeID`. -/
def deriveNodeID (packageName : String) : String := "\"" ++ packageName ++ "\""

/-- The function `getId`, with the cache `ids` passed in and returned. -/
def getId (name : String) (ids : GoMap String) : String × GoMap String :=
  match ids.get? name with
  | some id => (id, ids)
  | none => (deriveNodeID name, ids.set name (deriveNodeID name))

/-- The function `hasPrefixes`. -/
def hasPrefixes (s : String) : List String → Bool
  | [] => false
  | p :: ps => if hasPrefix s p then true else hasPrefixes s ps

/-- The read `ignored[name]` of a `map[string]bool`: false when absent. -/
def ignoredAt (cfg : Config) (name : String) : Bool := (cfg.ignored.get? name).getD false

/-- The function `isIgnored`. -/
def isIgnored (cfg : Config) (pkg : Package) : Bool :=
  if cfg.onlyPrefixes.length > 0 && !hasPrefixes pkg.ImportPath cfg.onlyPrefixes then true
  else ignoredAt cfg pkg.ImportPath || hasPrefixes pkg.ImportPath cfg.ignoredPrefixes

/-- The function `hasBuildErrors`. -/
def hasBuildErrors (erroredPkgs : GoMap Bool) (pkg : Package) : Bool :=
  if erroredPkgs.len = 0 then false
  else
    match erroredPkgs.get? pkg.ImportPath with
    | none => false
    | some v => v

/-- The function `isVendored`. -/
def isVendored (path : String) : Bool := strContains path "/vendor/"

/-! ## Traversal -/

/-- The scope test of `processPackage`:
`pkg.ImportPath == "./" || strings.HasPrefix(pkg.ImportPath, moduleName)`. -/
def inScope (cfg : Config) (importPath : String) : Bool :=
  (importPath == "./") || hasPrefix importPath cfg.moduleName

/-- The error value built by `fmt.Errorf` in `processPackage`. -/
def importError (pkgName : String) (level : Nat) (importedBy buildErr : String) : String :=
  "failed to import " ++ pkgName ++ " (imported at level " ++ toString level ++
    " by " ++ importedBy ++ "):\n" ++ buildErr

/-- The loop `for _, imp := range getImports(pkg)` of `processPackage`; `recurse` is
the recursive call on one import.  The result is the returned error (if any) and the
globals at return. -/
def importsLoop (recurse : String → State → Option String × State) :
    List String → State → Option String × State
  | [], st => (none, st)
  | imp :: rest, st =>
    match st.pkgs.get? imp with
    | some _ => importsLoop recurse rest st
    | none =>
      match recurse imp st with
      | (some err, st1) => (some err, st1)
      | (none, st1) => importsLoop recurse rest st1

/-- The globals after one more `Import` invocation is noted in the ghost field. -/
def State.logCall (st : State) (pkgName root : String) : State :=
  { st with calls := st.calls ++ [(pkgName, root)] }

/-- The two writes `erroredPkgs[pkgName] = true` (only when `buildErr != nil`) and
`pkgs[pkgName] = pkg` of `processPackage`. -/
def State.record (st : State) (pkgName : String) (pkg : Package) (failed : Bool) : State :=
  { pkgs := st.pkgs.set pkgName pkg,
    erroredPkgs := if failed then st.erroredPkgs.set pkgName true else st.erroredPkgs,
    calls := st.calls }

/-- The body of `processPackage`, by recursion on the number `n` of levels left below
the ceiling (`n = maxLevel - level`, see `processPackage`): when none is left the
guard `level++; level > maxLevel` returns nil.  The trace written to standard error
under `-debug` is left out.  The level is a natural number here, so `level++` never
wraps: see `processPackage`. -/
def processPackageAux (res : Resolver) (cfg : Config) (stopOnError : Bool) :
    Nat → String → String → Nat → String → State → Option String × State
  | 0, _, _, _, _, st => (none, st)
  | n + 1, root, pkgName, level, importedBy, st =>
    if level + 1 > maxLevel then (none, st)
    else if ignoredAt cfg pkgName then (none, st)
    else
      let pkg := (res pkgName root).1
      let buildErr := (res pkgName root).2
      let st1 := st.logCall pkgName root
      if buildErr.isSome && stopOnError then
        (some (importError pkgName (level + 1) importedBy (buildErr.getD "")), st1)
      else if !(inScope cfg pkg.ImportPath) then (none, st1)
      else
        let st2 := st1.record pkgName pkg buildErr.isSome
        if pkg.Goroot then (none, st2)
        else importsLoop
            (fun imp s => processPackageAux res cfg stopOnError n pkg.Dir imp (level + 1) pkgName s)
            (getImports pkg) st2

/-- The function `processPackage(root, pkgName, level, importedBy, stopOnError)` on the
globals `st`: the returned error (nil is `none`) and the globals at return.  The level
is a natural number: this is the function of the source at the depths
`0 ≤ level < maxInt`, the ones the traversal started by `main` at depth 0 goes through,
where `level++` does not wrap (`processPackageFuel_eq_processPackage`).  For the
level as a Go `int`, negative or `maxInt`, see `processPackageFuel`. -/
def processPackage (res : Resolver) (cfg : Config) (root pkgName : String) (level : Nat)
    (importedBy : String) (stopOnError : Bool) (st : State) : Option String × State :=
  processPackageAux res cfg stopOnError (maxLevel - level) root pkgName level importedBy st

/-! ## Rendering -/

/-- One `Printf` of the rendering loop: a node declaration or an edge. -/
inductive Line where
  | node (id label color url : String)
  | edge (src dst : String)
deriving DecidableEq, Repr

/-- The text a `Printf` call writes. -/
def Line.text : Line → String
  | Line.node id label color url =>
    id ++ " [label=\"" ++ label ++ "\" color=\"" ++ color ++ "\" URL=\"" ++ url ++
      "\" target=\"_blank\"];\n"
  | Line.edge src dst => src ++ " -> " ++ dst ++ ";\n"

/-- The colour `switch` of `main`. -/
def nodeColor (erroredPkgs : GoMap Bool) (pkg : Package) : String :=
  if pkg.Goroot then "palegreen"
  else if pkg.CgoFiles.length > 0 then "darkgoldenrod1"
  else if isVendored pkg.ImportPath then "palegoldenrod"
  else if hasBuildErrors erroredPkgs pkg then "red"
  else "paleturquoise"

/-- The inner loop of `main` over `getImports(pkg)`: the edges printed and the
identifier cache afterwards. -/
def renderEdges (cfg : Config) (pkgs : GoMap Package) (pkgId : String) :
    List String → GoMap String → List Line × GoMap String
  | [], ids => ([], ids)
  | imp :: rest, ids =>
    match pkgs.get? imp with
    | none => renderEdges cfg pkgs pkgId rest ids
    | some impPkg =>
      if isIgnored cfg impPkg then renderEdges cfg pkgs pkgId rest ids
      else
        let r := renderEdges cfg pkgs pkgId rest (getId imp ids).2
        (Line.edge pkgId (getId imp ids).1 :: r.1, r.2)

/-- The outer loop of `main` over the sorted keys.  A key of the map always has a
value; the `none` branch is never taken on keys of `pkgs`. -/
def renderPkgs (cfg : Config) (pkgs : GoMap Package) (erroredPkgs : GoMap Bool) :
    List String → GoMap String → List Line × GoMap String
  | [], ids => ([], ids)
  | pkgName :: rest, ids =>
    match pkgs.get? pkgName with
    | none => renderPkgs cfg pkgs erroredPkgs rest ids
    | some pkg =>
      let pkgId := (getId pkgName ids).1
      let ids1 := (getId pkgName ids).2
      if isIgnored cfg pkg then renderPkgs cfg pkgs erroredPkgs rest ids1
      else
        let nodeLine := Line.node pkgId pkgName (nodeColor erroredPkgs pkg) (pkgDocsURL pkgName)
        if pkg.Goroot then
          let r := renderPkgs cfg pkgs erroredPkgs rest ids1
          (nodeLine :: r.1, r.2)
        else
          let e := renderEdges cfg pkgs pkgId (getImports pkg) ids1
          let r := renderPkgs cfg pkgs erroredPkgs rest e.2
          (nodeLine :: (e.1 ++ r.1), r.2)

/-- The rendering part of `main` started with the identifier cache `ids`: the lines
printed between the header and the closing brace, and the cache afterwards. -/
def renderFrom (cfg : Config) (pkgs : GoMap Package) (erroredPkgs : GoMap Bool)
    (ids : GoMap String) : List Line × GoMap String :=
  renderPkgs cfg pkgs erroredPkgs (sortStrings pkgs.keys) ids

/-- The lines `main` prints: the cache `ids` is freshly made. -/
def renderLines (cfg : Config) (pkgs : GoMap Package) (erroredPkgs : GoMap Bool) : List Line :=
  (renderFrom cfg pkgs erroredPkgs []).1

/-- The header `main` prints before the nodes. -/
def header : String :=
  "digraph godep \x7b\n" ++
    "splines=ortho\nnodesep=0.4\nranksep=0.8\nnode [shape=\"box\",style=\"rounded,filled\"]\n" ++
    "edge [arrowsize=\"0.5\"]\n"

/-- The whole text written to standard output for a list of lines. -/
def documentOf (ls : List Line) : String :=
  header ++ String.join (ls.map Line.text) ++ "\x7d\n"

/-- The text `main` writes for a finished traversal. -/
def render (cfg : Config) (pkgs : GoMap Package) (erroredPkgs : GoMap Bool) : String :=
  documentOf (renderLines cfg pkgs erroredPkgs)

/-- The part of `main` after the module name is known, run in directory `cwd`: the
traversal with `stopOnError = true`, then either `log.Fatal` (no output, the error is
returned) or the rendered document. -/
def runMain (res : Resolver) (cfg : Config) (cwd : String) : Except String String :=
  match processPackage res cfg cwd "./" 0 "" true State.empty with
  | (some err, _) => Except.error err
  | (none, st) => Except.ok (render cfg st.pkgs st.erroredPkgs)

/-! ## Reading the output -/

/-- The imports of `pkg` that the inner loop of `main` prints an edge for. -/
def edgeTargets (cfg : Config) (pkgs : GoMap Package) (pkg : Package) : List String :=
  (getImports pkg).filter (fun imp =>
    match pkgs.get? imp with
    | none => false
    | some impPkg => !isIgnored cfg impPkg)

/-- The lines one iteration of the outer loop of `main` prints when every identifier
is the derived one. -/
def linesFor (cfg : Config) (pkgs : GoMap Package) (erroredPkgs : GoMap Bool)
    (pkgName : String) : List Line :=
  match pkgs.get? pkgName with
  | none => []
  | some pkg =>
    if isIgnored cfg pkg then []
    else
      Line.node (deriveNodeID pkgName) pkgName (nodeColor erroredPkgs pkg) (pkgDocsURL pkgName) ::
        (if pkg.Goroot then []
         else (edgeTargets cfg pkgs pkg).map
           (fun imp => Line.edge (deriveNodeID pkgName) (deriveNodeID imp)))

/-- An identifier cache in which every entry is the derived identifier of its key. -/
def IdsOk (ids : GoMap String) : Prop :=
  ∀ k v, ids.get? k = some v → v = deriveNodeID k

/-- Whether a line is a node declaration with the given label. -/
def Line.isNodeOf (label : String) : Line → Bool
  | Line.node _ l _ _ => l == label
  | Line.edge _ _ => false

/-- Whether a line is an edge. -/
def Line.isEdge : Line → Bool
  | Line.node _ _ _ _ => false
  | Line.edge _ _ => true

/-! ## Reading the traversal -/

/-- The mapping and the size of `s2` extend those of `s1`: every binding of `s1` is
still there, unchanged. -/
def Extends (s1 s2 : State) : Prop :=
  (∀ k p, s1.pkgs.get? k = some p → s2.pkgs.get? k = some p) ∧ s1.pkgs.len ≤ s2.pkgs.len

/-- The import list of a recorded descriptor is accounted for in the mapping `M`: the
package is standard-library (its imports are not walked), or each of its
distinct imports is a key of `M`, is skipped as a pseudo-package, or resolves from the
package's directory to a descriptor outside the module scope. -/
def ImportsClosed (res : Resolver) (cfg : Config) (M : GoMap Package) (p : Package) : Prop :=
  p.Goroot = true ∨
    ∀ i ∈ getImports p,
      (∃ q, M.get? i = some q) ∨ ignoredAt cfg i = true ∨
        inScope cfg (res i p.Dir).1.ImportPath = false

/-- The import names met when walking the import lists of the non-standard-library
packages recorded in `M`, starting from the traversal root `"./"` resolved from `cwd`;
the second component is the directory the name is resolved from and the third the
number of import steps from the root. -/
inductive Reach (M : GoMap Package) (cwd : String) : String → String → Nat → Prop
  | root : Reach M cwd "./" cwd 0
  | step {k d i : String} {n : Nat} {p : Package} :
      Reach M cwd k d n → M.get? k = some p → p.Goroot = false → i ∈ getImports p →
      Reach M cwd i p.Dir (n + 1)

/-! ## Example inputs -/

/-- The configuration of a run in the module `example.com/app`. -/
def appCfg : Config := defaultConfig "example.com/app"

/-- A root package of `example.com/app` importing `example.com/app/util` and `fmt`. -/
def appRoot : Package :=
  { ImportPath := "./", Dir := "/src/app", Imports := ["example.com/app/util", "fmt"],
    Goroot := false, CgoFiles := [] }

/-- The package `example.com/app/util`, without imports. -/
def appUtil : Package :=
  { ImportPath := "example.com/app/util", Dir := "/src/app/util", Imports := [],
    Goroot := false, CgoFiles := [] }

/-- The standard-library package `fmt`. -/
def stdFmt : Package :=
  { ImportPath := "fmt", Dir := "/go/src/fmt", Imports := ["errors", "io"],
    Goroot := true, CgoFiles := [] }

/-- A resolver for the module `example.com/app`: the root, `util` and `fmt` resolve
without error; any other name resolves to a standard-library package of that name. -/
def appRes : Resolver := fun pkgName _ =>
  if pkgName = "./" then (appRoot, none)
  else if pkgName = "example.com/app/util" then (appUtil, none)
  else if pkgName = "fmt" then (stdFmt, none)
  else ({ ImportPath := pkgName, Dir := "/go/src/" ++ pkgName, Imports := [],
          Goroot := true, CgoFiles := [] }, none)

/-- A mapping with one package that lists its own import path among its imports. -/
def selfImportPkgs : GoMap Package :=
  [("example.com/app/a",
    { ImportPath := "example.com/app/a", Dir := "/src/app/a",
      Imports := ["example.com/app/a"], Goroot := false, CgoFiles := [] })]

/-- A mapping with a package listing the same dependency twice. -/
def twiceImportPkgs : GoMap Package :=
  [("example.com/app/a",
    { ImportPath := "example.com/app/a", Dir := "/src/app/a",
      Imports := ["example.com/app/b", "example.com/app/b"], Goroot := false, CgoFiles := [] }),
   ("example.com/app/b",
    { ImportPath := "example.com/app/b", Dir := "/src/app/b",
      Imports := [], Goroot := false, CgoFiles := [] })]

/-- The scenario of a module `example.com/app`, stated for an arbitrary resolver: the
root resolves from `cwd` without error to a package in module scope that imports
`example.com/app/util` and `fmt`; from the root's directory `util` resolves under its
own import path with no imports, and `fmt` resolves to a standard-library package
with import path `fmt`. -/
def AppScenario (res : Resolver) (cwd : String) (rootPkg utilPkg fmtPkg : Package) : Prop :=
  res "./" cwd = (rootPkg, none) ∧ inScope appCfg rootPkg.ImportPath = true ∧
    rootPkg.ImportPath ≠ "example.com/app/util" ∧
    rootPkg.Imports = ["example.com/app/util", "fmt"] ∧ rootPkg.Goroot = false ∧
    res "example.com/app/util" rootPkg.Dir = (utilPkg, none) ∧
    utilPkg.ImportPath = "example.com/app/util" ∧ utilPkg.Imports = [] ∧
    utilPkg.Goroot = false ∧
    res "fmt" rootPkg.Dir = (fmtPkg, none) ∧ fmtPkg.ImportPath = "fmt" ∧ fmtPkg.Goroot = true

/-- A resolver for a checkout under GOPATH: the root `"./"` resolves to the
canonical import path `example.com/app`, with the given import list and build error;
any other name resolves under that name, without imports. -/
def gopathRootRes (rootImports : List String) (buildErr : Option String) : Resolver :=
  fun pkgName _ =>
    if pkgName = "./" then
      ({ ImportPath := "example.com/app", Dir := "/gopath/src/example.com/app",
         Imports := rootImports, Goroot := false, CgoFiles := [] }, buildErr)
    else
      ({ ImportPath := pkgName, Dir := "/gopath/src/" ++ pkgName, Imports := [],
         Goroot := false, CgoFiles := [] }, none)

/-! ## A chain of imports as long as the ceiling -/

/-- The name of the `k`-th package of the chain, `m/` followed by two letters. -/
def chainName (k : Nat) : String :=
  String.mk ['m', '/', Char.ofNat (97 + k / 16), Char.ofNat (97 + k % 16)]

/-- The position in the chain that a name of the form `m/xy` stands for. -/
def chainIndex (name : String) : Option Nat :=
  match name.data with
  | ['m', '/', a, b] => some ((a.toNat - 97) * 16 + (b.toNat - 97))
  | _ => none

/-- The `k`-th package of the chain imports the next one; the 255th imports `m/end`. -/
def chainPkg (k : Nat) : Package :=
  { ImportPath := chainName k, Dir := "", Goroot := false, CgoFiles := [],
    Imports := if k = 255 then ["m/end"] else [chainName (k + 1)] }

/-- The root of the chain imports the first package of the chain and then, directly,
the 255th. -/
def chainRoot : Package :=
  { ImportPath := "./", Dir := "", Imports := [chainName 1, chainName 255],
    Goroot := false, CgoFiles := [] }

/-- A resolver for the module `m`: every name resolves without error under that very
name, whatever the directory; the root and the packages of the chain have the imports
above, any other package has none. -/
def chainRes : Resolver := fun pkgName _ =>
  if pkgName = "./" then (chainRoot, none)
  else
    match chainIndex pkgName with
    | some k => (chainPkg k, none)
    | none =>
      ({ ImportPath := pkgName, Dir := "", Imports := [], Goroot := false, CgoFiles := [] },
        none)

/-- A mapping with a package matching two colour rules each: `runtime/cgo` is
standard-library and has a cgo file, `example.com/app/vendor/x` is vendored and is
recorded in `priorityErrs`. -/
def priorityPkgs : GoMap Package :=
  [("runtime/cgo",
    { ImportPath := "runtime/cgo", Dir := "/go/src/runtime/cgo", Imports := [],
      Goroot := true, CgoFiles := ["cgo.go"] }),
   ("example.com/app/vendor/x",
    { ImportPath := "example.com/app/vendor/x", Dir := "/src/app/vendor/x", Imports := [],
      Goroot := false, CgoFiles := [] })]

/-- A failure set recording the vendored package of `priorityPkgs`. -/
def priorityErrs : GoMap Bool := [("example.com/app/vendor/x", true)]

/-! ## Reference definition of `getImports` -/

/-- A list with every later duplicate removed, the remaining elements in the order of
their first occurrence. -/
def dropLaterDuplicates : List String → List String
  | [] => []
  | x :: xs => x :: (dropLaterDuplicates xs).filter (fun y => y ≠ x)

/-- The description of `getImports`: the import list with every occurrence of the
package's own import path removed and every later duplicate removed. -/
def getImportsSpec (pkg : Package) : List String :=
  dropLaterDuplicates (pkg.Imports.filter (fun imp => imp ≠ pkg.ImportPath))

/-- Whether a line is an edge with the given source identifier. -/
def Line.isEdgeFrom (src : String) : Line → Bool
  | Line.node _ _ _ _ => false
  | Line.edge s _ => s == src

/-- A package importing `b` twice, itself once, and `c`. -/
def mixedImportsPkg : Package :=
  { ImportPath := "example.com/app/a", Dir := "/src/app/a",
    Imports := ["example.com/app/b", "example.com/app/a", "example.com/app/c",
      "example.com/app/b"],
    Goroot := false, CgoFiles := [] }

/-- A mapping holding `mixedImportsPkg` and its two dependencies. -/
def mixedImportsPkgs : GoMap Package :=
  [("example.com/app/a", mixedImportsPkg),
   ("example.com/app/b",
    { ImportPath := "example.com/app/b", Dir := "/src/app/b", Imports := [],
      Goroot := false, CgoFiles := [] }),
   ("example.com/app/c",
    { ImportPath := "example.com/app/c", Dir := "/src/app/c", Imports := [],
      Goroot := false, CgoFiles := [] })]

/-! ## Order of the output -/

/-- The string `a` is strictly below `b` in the lexicographic order of their code
sequences, the strict part of the order of `sort.Strings`. -/
def strLt (a b : String) : Prop :=
  List.Lex (fun x y : Nat => x < y) (a.data.map Char.toNat) (b.data.map Char.toNat)

/-- A node declaration together with the targets of the edges that follow it. -/
structure Block where
  label : String
  color : String
  url : String
  targets : List String

/-- The lines of a block: the node line of the label, then one edge line from the
label's identifier to the identifier of each target, in order. -/
def Block.lines (b : Block) : List Line :=
  Line.node (deriveNodeID b.label) b.label b.color b.url ::
    b.targets.map (fun t => Line.edge (deriveNodeID b.label) (deriveNodeID t))

/-- The block printed for a key of the mapping, if the key is retained. -/
def blockFor (cfg : Config) (pkgs : GoMap Package) (erroredPkgs : GoMap Bool)
    (pkgName : String) : Option Block :=
  match pkgs.get? pkgName with
  | none => none
  | some pkg =>
    if isIgnored cfg pkg then none
    else
      some { label := pkgName, color := nodeColor erroredPkgs pkg, url := pkgDocsURL pkgName,
             targets := if pkg.Goroot then [] else edgeTargets cfg pkgs pkg }

/-- A mapping listing the same two packages as `twiceImportPkgs` in the other order. -/
def twiceImportPkgsSwapped : GoMap Package :=
  [("example.com/app/b",
    { ImportPath := "example.com/app/b", Dir := "/src/app/b",
      Imports := [], Goroot := false, CgoFiles := [] }),
   ("example.com/app/a",
    { ImportPath := "example.com/app/a", Dir := "/src/app/a",
      Imports := ["example.com/app/b", "example.com/app/b"], Goroot := false, CgoFiles := [] })]

/-! ## Reading an aborted traversal -/

/-- No resolver call noted so far raised an error. -/
def CallsOk (res : Resolver) (s : State) : Prop :=
  ∀ c ∈ s.calls, (res c.1 c.2).2 = none

/-- What a result `r` of a traversal started in state `st` under abort-on-error looks
like: if it is nil, no resolver call noted raised an error; if it is an error `e`,
there are globals `s`, reached from `st` without any failing resolution, in which a
package `name`, absent from the mapping, was resolved from `dir` at depth `lvl` below
the ceiling and raised the error `msg`, and `r` is that error report together with `s`
after the failing call is noted, nothing else changed. -/
def AbortsAt (res : Resolver) (cfg : Config) (st : State) (r : Option String × State) : Prop :=
  (r.1 = none → CallsOk res r.2) ∧
    ∀ e, r.1 = some e →
      ∃ (s : State) (name dir : String) (lvl : Nat) (importer msg : String),
        Extends st s ∧ CallsOk res s ∧ s.pkgs.get? name = none ∧
        lvl < maxLevel ∧ ignoredAt cfg name = false ∧ (res name dir).2 = some msg ∧
        e = importError name (lvl + 1) importer msg ∧ r.2 = s.logCall name dir

/-- A resolver for the module `example.com/app` in which `util` imports a package
`example.com/app/broken` whose resolution raises an error. -/
def brokenDepRes : Resolver := fun pkgName _ =>
  if pkgName = "./" then (appRoot, none)
  else if pkgName = "example.com/app/util" then
    ({ ImportPath := "example.com/app/util", Dir := "/src/app/util",
       Imports := ["example.com/app/broken", "example.com/app/other"],
       Goroot := false, CgoFiles := [] }, none)
  else if pkgName = "example.com/app/broken" then
    ({ ImportPath := "example.com/app/broken", Dir := "/src/app/broken", Imports := [],
       Goroot := false, CgoFiles := [] }, some "build constraints exclude all Go files")
  else
    ({ ImportPath := pkgName, Dir := "/go/src/" ++ pkgName, Imports := [],
       Goroot := true, CgoFiles := [] }, none)

/-! ## Chains of imports -/

/-- A chain of imports for the traversal started on `c 0` from directory `d 0`: for
every position `k` up to 255 the name `c k`, resolved from `d k`, is not a
pseudo-package, does not abort the traversal, is in scope and not standard-library,
and imports only `c (k + 1)`, which is resolved from its directory `d (k + 1)`; and
the names `c 0`, ..., `c 256` are pairwise distinct. -/
def ImportChain (res : Resolver) (cfg : Config) (stopOnError : Bool) (c d : Nat → String) :
    Prop :=
  (∀ k, k ≤ 255 →
    ignoredAt cfg (c k) = false ∧
    ((res (c k) (d k)).2.isSome && stopOnError) = false ∧
    inScope cfg (res (c k) (d k)).1.ImportPath = true ∧
    (res (c k) (d k)).1.Goroot = false ∧
    getImports (res (c k) (d k)).1 = [c (k + 1)] ∧
    d (k + 1) = (res (c k) (d k)).1.Dir) ∧
  ∀ i j, i ≤ 256 → j ≤ 256 → c i = c j → i = j

/-- The names of a chain of 257 packages of module `m`: the root, the packages
`chainName 1`, ..., `chainName 255`, and `m/end`. -/
def lineName (k : Nat) : String :=
  if k = 0 then "./" else if k = 256 then "m/end" else chainName k

/-- A resolver for the chain `lineName`: the root imports the first package of the
chain only; every other name resolves as with `chainRes`. -/
def lineRes : Resolver := fun pkgName dir =>
  if pkgName = "./" then
    ({ ImportPath := "./", Dir := "", Imports := [chainName 1], Goroot := false,
       CgoFiles := [] }, none)
  else chainRes pkgName dir

/-! ## The depth as a Go `int` -/

/-- The least value of Go's `int`, on a platform where it is 64 bits wide. -/
def minInt : Int := -9223372036854775808

/-- The greatest value of Go's `int`, on a platform where it is 64 bits wide. -/
def maxInt : Int := 9223372036854775807

/-- The `int` a mathematical result is stored as: two's complement wrap-around on 64
bits. -/
def wrapInt (x : Int) : Int :=
  (x + 9223372036854775808) % 18446744073709551616 - 9223372036854775808

/-- The error value built by `fmt.Errorf` in `processPackage`, the level an `int`. -/
def importErrorInt (pkgName : String) (level : Int) (importedBy buildErr : String) : String :=
  "failed to import " ++ pkgName ++ " (imported at level " ++ toString level ++
    " by " ++ importedBy ++ "):\n" ++ buildErr

/-- The loop `for _, imp := range getImports(pkg)` of `processPackage`, for a recursive
call `recurse` that may not have returned yet (`none`). -/
def importsLoopFuel (recurse : String → State → Option (Option String × State)) :
    List String → State → Option (Option String × State)
  | [], st => some (none, st)
  | imp :: rest, st =>
    match st.pkgs.get? imp with
    | some _ => importsLoopFuel recurse rest st
    | none =>
      match recurse imp st with
      | none => none
      | some (some err, st1) => some (some err, st1)
      | some (none, st1) => importsLoopFuel recurse rest st1

/-- The function `processPackage(root, pkgName, level, importedBy, stopOnError)` with
`level` a Go `int` of 64 bits: `level++` wraps around at `maxInt`, and nothing but the
guard `level > maxLevel` stops the descent.  The first argument after the policy bounds
the nesting of calls that is followed: `none` says that the call has not returned
within that nesting, `some (err, st)` that it returned `err` (nil is `none`) with the
globals `st`.  No other bound is put on the nesting: the call stack is taken to be as
large as needed. -/
def processPackageFuel (res : Resolver) (cfg : Config) (stopOnError : Bool) :
    Nat → String → String → Int → String → State → Option (Option String × State)
  | 0, _, _, _, _, _ => none
  | fuel + 1, root, pkgName, level, importedBy, st =>
    if wrapInt (level + 1) > (maxLevel : Int) then some (none, st)
    else if ignoredAt cfg pkgName then some (none, st)
    else
      let pkg := (res pkgName root).1
      let buildErr := (res pkgName root).2
      let st1 := st.logCall pkgName root
      if buildErr.isSome && stopOnError then
        some (some (importErrorInt pkgName (wrapInt (level + 1)) importedBy
          (buildErr.getD "")), st1)
      else if !(inScope cfg pkg.ImportPath) then some (none, st1)
      else
        let st2 := st1.record pkgName pkg buildErr.isSome
        if pkg.Goroot then some (none, st2)
        else importsLoopFuel
            (fun imp s => processPackageFuel res cfg stopOnError fuel pkg.Dir imp
              (wrapInt (level + 1)) pkgName s)
            (getImports pkg) st2

/-- A nesting of calls within which `processPackage` returns when entered at `level`:
at `maxInt` the level wraps to `minInt` and climbs all the way up to the ceiling. -/
def fuelFor (level : Int) : Nat :=
  if level = maxInt then 9223372036854776066 else (256 - level).toNat + 1

/-! ## Calls refused at the depth ceiling -/

/-- The import loop of `processPackage` with, next to its result, the calls that the
depth guard refused during the loop: `recurse` gives both for one import. -/
def importsLoopCut
    (recurse : String → State → (Option String × State) × List (String × String)) :
    List String → State → (Option String × State) × List (String × String)
  | [], st => ((none, st), [])
  | imp :: rest, st =>
    match st.pkgs.get? imp with
    | some _ => importsLoopCut recurse rest st
    | none =>
      match recurse imp st with
      | ((some err, st1), cut) => ((some err, st1), cut)
      | ((none, st1), cut) =>
        ((importsLoopCut recurse rest st1).1, cut ++ (importsLoopCut recurse rest st1).2)

/-- The body of `processPackage` as in `processPackageAux`, with a ghost result: the
calls at which `level++; level > maxLevel` held and the function returned nil without
looking at the package, as pairs `(pkgName, importedBy)`, oldest first.  The first
component is the result of `processPackageAux` (`processPackageAuxCut_fst`). -/
def processPackageAuxCut (res : Resolver) (cfg : Config) (stopOnError : Bool) :
    Nat → String → String → Nat → String → State →
      (Option String × State) × List (String × String)
  | 0, _, pkgName, _, importedBy, st => ((none, st), [(pkgName, importedBy)])
  | n + 1, root, pkgName, level, importedBy, st =>
    if level + 1 > maxLevel then ((none, st), [(pkgName, importedBy)])
    else if ignoredAt cfg pkgName then ((none, st), [])
    else
      let pkg := (res pkgName root).1
      let buildErr := (res pkgName root).2
      let st1 := st.logCall pkgName root
      if buildErr.isSome && stopOnError then
        ((some (importError pkgName (level + 1) importedBy (buildErr.getD "")), st1), [])
      else if !(inScope cfg pkg.ImportPath) then ((none, st1), [])
      else
        let st2 := st1.record pkgName pkg buildErr.isSome
        if pkg.Goroot then ((none, st2), [])
        else importsLoopCut
            (fun imp s => processPackageAuxCut res cfg stopOnError n pkg.Dir imp (level + 1)
              pkgName s)
            (getImports pkg) st2

/-- The function `processPackage(root, pkgName, level, importedBy, stopOnError)` on the
globals `st`, with the ghost list of the calls that the depth guard refused: its
recursion is that of the source (`processPackageCut_unfold`) and its first component is
`processPackage` (`processPackageCut_fst`). -/
def processPackageCut (res : Resolver) (cfg : Config) (root pkgName : String) (level : Nat)
    (importedBy : String) (stopOnError : Bool) (st : State) :
    (Option String × State) × List (String × String) :=
  processPackageAuxCut res cfg stopOnError (maxLevel - level) root pkgName level importedBy st

/-- The calls refused by the depth guard during
`processPackage(root, pkgName, level, importedBy, stopOnError)` on the globals `st`, as
pairs `(pkgName, importedBy)`. -/
def refusedCalls (res : Resolver) (cfg : Config) (root pkgName : String) (level : Nat)
    (importedBy : String) (stopOnError : Bool) (st : State) : List (String × String) :=
  (processPackageCut res cfg root pkgName level importedBy stopOnError st).2

/-- The import list of the descriptor `p` recorded under the key `k` is accounted for
in the mapping `M`, up to the calls in `cut`: as `ImportsClosed`, or the import is one
that the loop over the imports of `k` was refused at the depth ceiling. -/
def ImportsClosedOrCut (res : Resolver) (cfg : Config) (M : GoMap Package)
    (cut : List (String × String)) (k : String) (p : Package) : Prop :=
  p.Goroot = true ∨
    ∀ i ∈ getImports p,
      (∃ q, M.get? i = some q) ∨ ignoredAt cfg i = true ∨
        inScope cfg (res i p.Dir).1.ImportPath = false ∨ (i, k) ∈ cut

/-- As `Reach`, along imports whose call is not among the calls `cut` refused at the
depth ceiling. -/
inductive ReachKept (M : GoMap Package) (cut : List (String × String)) (cwd : String) :
    String → String → Nat → Prop
  | root : ReachKept M cut cwd "./" cwd 0
  | step {k d i : String} {n : Nat} {p : Package} :
      ReachKept M cut cwd k d n → M.get? k = some p → p.Goroot = false → i ∈ getImports p →
      (i, k) ∉ cut → ReachKept M cut cwd i p.Dir (n + 1)

/-- The root of a flat module `m`: it imports the 256 packages `chainName 0`, ...,
`chainName 255`. -/
def flatRoot : Package :=
  { ImportPath := "./", Dir := "", Imports := (List.range 256).map chainName,
    Goroot := false, CgoFiles := [] }

/-- A resolver for the flat module: every name but the root resolves, without error
and under that very name, to a package without imports. -/
def flatRes : Resolver := fun pkgName _ =>
  if pkgName = "./" then (flatRoot, none)
  else
    ({ ImportPath := pkgName, Dir := "", Imports := [], Goroot := false, CgoFiles := [] },
      none)

end Godepgraph

/-! # Theorems -/

namespace Godepgraph

/-! ## Maps -/

theorem GoMap.get?_set {α : Type} (m : GoMap α) (k : String) (v : α) (key : String) :
    (m.set k v).get? key = if key = k then some v else m.get? key := rfl

theorem GoMap.get?_isSome_iff_mem {α : Type} (m : GoMap α) (key : String) :
    (m.get? key).isSome = true ↔ key ∈ m.map Prod.fst := by
  induction m with
  | nil => simp [GoMap.get?]
  | cons kv m ih =>
    obtain ⟨k, v⟩ := kv
    by_cases h : key = k
    · simp [GoMap.get?, h]
    · simp [GoMap.get?, h, ih]

theorem GoMap.mem_keys {α : Type} (m : GoMap α) (key : String) :
    key ∈ m.keys ↔ ∃ v, m.get? key = some v := by
  unfold GoMap.keys
  rw [List.mem_dedup, ← GoMap.get?_isSome_iff_mem, Option.isSome_iff_exists]

theorem GoMap.nodup_keys {α : Type} (m : GoMap α) : m.keys.Nodup := List.nodup_dedup _

theorem GoMap.keys_set_of_none {α : Type} (m : GoMap α) (k : String) (v : α)
    (h : m.get? k = none) : (m.set k v).keys = k :: m.keys := by
  unfold GoMap.keys GoMap.set
  rw [List.map_cons, List.dedup_cons_of_not_mem]
  intro hm
  have := (GoMap.get?_isSome_iff_mem m k).2 hm
  simp [h] at this

theorem GoMap.len_set_of_none {α : Type} (m : GoMap α) (k : String) (v : α)
    (h : m.get? k = none) : (m.set k v).len = m.len + 1 := by
  unfold GoMap.len
  rw [GoMap.keys_set_of_none m k v h, List.length_cons]

/-! ## Sorting the keys -/

theorem mem_sortStrings (l : List String) (x : String) : x ∈ sortStrings l ↔ x ∈ l :=
  (List.perm_insertionSort _ l).mem_iff

theorem nodup_sortStrings (l : List String) (h : l.Nodup) : (sortStrings l).Nodup :=
  (List.perm_insertionSort _ l).nodup_iff.2 h

/-! ## `getImports` -/

theorem mem_getImportsLoop (ip : String) (l found : List String) (x : String) :
    x ∈ getImportsLoop ip l found ↔ x ∈ l ∧ x ≠ ip ∧ x ∉ found := by
  induction l generalizing found with
  | nil => simp [getImportsLoop]
  | cons imp rest ih =>
    unfold getImportsLoop
    by_cases h1 : imp = ip
    · rw [if_pos h1, ih]
      constructor
      · rintro ⟨a, b, c⟩; exact ⟨List.mem_cons_of_mem _ a, b, c⟩
      · rintro ⟨a, b, c⟩
        rcases List.mem_cons.1 a with a | a
        · exact absurd (a.trans h1) b
        · exact ⟨a, b, c⟩
    · rw [if_neg h1]
      by_cases h2 : imp ∈ found
      · rw [if_pos h2, ih]
        constructor
        · rintro ⟨a, b, c⟩; exact ⟨List.mem_cons_of_mem _ a, b, c⟩
        · rintro ⟨a, b, c⟩
          rcases List.mem_cons.1 a with a | a
          · exact absurd (a ▸ h2) c
          · exact ⟨a, b, c⟩
      · rw [if_neg h2, List.mem_cons, ih]
        constructor
        · rintro (a | ⟨a, b, c⟩)
          · subst a; exact ⟨List.mem_cons_self _ _, h1, h2⟩
          · exact ⟨List.mem_cons_of_mem _ a, b, fun hc => c (List.mem_cons_of_mem _ hc)⟩
        · rintro ⟨a, b, c⟩
          by_cases hx : x = imp
          · exact Or.inl hx
          · rcases List.mem_cons.1 a with a | a
            · exact absurd a hx
            · refine Or.inr ⟨a, b, ?_⟩
              intro hc
              rcases List.mem_cons.1 hc with hc | hc
              · exact hx hc
              · exact c hc

theorem nodup_getImportsLoop (ip : String) (l found : List String) :
    (getImportsLoop ip l found).Nodup := by
  induction l generalizing found with
  | nil => simp [getImportsLoop]
  | cons imp rest ih =>
    unfold getImportsLoop
    by_cases h1 : imp = ip
    · rw [if_pos h1]; exact ih found
    · rw [if_neg h1]
      by_cases h2 : imp ∈ found
      · rw [if_pos h2]; exact ih found
      · rw [if_neg h2, List.nodup_cons]
        refine ⟨?_, ih _⟩
        rw [mem_getImportsLoop]
        rintro ⟨_, _, c⟩
        exact c (List.mem_cons_self _ _)

theorem mem_getImports (pkg : Package) (x : String) :
    x ∈ getImports pkg ↔ x ∈ pkg.Imports ∧ x ≠ pkg.ImportPath := by
  unfold getImports
  rw [mem_getImportsLoop]
  simp

theorem nodup_getImports (pkg : Package) : (getImports pkg).Nodup :=
  nodup_getImportsLoop _ _ _

/-! ## Identifiers -/

theorem deriveNodeID_injective {a b : String} (h : deriveNodeID a = deriveNodeID b) : a = b := by
  unfold deriveNodeID at h
  have h2 := congrArg String.data h
  simp only [String.data_append] at h2
  have h3 := List.append_cancel_right h2
  have h4 := List.append_cancel_left h3
  exact String.ext h4

theorem IdsOk_nil : IdsOk [] := by
  intro k v h
  simp [GoMap.get?] at h

theorem getId_fst (name : String) (ids : GoMap String) (h : IdsOk ids) :
    (getId name ids).1 = deriveNodeID name := by
  unfold getId
  cases hg : ids.get? name with
  | none => rfl
  | some id => exact h name id hg

theorem getId_snd (name : String) (ids : GoMap String) (h : IdsOk ids) :
    IdsOk (getId name ids).2 := by
  unfold getId
  cases hg : ids.get? name with
  | none =>
    intro k v hk
    rw [GoMap.get?_set] at hk
    by_cases hkn : k = name
    · rw [if_pos hkn] at hk
      rw [hkn]
      exact (Option.some.inj hk).symm
    · rw [if_neg hkn] at hk
      exact h k v hk
  | some id => exact h

/-! ## The rendering loops, read as a list of lines -/

theorem renderEdges_eq (cfg : Config) (pkgs : GoMap Package) (pkgId : String)
    (l : List String) (ids : GoMap String) (h : IdsOk ids) :
    (renderEdges cfg pkgs pkgId l ids).1 =
        (l.filter (fun imp =>
          match pkgs.get? imp with
          | none => false
          | some impPkg => !isIgnored cfg impPkg)).map
          (fun imp => Line.edge pkgId (deriveNodeID imp)) ∧
      IdsOk (renderEdges cfg pkgs pkgId l ids).2 := by
  induction l generalizing ids with
  | nil => exact ⟨rfl, h⟩
  | cons imp rest ih =>
    unfold renderEdges
    cases hg : pkgs.get? imp with
    | none =>
      simp only [List.filter_cons, hg]
      exact ih ids h
    | some impPkg =>
      by_cases hi : isIgnored cfg impPkg = true
      · simp only [List.filter_cons, hg, hi, if_true]
        exact ih ids h
      · have hi2 : isIgnored cfg impPkg = false := by simpa using hi
        have := ih (getId imp ids).2 (getId_snd imp ids h)
        simp only [List.filter_cons, hg, hi2, Bool.not_false, if_true, List.map_cons,
          getId_fst imp ids h]
        refine ⟨?_, this.2⟩
        simp only [Bool.false_eq_true, if_false]
        rw [this.1]

theorem renderPkgs_eq (cfg : Config) (pkgs : GoMap Package) (erroredPkgs : GoMap Bool)
    (l : List String) (ids : GoMap String) (h : IdsOk ids) :
    (renderPkgs cfg pkgs erroredPkgs l ids).1 = l.flatMap (linesFor cfg pkgs erroredPkgs) ∧
      IdsOk (renderPkgs cfg pkgs erroredPkgs l ids).2 := by
  induction l generalizing ids with
  | nil => exact ⟨rfl, h⟩
  | cons pkgName rest ih =>
    unfold renderPkgs
    rw [List.flatMap_cons]
    cases hg : pkgs.get? pkgName with
    | none =>
      simp only [linesFor, hg, List.nil_append]
      exact ih ids h
    | some pkg =>
      have hid := getId_fst pkgName ids h
      have hids := getId_snd pkgName ids h
      by_cases hi : isIgnored cfg pkg = true
      · simp only [linesFor, hg, hi, if_true, List.nil_append]
        exact ih _ hids
      · have hi2 : isIgnored cfg pkg = false := by simpa using hi
        by_cases hgo : pkg.Goroot = true
        · simp only [linesFor, hg, hi2, hgo, if_true, Bool.false_eq_true, if_false, hid,
            List.cons_append, List.nil_append]
          have := ih _ hids
          exact ⟨by rw [this.1], this.2⟩
        · have hgo2 : pkg.Goroot = false := by simpa using hgo
          have he := renderEdges_eq cfg pkgs (deriveNodeID pkgName) (getImports pkg) _ hids
          have := ih _ he.2
          simp only [linesFor, hg, hi2, hgo2, Bool.false_eq_true, if_false, hid,
            List.cons_append, edgeTargets]
          exact ⟨by rw [this.1, he.1], this.2⟩

theorem renderLines_eq (cfg : Config) (pkgs : GoMap Package) (erroredPkgs : GoMap Bool) :
    renderLines cfg pkgs erroredPkgs =
      (sortStrings pkgs.keys).flatMap (linesFor cfg pkgs erroredPkgs) :=
  (renderPkgs_eq cfg pkgs erroredPkgs _ [] IdsOk_nil).1

theorem mem_edgeTargets (cfg : Config) (pkgs : GoMap Package) (pkg : Package) (imp : String) :
    imp ∈ edgeTargets cfg pkgs pkg ↔
      imp ∈ getImports pkg ∧ ∃ q, pkgs.get? imp = some q ∧ isIgnored cfg q = false := by
  unfold edgeTargets
  rw [List.mem_filter]
  cases hg : pkgs.get? imp with
  | none => simp
  | some q => simp

theorem nodup_edgeTargets (cfg : Config) (pkgs : GoMap Package) (pkg : Package) :
    (edgeTargets cfg pkgs pkg).Nodup :=
  (nodup_getImports pkg).filter _

/-- An edge is printed exactly for a retained, non-standard-library package of the
mapping and an import of it that is in the mapping and retained. -/
theorem edge_mem_renderLines (cfg : Config) (pkgs : GoMap Package) (erroredPkgs : GoMap Bool)
    (s t : String) :
    Line.edge s t ∈ renderLines cfg pkgs erroredPkgs ↔
      ∃ k p imp q, pkgs.get? k = some p ∧ isIgnored cfg p = false ∧ p.Goroot = false ∧
        imp ∈ getImports p ∧ pkgs.get? imp = some q ∧ isIgnored cfg q = false ∧
        s = deriveNodeID k ∧ t = deriveNodeID imp := by
  rw [renderLines_eq, List.mem_flatMap]
  constructor
  · rintro ⟨k, _, hk⟩
    unfold linesFor at hk
    cases hg : pkgs.get? k with
    | none => simp [hg] at hk
    | some p =>
      simp only [hg] at hk
      by_cases hi : isIgnored cfg p = true
      · simp [hi] at hk
      · have hi2 : isIgnored cfg p = false := by simpa using hi
        by_cases hgo : p.Goroot = true
        · simp [hi2, hgo] at hk
        · have hgo2 : p.Goroot = false := by simpa using hgo
          simp only [hi2, hgo2, Bool.false_eq_true, if_false, List.mem_cons, List.mem_map] at hk
          rcases hk with hk | ⟨imp, himp, heq⟩
          · cases hk
          obtain ⟨h1, q, h2, h3⟩ := (mem_edgeTargets cfg pkgs p imp).1 himp
          injection heq with e1 e2
          exact ⟨k, p, imp, q, hg, hi2, hgo2, h1, h2, h3, e1.symm, e2.symm⟩
  · rintro ⟨k, p, imp, q, hg, hi, hgo, h1, h2, h3, rfl, rfl⟩
    refine ⟨k, (mem_sortStrings _ _).2 ((GoMap.mem_keys _ _).2 ⟨p, hg⟩), ?_⟩
    unfold linesFor
    simp only [hg, hi, hgo, Bool.false_eq_true, if_false, List.mem_cons, List.mem_map]
    exact Or.inr ⟨imp, (mem_edgeTargets cfg pkgs p imp).2 ⟨h1, q, h2, h3⟩, rfl⟩

/-- A node is printed exactly for a retained package of the mapping, under its key. -/
theorem node_mem_renderLines (cfg : Config) (pkgs : GoMap Package) (erroredPkgs : GoMap Bool)
    (i l c u : String) :
    Line.node i l c u ∈ renderLines cfg pkgs erroredPkgs ↔
      ∃ p, pkgs.get? l = some p ∧ isIgnored cfg p = false ∧ i = deriveNodeID l ∧
        c = nodeColor erroredPkgs p ∧ u = pkgDocsURL l := by
  rw [renderLines_eq, List.mem_flatMap]
  constructor
  · rintro ⟨k, _, hk⟩
    unfold linesFor at hk
    cases hg : pkgs.get? k with
    | none => simp [hg] at hk
    | some p =>
      simp only [hg] at hk
      by_cases hi : isIgnored cfg p = true
      · simp [hi] at hk
      · have hi2 : isIgnored cfg p = false := by simpa using hi
        simp only [hi2, Bool.false_eq_true, if_false, List.mem_cons] at hk
        rcases hk with hk | hk
        · injection hk with e1 e2 e3 e4
          subst e2
          exact ⟨p, hg, hi2, e1, e3, e4⟩
        · by_cases hgo : p.Goroot = true
          · simp [hgo] at hk
          · simp [hgo] at hk
  · rintro ⟨p, hg, hi, rfl, rfl, rfl⟩
    refine ⟨l, (mem_sortStrings _ _).2 ((GoMap.mem_keys _ _).2 ⟨p, hg⟩), ?_⟩
    unfold linesFor
    simp only [hg, hi, Bool.false_eq_true, if_false, List.mem_cons, true_or]

/-! ## The traversal -/

/-- The recursion equation of `processPackage`: the definition by levels left is the
function of the source, calling itself at `level + 1`. -/
theorem processPackage_unfold (res : Resolver) (cfg : Config) (root pkgName : String)
    (level : Nat) (importedBy : String) (stopOnError : Bool) (st : State) :
    processPackage res cfg root pkgName level importedBy stopOnError st =
      if level + 1 > maxLevel then (none, st)
      else if ignoredAt cfg pkgName then (none, st)
      else
        if (res pkgName root).2.isSome && stopOnError then
          (some (importError pkgName (level + 1) importedBy ((res pkgName root).2.getD "")),
            st.logCall pkgName root)
        else if !(inScope cfg (res pkgName root).1.ImportPath) then
          (none, st.logCall pkgName root)
        else if (res pkgName root).1.Goroot then
          (none, (st.logCall pkgName root).record pkgName (res pkgName root).1
            (res pkgName root).2.isSome)
        else importsLoop
            (fun imp s => processPackage res cfg (res pkgName root).1.Dir imp (level + 1)
              pkgName stopOnError s)
            (getImports (res pkgName root).1)
            ((st.logCall pkgName root).record pkgName (res pkgName root).1
              (res pkgName root).2.isSome) := by
  unfold processPackage
  by_cases hl : level + 1 > maxLevel
  · have h0 : maxLevel - level = 0 := by omega
    rw [h0, if_pos hl]
    rfl
  · obtain ⟨n, hn⟩ : ∃ n, maxLevel - level = n + 1 := ⟨maxLevel - level - 1, by omega⟩
    have hn2 : maxLevel - (level + 1) = n := by omega
    rw [hn, hn2]
    rfl

theorem Extends.refl (s : State) : Extends s s := ⟨fun _ _ h => h, le_refl _⟩

theorem Extends.trans {s1 s2 s3 : State} (h12 : Extends s1 s2) (h23 : Extends s2 s3) :
    Extends s1 s3 :=
  ⟨fun k p h => h23.1 k p (h12.1 k p h), le_trans h12.2 h23.2⟩

theorem Extends.logCall (s : State) (pkgName root : String) :
    Extends s (s.logCall pkgName root) := ⟨fun _ _ h => h, le_refl _⟩

theorem Extends.record (s : State) (pkgName : String) (pkg : Package) (failed : Bool)
    (h : s.pkgs.get? pkgName = none) : Extends s (s.record pkgName pkg failed) := by
  constructor
  · intro k p hk
    show (s.pkgs.set pkgName pkg).get? k = some p
    rw [GoMap.get?_set]
    by_cases hkp : k = pkgName
    · rw [hkp, h] at hk
      cases hk
    · rw [if_neg hkp]
      exact hk
  · show s.pkgs.len ≤ (s.pkgs.set pkgName pkg).len
    rw [GoMap.len_set_of_none _ _ _ h]
    exact Nat.le_succ _

/-- An invariant of the globals kept by every call of `recurse` on an absent key is
kept by the import loop. -/
theorem importsLoop_inv (I : State → Prop) (recurse : String → State → Option String × State)
    (hrec : ∀ imp s, I s → s.pkgs.get? imp = none → I (recurse imp s).2) :
    ∀ (l : List String) (st : State), I st → I (importsLoop recurse l st).2 := by
  intro l
  induction l with
  | nil => intro st h; exact h
  | cons imp rest ih =>
    intro st h
    unfold importsLoop
    cases hg : st.pkgs.get? imp with
    | some q => exact ih st h
    | none =>
      have hr := hrec imp st h hg
      rcases hre : recurse imp st with ⟨e, s1⟩
      rw [hre] at hr
      cases e with
      | some err => exact hr
      | none => exact ih s1 hr

/-- An invariant of the globals that is kept by noting a resolver call and by
recording a resolved, in-scope package under a key that is absent is kept by
`processPackage` called on an absent key. -/
theorem processPackageAux_inv (res : Resolver) (cfg : Config) (stopOnError : Bool)
    (I : State → Prop)
    (hlog : ∀ st pkgName root, I st → ignoredAt cfg pkgName = false →
      I (st.logCall pkgName root))
    (hrec : ∀ st pkgName root, I st → st.pkgs.get? pkgName = none →
      ignoredAt cfg pkgName = false → inScope cfg (res pkgName root).1.ImportPath = true →
      ((res pkgName root).2.isSome = true → stopOnError = false) →
      I (st.record pkgName (res pkgName root).1 (res pkgName root).2.isSome)) :
    ∀ (n : Nat) (root pkgName : String) (level : Nat) (importedBy : String) (st : State),
      st.pkgs.get? pkgName = none → I st →
      I (processPackageAux res cfg stopOnError n root pkgName level importedBy st).2 := by
  intro n
  induction n with
  | zero => intro root pkgName level importedBy st _ h; exact h
  | succ n ih =>
    intro root pkgName level importedBy st habs h
    unfold processPackageAux
    by_cases hl : level + 1 > maxLevel
    · rw [if_pos hl]; exact h
    · rw [if_neg hl]
      by_cases hig : ignoredAt cfg pkgName = true
      · rw [if_pos hig]; exact h
      · rw [if_neg hig]
        have hig2 : ignoredAt cfg pkgName = false := by simpa using hig
        have h1 := hlog st pkgName root h hig2
        dsimp only
        by_cases he : ((res pkgName root).2.isSome && stopOnError) = true
        · rw [if_pos he]; exact h1
        · rw [if_neg he]
          by_cases hs : (!(inScope cfg (res pkgName root).1.ImportPath)) = true
          · rw [if_pos hs]; exact h1
          · rw [if_neg hs]
            have hs2 : inScope cfg (res pkgName root).1.ImportPath = true := by simpa using hs
            have he2 : (res pkgName root).2.isSome = true → stopOnError = false := by
              intro hsome
              cases hstop : stopOnError with
              | false => rfl
              | true => rw [hsome, hstop] at he; exact absurd rfl he
            have h2 := hrec (st.logCall pkgName root) pkgName root h1 habs hig2 hs2 he2
            by_cases hgo : (res pkgName root).1.Goroot = true
            · rw [if_pos hgo]; exact h2
            · rw [if_neg hgo]
              exact importsLoop_inv I _ (fun imp s hI hab => ih _ imp _ _ s hab hI) _ _ h2

theorem processPackage_inv (res : Resolver) (cfg : Config) (stopOnError : Bool)
    (I : State → Prop)
    (hlog : ∀ st pkgName root, I st → ignoredAt cfg pkgName = false →
      I (st.logCall pkgName root))
    (hrec : ∀ st pkgName root, I st → st.pkgs.get? pkgName = none →
      ignoredAt cfg pkgName = false → inScope cfg (res pkgName root).1.ImportPath = true →
      ((res pkgName root).2.isSome = true → stopOnError = false) →
      I (st.record pkgName (res pkgName root).1 (res pkgName root).2.isSome))
    (root pkgName : String) (level : Nat) (importedBy : String) (st : State)
    (habs : st.pkgs.get? pkgName = none) (h : I st) :
    I (processPackage res cfg root pkgName level importedBy stopOnError st).2 :=
  processPackageAux_inv res cfg stopOnError I hlog hrec _ root pkgName level importedBy st habs h

/-! ## Counting lines -/

theorem countP_flatMap_zero {α β : Type} (q : β → Bool) (f : α → List β) (L : List α)
    (h : ∀ a ∈ L, (f a).countP q = 0) : (L.flatMap f).countP q = 0 := by
  induction L with
  | nil => rfl
  | cons a L ih =>
    rw [List.flatMap_cons, List.countP_append, h a (List.mem_cons_self _ _),
      ih (fun b hb => h b (List.mem_cons_of_mem _ hb))]

theorem countP_flatMap_unique {α β : Type} (q : β → Bool) (f : α → List β) (k : α)
    (L : List α) (hnd : L.Nodup) (hk : k ∈ L)
    (honly : ∀ a ∈ L, a ≠ k → (f a).countP q = 0) :
    (L.flatMap f).countP q = (f k).countP q := by
  induction L with
  | nil => cases hk
  | cons a L ih =>
    rw [List.flatMap_cons, List.countP_append]
    rw [List.nodup_cons] at hnd
    by_cases hak : a = k
    · subst hak
      rw [countP_flatMap_zero q f L (fun b hb =>
        honly b (List.mem_cons_of_mem _ hb) (fun e => hnd.1 (e ▸ hb)))]
      rfl
    · have hk2 : k ∈ L := by
        rcases List.mem_cons.1 hk with e | e
        · exact absurd e.symm hak
        · exact e
      rw [honly a (List.mem_cons_self _ _) hak,
        ih hnd.2 hk2 (fun b hb => honly b (List.mem_cons_of_mem _ hb)), Nat.zero_add]

theorem countP_isNodeOf_edges (P src : String) (l : List String) :
    (l.map (fun imp => Line.edge src (deriveNodeID imp))).countP (Line.isNodeOf P) = 0 := by
  rw [List.countP_eq_zero]
  intro a ha
  obtain ⟨imp, _, rfl⟩ := List.mem_map.1 ha
  simp [Line.isNodeOf]

theorem countP_isNodeOf_linesFor_ne (cfg : Config) (pkgs : GoMap Package)
    (erroredPkgs : GoMap Bool) (k P : String) (h : k ≠ P) :
    (linesFor cfg pkgs erroredPkgs k).countP (Line.isNodeOf P) = 0 := by
  unfold linesFor
  cases pkgs.get? k with
  | none => rfl
  | some p =>
    by_cases hi : isIgnored cfg p = true
    · simp [hi]
    · have hi2 : isIgnored cfg p = false := by simpa using hi
      simp only [hi2, Bool.false_eq_true, if_false]
      rw [List.countP_cons]
      have hn : Line.isNodeOf P (Line.node (deriveNodeID k) k (nodeColor erroredPkgs p)
          (pkgDocsURL k)) = false := by simp [Line.isNodeOf, h]
      rw [hn]
      by_cases hgo : p.Goroot = true
      · simp [hgo]
      · simp only [hgo, Bool.false_eq_true, if_false]
        rw [countP_isNodeOf_edges]

theorem countP_isNodeOf_linesFor_self (cfg : Config) (pkgs : GoMap Package)
    (erroredPkgs : GoMap Bool) (P : String) (p : Package) (hg : pkgs.get? P = some p)
    (hi : isIgnored cfg p = false) :
    (linesFor cfg pkgs erroredPkgs P).countP (Line.isNodeOf P) = 1 := by
  unfold linesFor
  simp only [hg, hi, Bool.false_eq_true, if_false]
  rw [List.countP_cons]
  have hn : Line.isNodeOf P (Line.node (deriveNodeID P) P (nodeColor erroredPkgs p)
      (pkgDocsURL P)) = true := by simp [Line.isNodeOf]
  rw [hn]
  by_cases hgo : p.Goroot = true
  · simp [hgo]
  · simp only [hgo, Bool.false_eq_true, if_false]
    rw [countP_isNodeOf_edges]
    rfl

/-- A retained key of the mapping is declared by exactly one node line. -/
theorem countP_isNodeOf_renderLines (cfg : Config) (pkgs : GoMap Package)
    (erroredPkgs : GoMap Bool) (P : String) (p : Package) (hg : pkgs.get? P = some p)
    (hi : isIgnored cfg p = false) :
    (renderLines cfg pkgs erroredPkgs).countP (Line.isNodeOf P) = 1 := by
  rw [renderLines_eq,
    countP_flatMap_unique _ _ P _ (nodup_sortStrings _ (GoMap.nodup_keys _))
      ((mem_sortStrings _ _).2 ((GoMap.mem_keys _ _).2 ⟨p, hg⟩))
      (fun a _ ha => countP_isNodeOf_linesFor_ne cfg pkgs erroredPkgs a P ha)]
  exact countP_isNodeOf_linesFor_self cfg pkgs erroredPkgs P p hg hi

/-- No label is declared by two node lines. -/
theorem countP_isNodeOf_renderLines_le (cfg : Config) (pkgs : GoMap Package)
    (erroredPkgs : GoMap Bool) (P : String) :
    (renderLines cfg pkgs erroredPkgs).countP (Line.isNodeOf P) ≤ 1 := by
  cases hg : pkgs.get? P with
  | none =>
    rw [renderLines_eq, countP_flatMap_zero]
    · exact Nat.zero_le _
    · intro a _
      by_cases ha : a = P
      · subst ha
        simp [linesFor, hg]
      · exact countP_isNodeOf_linesFor_ne cfg pkgs erroredPkgs a P ha
  | some p =>
    by_cases hi : isIgnored cfg p = true
    · rw [renderLines_eq, countP_flatMap_zero]
      · exact Nat.zero_le _
      · intro a _
        by_cases ha : a = P
        · subst ha
          simp [linesFor, hg, hi]
        · exact countP_isNodeOf_linesFor_ne cfg pkgs erroredPkgs a P ha
    · have hi2 : isIgnored cfg p = false := by simpa using hi
      rw [countP_isNodeOf_renderLines cfg pkgs erroredPkgs P p hg hi2]

theorem edge_injective (src : String) :
    Function.Injective (fun imp => Line.edge src (deriveNodeID imp)) := by
  intro a b h
  injection h with _ h2
  exact deriveNodeID_injective h2

theorem count_edge_linesFor_ne (cfg : Config) (pkgs : GoMap Package)
    (erroredPkgs : GoMap Bool) (a k t : String) (h : a ≠ k) :
    (linesFor cfg pkgs erroredPkgs a).count (Line.edge (deriveNodeID k) t) = 0 := by
  rw [List.count_eq_zero]
  intro hm
  unfold linesFor at hm
  cases hg : pkgs.get? a with
  | none => simp [hg] at hm
  | some p =>
    simp only [hg] at hm
    by_cases hi : isIgnored cfg p = true
    · simp [hi] at hm
    · have hi2 : isIgnored cfg p = false := by simpa using hi
      simp only [hi2, Bool.false_eq_true, if_false, List.mem_cons] at hm
      rcases hm with hm | hm
      · cases hm
      · by_cases hgo : p.Goroot = true
        · simp [hgo] at hm
        · simp only [hgo, Bool.false_eq_true, if_false, List.mem_map] at hm
          obtain ⟨imp, _, he⟩ := hm
          injection he with e1 _
          exact h (deriveNodeID_injective e1)

theorem count_edge_linesFor_self (cfg : Config) (pkgs : GoMap Package)
    (erroredPkgs : GoMap Bool) (k i : String) (p : Package) (hg : pkgs.get? k = some p)
    (hi : isIgnored cfg p = false) (hgo : p.Goroot = false) :
    (linesFor cfg pkgs erroredPkgs k).count (Line.edge (deriveNodeID k) (deriveNodeID i)) =
      (edgeTargets cfg pkgs p).count i := by
  unfold linesFor
  simp only [hg, hi, hgo, Bool.false_eq_true, if_false]
  rw [List.count_cons]
  have hne : (Line.node (deriveNodeID k) k (nodeColor erroredPkgs p) (pkgDocsURL k) ==
      Line.edge (deriveNodeID k) (deriveNodeID i)) = false := by
    rw [beq_eq_false_iff_ne]
    intro h
    cases h
  rw [hne]
  simp only [Bool.false_eq_true, if_false, Nat.add_zero]
  exact List.count_map_of_injective _ _ (edge_injective (deriveNodeID k)) i

/-- The number of edge lines from key `k` to import name `i`, for a retained,
non-standard-library package `k` of the mapping. -/
theorem count_edge_renderLines (cfg : Config) (pkgs : GoMap Package)
    (erroredPkgs : GoMap Bool) (k i : String) (p : Package) (hg : pkgs.get? k = some p)
    (hi : isIgnored cfg p = false) (hgo : p.Goroot = false) :
    (renderLines cfg pkgs erroredPkgs).count (Line.edge (deriveNodeID k) (deriveNodeID i)) =
      (edgeTargets cfg pkgs p).count i := by
  rw [renderLines_eq, List.count_eq_countP,
    countP_flatMap_unique _ _ k _ (nodup_sortStrings _ (GoMap.nodup_keys _))
      ((mem_sortStrings _ _).2 ((GoMap.mem_keys _ _).2 ⟨p, hg⟩))
      (fun a _ ha => by
        rw [← List.count_eq_countP]
        exact count_edge_linesFor_ne cfg pkgs erroredPkgs a k _ ha),
    ← List.count_eq_countP]
  exact count_edge_linesFor_self cfg pkgs erroredPkgs k i p hg hi hgo

/-- No edge line is printed twice. -/
theorem count_edge_renderLines_le (cfg : Config) (pkgs : GoMap Package)
    (erroredPkgs : GoMap Bool) (s t : String) :
    (renderLines cfg pkgs erroredPkgs).count (Line.edge s t) ≤ 1 := by
  by_cases hm : Line.edge s t ∈ renderLines cfg pkgs erroredPkgs
  · obtain ⟨k, p, imp, q, hg, hi, hgo, _, _, _, rfl, rfl⟩ :=
      (edge_mem_renderLines cfg pkgs erroredPkgs s t).1 hm
    rw [count_edge_renderLines cfg pkgs erroredPkgs k imp p hg hi hgo]
    exact List.nodup_iff_count_le_one.1 (nodup_edgeTargets cfg pkgs p) imp
  · rw [List.count_eq_zero.2 hm]
    exact Nat.zero_le _

/-! ## Scope filter -/

theorem inScope_iff (cfg : Config) (importPath : String) :
    inScope cfg importPath = true ↔
      (importPath = "./" ∨ cfg.moduleName.data <+: importPath.data) := by
  unfold inScope hasPrefix
  rw [Bool.or_eq_true, beq_iff_eq, List.isPrefixOf_iff_prefix]

/-- What a call does when the resolved package is outside the scope: nothing is
recorded, and the resolver was consulted at most for the package itself. -/
theorem processPackage_out_of_scope (res : Resolver) (cfg : Config) (root pkgName : String)
    (level : Nat) (importedBy : String) (stopOnError : Bool) (st : State)
    (h : inScope cfg (res pkgName root).1.ImportPath = false) :
    (processPackage res cfg root pkgName level importedBy stopOnError st).2.pkgs = st.pkgs ∧
      (processPackage res cfg root pkgName level importedBy stopOnError st).2.erroredPkgs =
        st.erroredPkgs ∧
      ((processPackage res cfg root pkgName level importedBy stopOnError st).2.calls = st.calls ∨
        (processPackage res cfg root pkgName level importedBy stopOnError st).2.calls =
          st.calls ++ [(pkgName, root)]) := by
  rw [processPackage_unfold]
  by_cases hl : level + 1 > maxLevel
  · rw [if_pos hl]; exact ⟨rfl, rfl, Or.inl rfl⟩
  · rw [if_neg hl]
    by_cases hig : ignoredAt cfg pkgName = true
    · rw [if_pos hig]; exact ⟨rfl, rfl, Or.inl rfl⟩
    · rw [if_neg hig]
      by_cases he : ((res pkgName root).2.isSome && stopOnError) = true
      · rw [if_pos he]; exact ⟨rfl, rfl, Or.inr rfl⟩
      · rw [if_neg he, h]
        exact ⟨rfl, rfl, Or.inr rfl⟩

/-- Every recorded descriptor is the resolver's answer for its key, searched from some
directory, and is in scope. -/
theorem recorded_in_scope (res : Resolver) (cfg : Config) (root pkgName : String)
    (level : Nat) (importedBy : String) (stopOnError : Bool) (k : String) (p : Package)
    (h : (processPackage res cfg root pkgName level importedBy stopOnError
      State.empty).2.pkgs.get? k = some p) :
    inScope cfg p.ImportPath = true ∧ ∃ dir, p = (res k dir).1 := by
  have key := processPackage_inv res cfg stopOnError
    (fun s => ∀ k p, s.pkgs.get? k = some p →
      inScope cfg p.ImportPath = true ∧ ∃ dir, p = (res k dir).1)
    (fun st _ _ hI _ => hI)
    (fun st name dir hI _ _ hs _ k p hk => by
      change (st.pkgs.set name (res name dir).1).get? k = some p at hk
      rw [GoMap.get?_set] at hk
      by_cases hkn : k = name
      · rw [if_pos hkn] at hk
        have hp : (res name dir).1 = p := Option.some.inj hk
        rw [← hp, hkn]
        exact ⟨hs, dir, rfl⟩
      · rw [if_neg hkn] at hk
        exact hI k p hk)
    root pkgName level importedBy State.empty rfl
    (fun k p hk => by simp [State.empty, GoMap.get?] at hk)
  exact key k p h

/-- C1 (scope filter).  For every resolver, configuration (module name) and policy:
after `processPackage` is run from the empty mapping, every stored descriptor has
an import path that is `"./"` or has the module name as a prefix, and is what the
resolver returned for its key; and a call whose resolved import path is neither
leaves both maps as they were and consults the resolver for nothing but the package
itself, so its imports are never walked. -/
theorem C1_scope_filter (res : Resolver) (cfg : Config) (root pkgName : String)
    (level : Nat) (importedBy : String) (stopOnError : Bool) :
    (∀ k p, (processPackage res cfg root pkgName level importedBy stopOnError
        State.empty).2.pkgs.get? k = some p →
      (p.ImportPath = "./" ∨ cfg.moduleName.data <+: p.ImportPath.data) ∧
        ∃ dir, p = (res k dir).1) ∧
    (∀ st : State,
      ¬((res pkgName root).1.ImportPath = "./" ∨
          cfg.moduleName.data <+: (res pkgName root).1.ImportPath.data) →
      (processPackage res cfg root pkgName level importedBy stopOnError st).2.pkgs = st.pkgs ∧
      (processPackage res cfg root pkgName level importedBy stopOnError st).2.erroredPkgs =
        st.erroredPkgs ∧
      ((processPackage res cfg root pkgName level importedBy stopOnError st).2.calls = st.calls ∨
        (processPackage res cfg root pkgName level importedBy stopOnError st).2.calls =
          st.calls ++ [(pkgName, root)])) := by
  constructor
  · intro k p h
    have := recorded_in_scope res cfg root pkgName level importedBy stopOnError k p h
    exact ⟨(inScope_iff cfg _).1 this.1, this.2⟩
  · intro st hns
    apply processPackage_out_of_scope
    cases hb : inScope cfg (res pkgName root).1.ImportPath with
    | false => rfl
    | true => exact absurd ((inScope_iff cfg _).1 hb) hns

/-- C1 at the example: `util` is stored with an import path under the module name, and
resolving `fmt` from the root directory records nothing. -/
theorem C1_scope_filter_witness :
    ((appUtil.ImportPath = "./" ∨ appCfg.moduleName.data <+: appUtil.ImportPath.data) ∧
      ∃ dir, appUtil = (appRes "example.com/app/util" dir).1) ∧
    (processPackage appRes appCfg "/src/app" "fmt" 1 "./" true State.empty).2.pkgs =
      State.empty.pkgs :=
  ⟨(C1_scope_filter appRes appCfg "/src/app" "./" 0 "" true).1 "example.com/app/util" appUtil
      (by decide),
    ((C1_scope_filter appRes appCfg "/src/app" "fmt" 1 "./" true).2 State.empty
      (by decide)).1⟩

/-! ## Standard-library packages -/

/-- C9 (standard-library short-circuit).  (a) A call below the ceiling on a name that
is not a pseudo-package, whose resolution does not abort and yields an in-scope
descriptor flagged standard-library, returns nil having consulted the resolver once
(for the package itself) and having written only the entry of the package: every other
key of the mapping reads as before.  (b) For every mapping, no edge line has as its
source the identifier of a key whose descriptor is flagged standard-library. -/
theorem C9_stdlib_short_circuit (res : Resolver) (cfg : Config) (root pkgName : String)
    (level : Nat) (importedBy : String) (stopOnError : Bool) (st : State) :
    (level < maxLevel → ignoredAt cfg pkgName = false →
      ((res pkgName root).2.isSome && stopOnError) = false →
      inScope cfg (res pkgName root).1.ImportPath = true →
      (res pkgName root).1.Goroot = true →
      (processPackage res cfg root pkgName level importedBy stopOnError st).1 = none ∧
      (processPackage res cfg root pkgName level importedBy stopOnError st).2.calls =
        st.calls ++ [(pkgName, root)] ∧
      (processPackage res cfg root pkgName level importedBy stopOnError st).2.pkgs.get? pkgName =
        some (res pkgName root).1 ∧
      ∀ i, i ≠ pkgName →
        (processPackage res cfg root pkgName level importedBy stopOnError st).2.pkgs.get? i =
          st.pkgs.get? i) ∧
    (∀ (pkgs : GoMap Package) (erroredPkgs : GoMap Bool) (s t k : String) (p : Package),
      Line.edge s t ∈ renderLines cfg pkgs erroredPkgs → pkgs.get? k = some p →
      p.Goroot = true → s ≠ deriveNodeID k) := by
  constructor
  · intro hl hig he hs hgo
    have hl2 : ¬ (level + 1 > maxLevel) := by omega
    rw [processPackage_unfold, if_neg hl2, hig, he, hs, hgo]
    refine ⟨rfl, rfl, ?_, ?_⟩
    · show ((st.logCall pkgName root).pkgs.set pkgName (res pkgName root).1).get? pkgName = _
      rw [GoMap.get?_set, if_pos rfl]
    · intro i hi
      show ((st.logCall pkgName root).pkgs.set pkgName (res pkgName root).1).get? i = _
      rw [GoMap.get?_set, if_neg hi]
      rfl
  · intro pkgs erroredPkgs s t k p hm hk hgo hs
    obtain ⟨k2, p2, imp, q, hg2, _, hgo2, _, _, _, hs2, _⟩ :=
      (edge_mem_renderLines cfg pkgs erroredPkgs s t).1 hm
    have hkk : k2 = k := deriveNodeID_injective (hs2.symm.trans hs)
    rw [hkk, hk] at hg2
    have hp : p = p2 := Option.some.inj hg2
    rw [← hp, hgo] at hgo2
    cases hgo2

/-- C9 at the example: resolving `fmt` as if it were in scope of a module named `f`
records `fmt` alone; its imports `errors` and `io` are neither resolved nor
recorded. -/
theorem C9_stdlib_short_circuit_witness :
    (processPackage appRes (defaultConfig "f") "/src/app" "fmt" 1 "./" true State.empty).2.calls =
        State.empty.calls ++ [("fmt", "/src/app")] ∧
      (processPackage appRes (defaultConfig "f") "/src/app" "fmt" 1 "./" true
        State.empty).2.pkgs.get? "io" = State.empty.pkgs.get? "io" :=
  have h := (C9_stdlib_short_circuit appRes (defaultConfig "f") "/src/app" "fmt" 1 "./" true
    State.empty).1 (by decide) (by decide) (by decide) (by decide) (by decide)
  ⟨h.2.1, h.2.2.2 "io" (by decide)⟩

/-! ## The rendered graph -/

/-- C10 (closed graph, symmetric ignore rules).  For every mapping, failure set and
configuration: the source and the target of every edge line are identifiers of node
lines of the same output; and whatever key the target identifies is in the mapping
with a descriptor that `isIgnored` accepts. -/
theorem C10_graph_closed (cfg : Config) (pkgs : GoMap Package) (erroredPkgs : GoMap Bool)
    (s t : String) (h : Line.edge s t ∈ renderLines cfg pkgs erroredPkgs) :
    (∃ l c u, Line.node s l c u ∈ renderLines cfg pkgs erroredPkgs) ∧
    (∃ l c u, Line.node t l c u ∈ renderLines cfg pkgs erroredPkgs) ∧
    (∀ k, t = deriveNodeID k → ∃ q, pkgs.get? k = some q ∧ isIgnored cfg q = false) := by
  obtain ⟨k, p, imp, q, hg, hi, _, _, hg2, hi2, hs, ht⟩ :=
    (edge_mem_renderLines cfg pkgs erroredPkgs s t).1 h
  refine ⟨⟨k, _, _, (node_mem_renderLines cfg pkgs erroredPkgs _ _ _ _).2
      ⟨p, hg, hi, hs, rfl, rfl⟩⟩,
    ⟨imp, _, _, (node_mem_renderLines cfg pkgs erroredPkgs _ _ _ _).2
      ⟨q, hg2, hi2, ht, rfl, rfl⟩⟩, ?_⟩
  intro k2 hk2
  have : imp = k2 := deriveNodeID_injective (ht.symm.trans hk2)
  rw [← this]
  exact ⟨q, hg2, hi2⟩

/-- C10 at the example of a package importing `b` twice: the target of its edge is
declared as a node. -/
theorem C10_graph_closed_witness :
    ∃ l c u, Line.node (deriveNodeID "example.com/app/b") l c u ∈
      renderLines appCfg twiceImportPkgs [] :=
  (C10_graph_closed appCfg twiceImportPkgs [] (deriveNodeID "example.com/app/a")
    (deriveNodeID "example.com/app/b") (by decide)).2.1

/-! ## Duplicate imports -/

/-- C4, as stated, fails on a package that lists its own import path: the package is
retained and not standard-library, the dependency is in its import list, in the
mapping and not ignored, and no edge is printed for it. -/
theorem C4_counterexample :
    ∃ p, selfImportPkgs.get? "example.com/app/a" = some p ∧ isIgnored appCfg p = false ∧
      p.Goroot = false ∧ "example.com/app/a" ∈ p.Imports ∧
      (renderLines appCfg selfImportPkgs []).count
        (Line.edge (deriveNodeID "example.com/app/a") (deriveNodeID "example.com/app/a")) = 0 :=
  ⟨_, rfl, by decide, by decide, by decide, by decide⟩

/-- C4 (amended).  For every mapping: for a retained, non-standard-library package
under key `k` and every dependency `i` of its import list other than the package's
own import path that is in the mapping and not ignored, exactly one edge line goes from
`k` to `i`, however often `i` occurs in the import list; and no edge line occurs twice
in the output. -/
theorem C4_one_edge_per_dependency (cfg : Config) (pkgs : GoMap Package)
    (erroredPkgs : GoMap Bool) :
    (∀ (k i : String) (p q : Package), pkgs.get? k = some p → isIgnored cfg p = false →
      p.Goroot = false → i ∈ p.Imports → i ≠ p.ImportPath → pkgs.get? i = some q →
      isIgnored cfg q = false →
      (renderLines cfg pkgs erroredPkgs).count
        (Line.edge (deriveNodeID k) (deriveNodeID i)) = 1) ∧
    (∀ s t, (renderLines cfg pkgs erroredPkgs).count (Line.edge s t) ≤ 1) := by
  constructor
  · intro k i p q hg hi hgo him hne hgi hii
    rw [count_edge_renderLines cfg pkgs erroredPkgs k i p hg hi hgo]
    exact List.count_eq_one_of_mem (nodup_edgeTargets cfg pkgs p)
      ((mem_edgeTargets cfg pkgs p i).2 ⟨(mem_getImports p i).2 ⟨him, hne⟩, q, hgi, hii⟩)
  · exact count_edge_renderLines_le cfg pkgs erroredPkgs

/-- C4 (amended) at the example of a package importing `b` twice: one edge. -/
theorem C4_one_edge_per_dependency_witness :
    (renderLines appCfg twiceImportPkgs []).count
      (Line.edge (deriveNodeID "example.com/app/a") (deriveNodeID "example.com/app/b")) = 1 :=
  (C4_one_edge_per_dependency appCfg twiceImportPkgs []).1 "example.com/app/a"
    "example.com/app/b" _ _ rfl (by decide) (by decide) (by decide) (by decide) rfl (by decide)

/-! ## The scenario of module `example.com/app` -/

theorem appCfg_not_ignored_of_inScope (ip : String) (h : inScope appCfg ip = true) :
    ignoredAt appCfg ip = false := by
  by_cases hc : ip = "C"
  · subst hc
    revert h
    decide
  · simp [ignoredAt, appCfg, defaultConfig, GoMap.get?, hc]

theorem isIgnored_appCfg (p : Package) (h : inScope appCfg p.ImportPath = true) :
    isIgnored appCfg p = false := by
  unfold isIgnored
  rw [appCfg_not_ignored_of_inScope _ h]
  simp [appCfg, defaultConfig, hasPrefixes]

theorem scenario_run (res : Resolver) (cwd : String) (rootPkg utilPkg fmtPkg : Package)
    (stopOnError : Bool) (h : AppScenario res cwd rootPkg utilPkg fmtPkg) :
    processPackage res appCfg cwd "./" 0 "" stopOnError State.empty =
      (none,
        { pkgs := [("example.com/app/util", utilPkg), ("./", rootPkg)],
          erroredPkgs := [],
          calls := [("./", cwd), ("example.com/app/util", rootPkg.Dir), ("fmt", rootPkg.Dir)] }) := by
  obtain ⟨h0, hs, hne, himp, hgo, h1, hu, huimp, hugo, h2, hf, hfgo⟩ := h
  have hgi : getImports rootPkg = ["example.com/app/util", "fmt"] := by
    have hne2 : rootPkg.ImportPath ≠ "fmt" := by
      intro hc
      rw [hc] at hs
      revert hs
      decide
    unfold getImports
    rw [himp]
    simp [getImportsLoop, Ne.symm hne, Ne.symm hne2]
  have hgu : getImports utilPkg = [] := by
    unfold getImports
    rw [huimp]
    rfl
  have hsu : inScope appCfg utilPkg.ImportPath = true := by rw [hu]; decide
  have hsf : inScope appCfg fmtPkg.ImportPath = false := by rw [hf]; decide
  have i0 : ignoredAt appCfg "./" = false := by decide
  have i1 : ignoredAt appCfg "example.com/app/util" = false := by decide
  have i2 : ignoredAt appCfg "fmt" = false := by decide
  have l0 : ¬ (0 + 1 > maxLevel) := by decide
  have l1 : ¬ (0 + 1 + 1 > maxLevel) := by decide
  rw [processPackage_unfold, if_neg l0, i0, h0, hs, hgo, hgi]
  simp only [Option.isSome_none, Bool.false_and, Bool.not_true, Bool.false_eq_true, if_false]
  have e1 : ∀ s, processPackage res appCfg rootPkg.Dir "example.com/app/util" (0 + 1) "./"
      stopOnError s =
        (none, (s.logCall "example.com/app/util" rootPkg.Dir).record "example.com/app/util"
          utilPkg false) := by
    intro s
    rw [processPackage_unfold, if_neg l1, i1, h1, hsu, hugo, hgu]
    simp [importsLoop]
  have e2 : ∀ s, processPackage res appCfg rootPkg.Dir "fmt" (0 + 1) "./" stopOnError s =
      (none, s.logCall "fmt" rootPkg.Dir) := by
    intro s
    rw [processPackage_unfold, if_neg l1, i2, h2, hsf]
    simp
  simp [importsLoop, e1, e2, State.record, State.logCall, State.empty, GoMap.set, GoMap.get?]

theorem scenario_lines (res : Resolver) (cwd : String) (rootPkg utilPkg fmtPkg : Package)
    (h : AppScenario res cwd rootPkg utilPkg fmtPkg) :
    renderLines appCfg [("example.com/app/util", utilPkg), ("./", rootPkg)] [] =
      [Line.node (deriveNodeID "./") "./" (nodeColor [] rootPkg) (pkgDocsURL "./"),
       Line.edge (deriveNodeID "./") (deriveNodeID "example.com/app/util"),
       Line.node (deriveNodeID "example.com/app/util") "example.com/app/util"
         (nodeColor [] utilPkg) (pkgDocsURL "example.com/app/util")] := by
  obtain ⟨h0, hs, hne, himp, hgo, h1, hu, huimp, hugo, h2, hf, hfgo⟩ := h
  have hgi : getImports rootPkg = ["example.com/app/util", "fmt"] := by
    have hne2 : rootPkg.ImportPath ≠ "fmt" := by
      intro hc
      rw [hc] at hs
      revert hs
      decide
    unfold getImports
    rw [himp]
    simp [getImportsLoop, Ne.symm hne, Ne.symm hne2]
  have hgu : getImports utilPkg = [] := by
    unfold getImports
    rw [huimp]
    rfl
  have hsu : inScope appCfg utilPkg.ImportPath = true := by rw [hu]; decide
  have hir := isIgnored_appCfg rootPkg hs
  have hiu := isIgnored_appCfg utilPkg hsu
  have hk : sortStrings (GoMap.keys [("example.com/app/util", utilPkg), ("./", rootPkg)]) =
      ["./", "example.com/app/util"] := by
    show sortStrings (List.dedup ["example.com/app/util", "./"]) = _
    decide
  rw [renderLines_eq, hk]
  simp [linesFor, edgeTargets, GoMap.get?, hir, hiu, hgo, hugo, hgi, hgu]

/-- C8 (scenario, module nodes and edge).  For every resolver that fits the scenario
and either policy, the traversal succeeds and the lines printed are, in this order, the
node of the root, the edge from the root to `util`, and the node of `util`: two nodes
and exactly one edge. -/
theorem C8_scenario_nodes_and_edge (res : Resolver) (cwd : String)
    (rootPkg utilPkg fmtPkg : Package) (stopOnError : Bool)
    (h : AppScenario res cwd rootPkg utilPkg fmtPkg) :
    (processPackage res appCfg cwd "./" 0 "" stopOnError State.empty).1 = none ∧
    renderLines appCfg (processPackage res appCfg cwd "./" 0 "" stopOnError State.empty).2.pkgs
        (processPackage res appCfg cwd "./" 0 "" stopOnError State.empty).2.erroredPkgs =
      [Line.node (deriveNodeID "./") "./" (nodeColor [] rootPkg) (pkgDocsURL "./"),
       Line.edge (deriveNodeID "./") (deriveNodeID "example.com/app/util"),
       Line.node (deriveNodeID "example.com/app/util") "example.com/app/util"
         (nodeColor [] utilPkg) (pkgDocsURL "example.com/app/util")] ∧
    (renderLines appCfg (processPackage res appCfg cwd "./" 0 "" stopOnError State.empty).2.pkgs
        (processPackage res appCfg cwd "./" 0 "" stopOnError
          State.empty).2.erroredPkgs).countP Line.isEdge = 1 := by
  rw [scenario_run res cwd rootPkg utilPkg fmtPkg stopOnError h]
  refine ⟨rfl, scenario_lines res cwd rootPkg utilPkg fmtPkg h, ?_⟩
  show (renderLines appCfg [("example.com/app/util", utilPkg), ("./", rootPkg)] []).countP
    Line.isEdge = 1
  rw [scenario_lines res cwd rootPkg utilPkg fmtPkg h]
  rfl

/-- C8 at the example resolver, under the policy of `main`. -/
theorem C8_scenario_nodes_and_edge_witness :
    renderLines appCfg (processPackage appRes appCfg "/src/app" "./" 0 "" true State.empty).2.pkgs
        (processPackage appRes appCfg "/src/app" "./" 0 "" true State.empty).2.erroredPkgs =
      [Line.node (deriveNodeID "./") "./" (nodeColor [] appRoot) (pkgDocsURL "./"),
       Line.edge (deriveNodeID "./") (deriveNodeID "example.com/app/util"),
       Line.node (deriveNodeID "example.com/app/util") "example.com/app/util"
         (nodeColor [] appUtil) (pkgDocsURL "example.com/app/util")] :=
  (C8_scenario_nodes_and_edge appRes "/src/app" appRoot appUtil stdFmt true
    (by unfold AppScenario; decide)).2.1

/-- C7, as stated, fails at the example resolver: `fmt` is flagged standard-library
with import path `fmt` and is resolved from the root's directory, yet no node line of
the output has the label `fmt`. -/
theorem C7_counterexample :
    (appRes "fmt" appRoot.Dir).1.Goroot = true ∧
    (appRes "fmt" appRoot.Dir).1.ImportPath = "fmt" ∧
    ("fmt", appRoot.Dir) ∈
      (processPackage appRes appCfg "/src/app" "./" 0 "" true State.empty).2.calls ∧
    (renderLines appCfg (processPackage appRes appCfg "/src/app" "./" 0 "" true State.empty).2.pkgs
      (processPackage appRes appCfg "/src/app" "./" 0 "" true
        State.empty).2.erroredPkgs).countP (Line.isNodeOf "fmt") = 0 := by
  decide

/-- C7 (amended).  For every resolver that fits the scenario and either policy: `fmt`
is resolved from the root's directory, nothing is resolved on its behalf (the resolver
is consulted for the root, `util` and `fmt` only), and, its import path being outside
the module scope, `fmt` is not entered into the mapping: the output has no node line
labelled `fmt` and no edge line from or to the identifier of `fmt`. -/
theorem C7_scenario_fmt_dropped (res : Resolver) (cwd : String)
    (rootPkg utilPkg fmtPkg : Package) (stopOnError : Bool)
    (h : AppScenario res cwd rootPkg utilPkg fmtPkg) :
    (processPackage res appCfg cwd "./" 0 "" stopOnError State.empty).2.calls =
      [("./", cwd), ("example.com/app/util", rootPkg.Dir), ("fmt", rootPkg.Dir)] ∧
    (processPackage res appCfg cwd "./" 0 "" stopOnError State.empty).2.pkgs.get? "fmt" = none ∧
    (renderLines appCfg (processPackage res appCfg cwd "./" 0 "" stopOnError State.empty).2.pkgs
        (processPackage res appCfg cwd "./" 0 "" stopOnError
          State.empty).2.erroredPkgs).countP (Line.isNodeOf "fmt") = 0 ∧
    (∀ s t, Line.edge s t ∈
        renderLines appCfg (processPackage res appCfg cwd "./" 0 "" stopOnError State.empty).2.pkgs
          (processPackage res appCfg cwd "./" 0 "" stopOnError State.empty).2.erroredPkgs →
      s ≠ deriveNodeID "fmt" ∧ t ≠ deriveNodeID "fmt") := by
  rw [scenario_run res cwd rootPkg utilPkg fmtPkg stopOnError h]
  have hl := scenario_lines res cwd rootPkg utilPkg fmtPkg h
  refine ⟨rfl, by simp [GoMap.get?], ?_, ?_⟩
  · show (renderLines appCfg [("example.com/app/util", utilPkg), ("./", rootPkg)] []).countP
      (Line.isNodeOf "fmt") = 0
    rw [hl]
    simp [List.countP_cons, Line.isNodeOf]
  · intro s t hm
    change Line.edge s t ∈
      renderLines appCfg [("example.com/app/util", utilPkg), ("./", rootPkg)] [] at hm
    rw [hl] at hm
    simp only [List.mem_cons, List.mem_singleton, List.not_mem_nil, or_false] at hm
    rcases hm with hm | hm | hm
    · cases hm
    · injection hm with e1 e2
      rw [e1, e2]
      exact ⟨fun hc => absurd (deriveNodeID_injective hc) (by decide),
        fun hc => absurd (deriveNodeID_injective hc) (by decide)⟩
    · cases hm

/-- C7 (amended) at the example resolver, under the policy of `main`. -/
theorem C7_scenario_fmt_dropped_witness :
    (processPackage appRes appCfg "/src/app" "./" 0 "" true State.empty).2.pkgs.get? "fmt" =
      none :=
  (C7_scenario_fmt_dropped appRes "/src/app" appRoot appUtil stdFmt true
    (by unfold AppScenario; decide)).2.1

/-! ## Keys of the mapping and import paths -/

/-- C2 at a failing input: the root, requested as `"./"`, resolves to the import path
`example.com/app` and lists `"./"` among its imports.  The traversal succeeds, and the
output has an edge line from the root's identifier to itself. -/
theorem C2_self_loop_at_root :
    (processPackage (gopathRootRes ["./"] none) appCfg "/gopath/src/example.com/app" "./" 0 ""
      true State.empty).1 = none ∧
    Line.edge (deriveNodeID "./") (deriveNodeID "./") ∈
      renderLines appCfg
        (processPackage (gopathRootRes ["./"] none) appCfg "/gopath/src/example.com/app" "./" 0
          "" true State.empty).2.pkgs
        (processPackage (gopathRootRes ["./"] none) appCfg "/gopath/src/example.com/app" "./" 0
          "" true State.empty).2.erroredPkgs := by
  decide

/-- C6 at a failing input: the root, requested as `"./"`, resolves with a build error
to the import path `example.com/app`.  Under continue-on-error the traversal succeeds
and the failure is noted under `"./"`; the package is retained, is not
standard-library, has no cgo files and is not vendored, and its node is printed with
the default colour, not `red`. -/
theorem C6_failed_root_not_red :
    (processPackage (gopathRootRes [] (some "no buildable Go source files")) appCfg
      "/gopath/src/example.com/app" "./" 0 "" false State.empty).1 = none ∧
    (processPackage (gopathRootRes [] (some "no buildable Go source files")) appCfg
      "/gopath/src/example.com/app" "./" 0 "" false State.empty).2.erroredPkgs.get? "./" =
        some true ∧
    renderLines appCfg
      (processPackage (gopathRootRes [] (some "no buildable Go source files")) appCfg
        "/gopath/src/example.com/app" "./" 0 "" false State.empty).2.pkgs
      (processPackage (gopathRootRes [] (some "no buildable Go source files")) appCfg
        "/gopath/src/example.com/app" "./" 0 "" false State.empty).2.erroredPkgs =
      [Line.node "\"./\"" "./" "paleturquoise" "https://godoc.org/./"] := by
  decide

/-- C5, as stated, fails at a root that resolves to its canonical import path: the
entry is stored under the key `"./"`, its descriptor has the import path
`example.com/app`, and the node line carries the key, not the import path, as label
and in its URL. -/
theorem C5_counterexample :
    ∃ p, (processPackage (gopathRootRes [] none) appCfg "/gopath/src/example.com/app" "./" 0 ""
        true State.empty).2.pkgs.get? "./" = some p ∧
      p.ImportPath = "example.com/app" ∧ p.ImportPath ≠ "./" ∧
      renderLines appCfg
        (processPackage (gopathRootRes [] none) appCfg "/gopath/src/example.com/app" "./" 0 ""
          true State.empty).2.pkgs
        (processPackage (gopathRootRes [] none) appCfg "/gopath/src/example.com/app" "./" 0 ""
          true State.empty).2.erroredPkgs =
        [Line.node "\"./\"" "./" "paleturquoise" "https://godoc.org/./"] :=
  ⟨(gopathRootRes [] none "./" "/gopath/src/example.com/app").1, by decide, by decide,
    by decide, by decide⟩

/-- C5 (amended).  The mapping is keyed by the name a package was requested under: for
every entry recorded by `processPackage` the stored descriptor is the resolver's
descriptor for the key, so that key and import path agree whenever the resolver
returns every package under the name it was asked for; and for every mapping each
node line has a key of the mapping as its label, the derived identifier of that key
as its identifier, and `https://godoc.org/` followed by that key as its URL. -/
theorem C5_keyed_by_requested_name (res : Resolver) (cfg : Config) (root pkgName : String)
    (level : Nat) (importedBy : String) (stopOnError : Bool) :
    (∀ k p, (processPackage res cfg root pkgName level importedBy stopOnError
        State.empty).2.pkgs.get? k = some p → ∃ dir, p = (res k dir).1) ∧
    ((∀ name dir, (res name dir).1.ImportPath = name) →
      ∀ k p, (processPackage res cfg root pkgName level importedBy stopOnError
        State.empty).2.pkgs.get? k = some p → p.ImportPath = k) ∧
    (∀ (pkgs : GoMap Package) (erroredPkgs : GoMap Bool) (i l c u : String),
      Line.node i l c u ∈ renderLines cfg pkgs erroredPkgs →
      (∃ p, pkgs.get? l = some p) ∧ i = "\"" ++ l ++ "\"" ∧ u = "https://godoc.org/" ++ l) := by
  refine ⟨?_, ?_, ?_⟩
  · intro k p h
    exact (recorded_in_scope res cfg root pkgName level importedBy stopOnError k p h).2
  · intro hc k p h
    obtain ⟨dir, hd⟩ :=
      (recorded_in_scope res cfg root pkgName level importedBy stopOnError k p h).2
    rw [hd]
    exact hc k dir
  · intro pkgs erroredPkgs i l c u h
    obtain ⟨p, hg, _, hi, _, hu⟩ := (node_mem_renderLines cfg pkgs erroredPkgs i l c u).1 h
    exact ⟨⟨p, hg⟩, hi, hu⟩

/-- C5 (amended) at the example resolver, which returns every package under the name
it is asked for: `util` is stored under its import path. -/
theorem C5_keyed_by_requested_name_witness :
    appUtil.ImportPath = "example.com/app/util" :=
  (C5_keyed_by_requested_name appRes appCfg "/src/app" "./" 0 "" true).2.1
    (fun name dir => by
      unfold appRes
      split_ifs with h1 h2 h3
      · exact h1.symm
      · exact h2.symm
      · exact h3.symm
      · rfl)
    "example.com/app/util" appUtil (by decide)

/-! ## The mapping is closed under imports below the ceiling -/

theorem importsLoop_extends (recurse : String → State → Option String × State)
    (hrec : ∀ imp s, s.pkgs.get? imp = none → Extends s (recurse imp s).2)
    (l : List String) (st : State) : Extends st (importsLoop recurse l st).2 :=
  (importsLoop_inv (fun s => Extends st s) recurse
    (fun imp s hI hab => hI.trans (hrec imp s hab))) l st (Extends.refl st)

/-- A call on an absent key only adds bindings to the mapping. -/
theorem processPackageAux_extends (res : Resolver) (cfg : Config) (stopOnError : Bool)
    (n : Nat) (root pkgName : String) (level : Nat) (importedBy : String) (st : State)
    (habs : st.pkgs.get? pkgName = none) :
    Extends st (processPackageAux res cfg stopOnError n root pkgName level importedBy st).2 :=
  processPackageAux_inv res cfg stopOnError (fun s => Extends st s)
    (fun s name d hI _ => hI.trans (Extends.logCall s name d))
    (fun s name _ hI hab _ _ _ => hI.trans (Extends.record s name _ _ hab))
    n root pkgName level importedBy st habs (Extends.refl st)

theorem ImportsClosed.mono (res : Resolver) (cfg : Config) {M M2 : GoMap Package} {p : Package}
    (hM : ∀ k q, M.get? k = some q → M2.get? k = some q) (h : ImportsClosed res cfg M p) :
    ImportsClosed res cfg M2 p := by
  rcases h with h | h
  · exact Or.inl h
  · refine Or.inr (fun i hi => ?_)
    rcases h i hi with ⟨q, hq⟩ | h2 | h2
    · exact Or.inl ⟨q, hM i q hq⟩
    · exact Or.inr (Or.inl h2)
    · exact Or.inr (Or.inr h2)

/-- The import loop, given what the recursive call guarantees below the ceiling. -/
theorem importsLoop_closed (res : Resolver) (cfg : Config) (dir : String) (lvl : Nat)
    (recurse : String → State → Option String × State)
    (hext : ∀ imp s, s.pkgs.get? imp = none → Extends s (recurse imp s).2)
    (hrec : ∀ imp s, s.pkgs.get? imp = none → lvl ≤ s.pkgs.len → (recurse imp s).1 = none →
      (recurse imp s).2.pkgs.len < maxLevel →
      (∀ k p, (recurse imp s).2.pkgs.get? k = some p → s.pkgs.get? k = none →
        ImportsClosed res cfg (recurse imp s).2.pkgs p) ∧
      ((∃ q, (recurse imp s).2.pkgs.get? imp = some q) ∨ ignoredAt cfg imp = true ∨
        inScope cfg (res imp dir).1.ImportPath = false)) :
    ∀ (l : List String) (st : State), lvl ≤ st.pkgs.len →
      (importsLoop recurse l st).1 = none → (importsLoop recurse l st).2.pkgs.len < maxLevel →
      (∀ k p, (importsLoop recurse l st).2.pkgs.get? k = some p → st.pkgs.get? k = none →
        ImportsClosed res cfg (importsLoop recurse l st).2.pkgs p) ∧
      (∀ i ∈ l, (∃ q, (importsLoop recurse l st).2.pkgs.get? i = some q) ∨
        ignoredAt cfg i = true ∨ inScope cfg (res i dir).1.ImportPath = false) := by
  intro l
  induction l with
  | nil =>
    intro st _ _ _
    refine ⟨fun k p h1 h2 => ?_, fun i hi => absurd hi (List.not_mem_nil i)⟩
    change st.pkgs.get? k = some p at h1
    rw [h2] at h1
    cases h1
  | cons imp rest ih =>
    intro st hlen
    have hloopext : ∀ s, Extends s (importsLoop recurse rest s).2 :=
      fun s => importsLoop_extends recurse hext rest s
    unfold importsLoop
    cases hg : st.pkgs.get? imp with
    | some q0 =>
      intro hnone hlt
      have := ih st hlen hnone hlt
      refine ⟨this.1, fun i hi => ?_⟩
      rcases List.mem_cons.1 hi with rfl | hi
      · exact Or.inl ⟨q0, (hloopext st).1 _ _ hg⟩
      · exact this.2 i hi
    | none =>
      have hr := hrec imp st hg hlen
      have he := hext imp st hg
      rcases hre : recurse imp st with ⟨e, s1⟩
      rw [hre] at hr he
      cases e with
      | some err => intro hnone; cases hnone
      | none =>
        intro hnone hlt
        have hx := hloopext s1
        have hs1 : s1.pkgs.len < maxLevel := lt_of_le_of_lt hx.2 hlt
        have h1 := hr rfl hs1
        have h2 := ih s1 (le_trans hlen he.2) hnone hlt
        refine ⟨fun k p hk hab => ?_, fun i hi => ?_⟩
        · cases hk1 : s1.pkgs.get? k with
          | none => exact h2.1 k p hk hk1
          | some p1 =>
            have hk2 := hx.1 k p1 hk1
            simp only at hk hk2
            rw [hk] at hk2
            have hpp : p = p1 := Option.some.inj hk2
            rw [hpp]
            exact ImportsClosed.mono res cfg hx.1 (h1.1 k p1 hk1 hab)
        · rcases List.mem_cons.1 hi with rfl | hi
          · rcases h1.2 with ⟨q, hq⟩ | h3 | h3
            · exact Or.inl ⟨q, hx.1 _ _ hq⟩
            · exact Or.inr (Or.inl h3)
            · exact Or.inr (Or.inr h3)
          · exact h2.2 i hi

/-- A successful call on an absent key that starts with at least `level` entries and
ends with fewer than `maxLevel`: every entry it added has its import list accounted
for in the final mapping, and so has the package it was called on. -/
theorem processPackageAux_closed (res : Resolver) (cfg : Config) (stopOnError : Bool) :
    ∀ (n : Nat) (root pkgName : String) (level : Nat) (importedBy : String) (st : State),
      level + n = maxLevel → st.pkgs.get? pkgName = none → level ≤ st.pkgs.len →
      (processPackageAux res cfg stopOnError n root pkgName level importedBy st).1 = none →
      (processPackageAux res cfg stopOnError n root pkgName level importedBy st).2.pkgs.len <
        maxLevel →
      (∀ k p, (processPackageAux res cfg stopOnError n root pkgName level importedBy
          st).2.pkgs.get? k = some p → st.pkgs.get? k = none →
        ImportsClosed res cfg
          (processPackageAux res cfg stopOnError n root pkgName level importedBy st).2.pkgs p) ∧
      ((∃ q, (processPackageAux res cfg stopOnError n root pkgName level importedBy
          st).2.pkgs.get? pkgName = some q) ∨ ignoredAt cfg pkgName = true ∨
        inScope cfg (res pkgName root).1.ImportPath = false) := by
  intro n
  induction n with
  | zero =>
    intro root pkgName level importedBy st hn _ hlen _ hlt
    change st.pkgs.len < maxLevel at hlt
    omega
  | succ n ih =>
    intro root pkgName level importedBy st hn habs hlen
    have hvac : ∀ k p, st.pkgs.get? k = some p → st.pkgs.get? k = none →
        ImportsClosed res cfg st.pkgs p := by
      intro k p h1 h2
      rw [h2] at h1
      cases h1
    unfold processPackageAux
    have hl : ¬ (level + 1 > maxLevel) := by omega
    rw [if_neg hl]
    by_cases hig : ignoredAt cfg pkgName = true
    · rw [if_pos hig]
      intro _ _
      exact ⟨hvac, Or.inr (Or.inl hig)⟩
    · rw [if_neg hig]
      dsimp only
      by_cases he : ((res pkgName root).2.isSome && stopOnError) = true
      · rw [if_pos he]
        intro hnone
        cases hnone
      · rw [if_neg he]
        by_cases hs : (!(inScope cfg (res pkgName root).1.ImportPath)) = true
        · rw [if_pos hs]
          intro _ _
          exact ⟨hvac, Or.inr (Or.inr (by simpa using hs))⟩
        · rw [if_neg hs]
          have hrecd : Extends st ((st.logCall pkgName root).record pkgName (res pkgName root).1
              (res pkgName root).2.isSome) :=
            (Extends.logCall st pkgName root).trans (Extends.record _ _ _ _ habs)
          have hself : ((st.logCall pkgName root).record pkgName (res pkgName root).1
              (res pkgName root).2.isSome).pkgs.get? pkgName = some (res pkgName root).1 := by
            show (st.pkgs.set pkgName (res pkgName root).1).get? pkgName = _
            rw [GoMap.get?_set, if_pos rfl]
          have hother : ∀ k, k ≠ pkgName →
              ((st.logCall pkgName root).record pkgName (res pkgName root).1
                (res pkgName root).2.isSome).pkgs.get? k = st.pkgs.get? k := by
            intro k hk
            show (st.pkgs.set pkgName (res pkgName root).1).get? k = _
            rw [GoMap.get?_set, if_neg hk]
          have hlen2 : level + 1 ≤ ((st.logCall pkgName root).record pkgName
              (res pkgName root).1 (res pkgName root).2.isSome).pkgs.len := by
            show level + 1 ≤ (st.pkgs.set pkgName (res pkgName root).1).len
            rw [GoMap.len_set_of_none _ _ _ habs]
            exact Nat.succ_le_succ hlen
          by_cases hgo : (res pkgName root).1.Goroot = true
          · rw [if_pos hgo]
            intro _ _
            refine ⟨fun k p hk hab => ?_, Or.inl ⟨_, hself⟩⟩
            by_cases hkn : k = pkgName
            · simp only at hk
              rw [hkn, hself] at hk
              rw [← Option.some.inj hk]
              exact Or.inl hgo
            · simp only at hk
              rw [hother k hkn, hab] at hk
              cases hk
          · rw [if_neg hgo]
            intro hnone hlt
            have hloop := importsLoop_closed res cfg (res pkgName root).1.Dir (level + 1)
              (fun imp s => processPackageAux res cfg stopOnError n (res pkgName root).1.Dir imp
                (level + 1) pkgName s)
              (fun imp s hab => processPackageAux_extends res cfg stopOnError n _ imp _ _ s hab)
              (fun imp s hab hle h1 h2 => ih _ imp (level + 1) pkgName s (by omega) hab hle h1 h2)
              (getImports (res pkgName root).1) _ hlen2 hnone hlt
            have hx := importsLoop_extends
              (fun imp s => processPackageAux res cfg stopOnError n (res pkgName root).1.Dir imp
                (level + 1) pkgName s)
              (fun imp s hab => processPackageAux_extends res cfg stopOnError n _ imp _ _ s hab)
              (getImports (res pkgName root).1)
              ((st.logCall pkgName root).record pkgName (res pkgName root).1
                (res pkgName root).2.isSome)
            have hfin := hx.1 pkgName _ hself
            refine ⟨fun k p hk hab => ?_, Or.inl ⟨_, hfin⟩⟩
            by_cases hkn : k = pkgName
            · rw [hkn, hfin] at hk
              rw [← Option.some.inj hk]
              exact Or.inr hloop.2
            · exact hloop.1 k p hk ((hother k hkn).trans hab)

/-- After a successful traversal from the empty mapping that ends with fewer than
`maxLevel` entries, the import list of every recorded descriptor is accounted for, and
so is the package the traversal was started on. -/
theorem processPackage_closed (res : Resolver) (cfg : Config) (root pkgName : String)
    (importedBy : String) (stopOnError : Bool)
    (hnone : (processPackage res cfg root pkgName 0 importedBy stopOnError State.empty).1 = none)
    (hlt : (processPackage res cfg root pkgName 0 importedBy stopOnError
      State.empty).2.pkgs.len < maxLevel) :
    (∀ k p, (processPackage res cfg root pkgName 0 importedBy stopOnError
        State.empty).2.pkgs.get? k = some p →
      ImportsClosed res cfg
        (processPackage res cfg root pkgName 0 importedBy stopOnError State.empty).2.pkgs p) ∧
    ((∃ q, (processPackage res cfg root pkgName 0 importedBy stopOnError
        State.empty).2.pkgs.get? pkgName = some q) ∨ ignoredAt cfg pkgName = true ∨
      inScope cfg (res pkgName root).1.ImportPath = false) := by
  have h := processPackageAux_closed res cfg stopOnError (maxLevel - 0) root pkgName
    0 importedBy State.empty (by omega) rfl (Nat.zero_le _) hnone hlt
  exact ⟨fun k p hk => h.1 k p hk rfl, h.2⟩

/-! ## Node completeness -/

theorem countP_isNodeOf_renderLines_none (cfg : Config) (pkgs : GoMap Package)
    (erroredPkgs : GoMap Bool) (P : String) (hg : pkgs.get? P = none) :
    (renderLines cfg pkgs erroredPkgs).countP (Line.isNodeOf P) = 0 := by
  rw [renderLines_eq, countP_flatMap_zero]
  intro a _
  by_cases ha : a = P
  · subst ha
    simp [linesFor, hg]
  · exact countP_isNodeOf_linesFor_ne cfg pkgs erroredPkgs a P ha

set_option maxRecDepth 100000 in
/-- The names of the chain are decoded by `chainIndex`, differ from the root and from
`m/end`, are not pseudo-packages and are in the scope of module `m`. -/
theorem chain_facts : ∀ k < 256, chainIndex (chainName k) = some k ∧ chainName k ≠ "./" ∧
    chainName k ≠ "m/end" ∧ ignoredAt (defaultConfig "m") (chainName k) = false ∧
    inScope (defaultConfig "m") (chainName k) = true := by
  decide

theorem chainName_injective {j k : Nat} (hj : j < 256) (hk : k < 256)
    (h : chainName j = chainName k) : j = k := by
  have h1 := (chain_facts j hj).1
  rw [h, (chain_facts k hk).1] at h1
  exact (Option.some.inj h1).symm

theorem chainRes_chainName (k : Nat) (hk : k < 256) (dir : String) :
    chainRes (chainName k) dir = (chainPkg k, none) := by
  obtain ⟨h1, h2, _, _, _⟩ := chain_facts k hk
  simp [chainRes, h1, h2]

theorem getImports_chainPkg (k : Nat) (hk : k < 255) :
    getImports (chainPkg k) = [chainName (k + 1)] := by
  have hne : chainName (k + 1) ≠ chainName k := by
    intro h
    have := chainName_injective (by omega) (by omega) h
    omega
  have hk2 : k ≠ 255 := by omega
  simp [getImports, chainPkg, getImportsLoop, hne, hk2]

theorem getImports_chainPkg_last : getImports (chainPkg 255) = ["m/end"] := by decide

/-- The traversal of the chain from its `k`-th package, entered at depth `k`, in a
state that holds none of the packages from the `k`-th on: it succeeds, records the
255th package, and does not record `m/end`. -/
theorem chain_segment : ∀ (m k : Nat), k + m = 255 → 1 ≤ k →
    ∀ (st : State) (importedBy : String),
      (∀ j, k ≤ j → j ≤ 255 → st.pkgs.get? (chainName j) = none) →
      st.pkgs.get? "m/end" = none →
      (processPackage chainRes (defaultConfig "m") "" (chainName k) k importedBy true st).1 =
          none ∧
        (processPackage chainRes (defaultConfig "m") "" (chainName k) k importedBy true
          st).2.pkgs.get? "m/end" = none ∧
        (processPackage chainRes (defaultConfig "m") "" (chainName k) k importedBy true
          st).2.pkgs.get? (chainName 255) = some (chainPkg 255) := by
  intro m
  induction m with
  | zero =>
    intro k hk _ st importedBy _ hend
    have hk255 : k = 255 := by omega
    subst hk255
    obtain ⟨_, _, h3, h4, h5⟩ := chain_facts 255 (by omega)
    have hcut : ∀ s, processPackage chainRes (defaultConfig "m") "" "m/end" (255 + 1)
        (chainName 255) true s = (none, s) := by
      intro s
      rw [processPackage_unfold, if_pos (by decide)]
    rw [processPackage_unfold, if_neg (by decide), h4, chainRes_chainName 255 (by omega)]
    have h5b : inScope (defaultConfig "m") (chainPkg 255).ImportPath = true := h5
    simp only [h5b, Option.isSome_none, Bool.false_and, Bool.not_true, Bool.false_eq_true,
      if_false]
    have hgo : (chainPkg 255).Goroot = false := rfl
    have hdir : (chainPkg 255).Dir = "" := rfl
    rw [hgo, getImports_chainPkg_last, hdir]
    simp only [Bool.false_eq_true, if_false]
    have hg : ((st.logCall (chainName 255) "").record (chainName 255) (chainPkg 255)
        false).pkgs.get? "m/end" = none := by
      show (st.pkgs.set (chainName 255) (chainPkg 255)).get? "m/end" = none
      rw [GoMap.get?_set, if_neg (Ne.symm h3), hend]
    unfold importsLoop
    rw [hg]
    simp only [hcut]
    unfold importsLoop
    refine ⟨rfl, hg, ?_⟩
    show (st.pkgs.set (chainName 255) (chainPkg 255)).get? (chainName 255) = _
    rw [GoMap.get?_set, if_pos rfl]
  | succ m ih =>
    intro k hk hk1 st importedBy habs hend
    obtain ⟨_, _, h3, h4, h5⟩ := chain_facts k (by omega)
    have hl : ¬ (k + 1 > maxLevel) := by unfold maxLevel; omega
    rw [processPackage_unfold, if_neg hl, h4, chainRes_chainName k (by omega)]
    have h5b : inScope (defaultConfig "m") (chainPkg k).ImportPath = true := h5
    simp only [h5b, Option.isSome_none, Bool.false_and, Bool.not_true, Bool.false_eq_true,
      if_false]
    have hgo : (chainPkg k).Goroot = false := rfl
    have hdir : (chainPkg k).Dir = "" := rfl
    rw [hgo, getImports_chainPkg k (by omega), hdir]
    simp only [Bool.false_eq_true, if_false]
    have hne : ∀ j, k + 1 ≤ j → j ≤ 255 → chainName j ≠ chainName k := by
      intro j hj1 hj2 h
      have := chainName_injective (by omega) (by omega) h
      omega
    have hg : ∀ j, k + 1 ≤ j → j ≤ 255 →
        ((st.logCall (chainName k) "").record (chainName k) (chainPkg k)
          false).pkgs.get? (chainName j) = none := by
      intro j hj1 hj2
      show (st.pkgs.set (chainName k) (chainPkg k)).get? (chainName j) = none
      rw [GoMap.get?_set, if_neg (hne j hj1 hj2)]
      exact habs j (by omega) hj2
    have hg2 : ((st.logCall (chainName k) "").record (chainName k) (chainPkg k)
        false).pkgs.get? "m/end" = none := by
      show (st.pkgs.set (chainName k) (chainPkg k)).get? "m/end" = none
      rw [GoMap.get?_set, if_neg (Ne.symm h3), hend]
    have hrec := ih (k + 1) (by omega) (by omega) _ (chainName k) hg hg2
    unfold importsLoop
    rw [hg (k + 1) (le_refl _) (by omega)]
    simp only
    rcases hr : processPackage chainRes (defaultConfig "m") "" (chainName (k + 1)) (k + 1)
      (chainName k) true ((st.logCall (chainName k) "").record (chainName k) (chainPkg k) false)
      with ⟨e, s1⟩
    rw [hr] at hrec
    simp only at hrec
    obtain ⟨he, h1, h2⟩ := hrec
    subst he
    simp only
    unfold importsLoop
    exact ⟨rfl, h1, h2⟩

/-- The traversal of the chain from its root, in a state that holds none of its
packages: it succeeds, records the root and the 255th package of the chain (reached at
depth 255, first, through the chain), and does not record `m/end`. -/
theorem chain_from_root (st : State)
    (habs0 : ∀ j, 1 ≤ j → j ≤ 255 → st.pkgs.get? (chainName j) = none)
    (hend0 : st.pkgs.get? "m/end" = none) :
    (processPackage chainRes (defaultConfig "m") "" "./" 0 "" true st).1 = none ∧
    (processPackage chainRes (defaultConfig "m") "" "./" 0 "" true st).2.pkgs.get? "./" =
      some chainRoot ∧
    (processPackage chainRes (defaultConfig "m") "" "./" 0 "" true st).2.pkgs.get?
      (chainName 255) = some (chainPkg 255) ∧
    (processPackage chainRes (defaultConfig "m") "" "./" 0 "" true st).2.pkgs.get?
      "m/end" = none := by
  have hroot : chainRes "./" "" = (chainRoot, none) := rfl
  have hgi : getImports chainRoot = [chainName 1, chainName 255] := by decide
  have hdir : chainRoot.Dir = "" := rfl
  have hgo : chainRoot.Goroot = false := rfl
  have hs : inScope (defaultConfig "m") chainRoot.ImportPath = true := by decide
  have hig : ignoredAt (defaultConfig "m") "./" = false := by decide
  rw [processPackage_unfold, if_neg (by decide), hig, hroot]
  simp only [hs, hgo, hgi, hdir, Option.isSome_none, Bool.false_and, Bool.not_true,
    Bool.false_eq_true, if_false]
  have hself : ((st.logCall "./" "").record "./" chainRoot false).pkgs.get? "./" =
      some chainRoot := by
    show (st.pkgs.set "./" chainRoot).get? "./" = _
    rw [GoMap.get?_set, if_pos rfl]
  have habs : ∀ j, 1 ≤ j → j ≤ 255 →
      ((st.logCall "./" "").record "./" chainRoot false).pkgs.get? (chainName j) = none := by
    intro j hj1 hj
    show (st.pkgs.set "./" chainRoot).get? (chainName j) = _
    rw [GoMap.get?_set, if_neg (chain_facts j (by omega)).2.1]
    exact habs0 j hj1 hj
  have hend : ((st.logCall "./" "").record "./" chainRoot false).pkgs.get? "m/end" = none := by
    show (st.pkgs.set "./" chainRoot).get? "m/end" = _
    rw [GoMap.get?_set, if_neg (by decide)]
    exact hend0
  have hseg := chain_segment 254 1 (by omega) (le_refl _) _ "./" habs hend
  have hext := processPackageAux_extends chainRes (defaultConfig "m") true (maxLevel - 1) ""
    (chainName 1) 1 "./" _ (habs 1 (le_refl _) (by omega))
  change Extends _ (processPackage chainRes (defaultConfig "m") "" (chainName 1) 1 "./" true
    ((st.logCall "./" "").record "./" chainRoot false)).2 at hext
  unfold importsLoop
  rw [habs 1 (le_refl _) (by omega)]
  simp only
  rcases hr : processPackage chainRes (defaultConfig "m") "" (chainName 1) (0 + 1) "./" true
    ((st.logCall "./" "").record "./" chainRoot false) with ⟨e, s1⟩
  have hr2 : processPackage chainRes (defaultConfig "m") "" (chainName 1) 1 "./" true
    ((st.logCall "./" "").record "./" chainRoot false) = (e, s1) := hr
  rw [hr2] at hseg hext
  simp only at hseg
  obtain ⟨he, h1, h2⟩ := hseg
  subst he
  simp only
  unfold importsLoop
  rw [h2]
  simp only
  unfold importsLoop
  exact ⟨rfl, hext.1 "./" chainRoot hself, h2, h1⟩

/-- The traversal of the chain, as `main` starts it. -/
theorem chain_run :
    (processPackage chainRes (defaultConfig "m") "" "./" 0 "" true State.empty).1 = none ∧
    (processPackage chainRes (defaultConfig "m") "" "./" 0 "" true State.empty).2.pkgs.get? "./" =
      some chainRoot ∧
    (processPackage chainRes (defaultConfig "m") "" "./" 0 "" true State.empty).2.pkgs.get?
      (chainName 255) = some (chainPkg 255) ∧
    (processPackage chainRes (defaultConfig "m") "" "./" 0 "" true State.empty).2.pkgs.get?
      "m/end" = none :=
  chain_from_root State.empty (fun _ _ _ => rfl) rfl

/-- C3, as stated, fails on a chain of imports as long as the ceiling.  In module `m`,
with a resolver that returns every package under the name asked for, the root imports
the first package of a chain and, directly, the 255th; the 255th imports `m/end`.  The
traversal succeeds; `m/end` is reached from the root in two import steps through
recorded, non-standard-library packages, is in module scope and matches no ignore
rule; and no node line of the output is labelled `m/end`. -/
theorem C3_counterexample :
    (processPackage chainRes (defaultConfig "m") "" "./" 0 "" true State.empty).1 = none ∧
    Reach (processPackage chainRes (defaultConfig "m") "" "./" 0 "" true State.empty).2.pkgs ""
      "m/end" (chainPkg 255).Dir 2 ∧
    2 < maxLevel ∧
    inScope (defaultConfig "m") (chainRes "m/end" (chainPkg 255).Dir).1.ImportPath = true ∧
    ignoredAt (defaultConfig "m") "m/end" = false ∧
    isIgnored (defaultConfig "m") (chainRes "m/end" (chainPkg 255).Dir).1 = false ∧
    (renderLines (defaultConfig "m")
      (processPackage chainRes (defaultConfig "m") "" "./" 0 "" true State.empty).2.pkgs
      (processPackage chainRes (defaultConfig "m") "" "./" 0 "" true
        State.empty).2.erroredPkgs).countP (Line.isNodeOf "m/end") = 0 :=
  ⟨chain_run.1,
    Reach.step (Reach.step Reach.root chain_run.2.1 rfl (by decide)) chain_run.2.2.1 rfl
      (by decide),
    by decide, by decide, by decide, by decide,
    countP_isNodeOf_renderLines_none _ _ _ _ chain_run.2.2.2⟩

/-! ## Ignore rules and node colours -/

theorem hasPrefix_iff (s p : String) : hasPrefix s p = true ↔ p.data <+: s.data := by
  unfold hasPrefix
  exact List.isPrefixOf_iff_prefix

theorem hasPrefixes_iff (s : String) (l : List String) :
    hasPrefixes s l = true ↔ ∃ p ∈ l, p.data <+: s.data := by
  induction l with
  | nil => simp [hasPrefixes]
  | cons p ps ih =>
    unfold hasPrefixes
    by_cases h : hasPrefix s p = true
    · rw [if_pos h]
      simp only [true_iff]
      exact ⟨p, List.mem_cons_self _ _, (hasPrefix_iff s p).1 h⟩
    · rw [if_neg h, ih]
      constructor
      · rintro ⟨q, hq, hp⟩
        exact ⟨q, List.mem_cons_of_mem _ hq, hp⟩
      · rintro ⟨q, hq, hp⟩
        rcases List.mem_cons.1 hq with rfl | hq
        · exact absurd ((hasPrefix_iff s q).2 hp) h
        · exact ⟨q, hq, hp⟩

theorem ignoredAt_iff (cfg : Config) (name : String) :
    ignoredAt cfg name = true ↔ cfg.ignored.get? name = some true := by
  unfold ignoredAt
  cases cfg.ignored.get? name with
  | none => simp
  | some v => simp

/-- C16 (`isIgnored`, reference definition).  For every package and configuration,
`isIgnored` is true exactly when the allow-list `onlyPrefixes` is non-empty and none of
its elements is a prefix of the package's import path, or the import path is in the
exact-match set `ignored`, or some element of `ignoredPrefixes` is a prefix of the import
path.  In the default configuration the exact-match set holds `"C"` and `isIgnored` is
true exactly for the import path `"C"`. -/
theorem C16_isIgnored_reference (cfg : Config) (pkg : Package) (moduleName : String) :
    (isIgnored cfg pkg = true ↔
      (cfg.onlyPrefixes ≠ [] ∧ ¬ ∃ p ∈ cfg.onlyPrefixes, p.data <+: pkg.ImportPath.data) ∨
        cfg.ignored.get? pkg.ImportPath = some true ∨
        ∃ p ∈ cfg.ignoredPrefixes, p.data <+: pkg.ImportPath.data) ∧
    (defaultConfig moduleName).ignored.get? "C" = some true ∧
    (isIgnored (defaultConfig moduleName) pkg = true ↔ pkg.ImportPath = "C") := by
  have hgen : ∀ c : Config, isIgnored c pkg = true ↔
      (c.onlyPrefixes ≠ [] ∧ ¬ ∃ p ∈ c.onlyPrefixes, p.data <+: pkg.ImportPath.data) ∨
        c.ignored.get? pkg.ImportPath = some true ∨
        ∃ p ∈ c.ignoredPrefixes, p.data <+: pkg.ImportPath.data := by
    intro c
    unfold isIgnored
    by_cases h1 : (decide (c.onlyPrefixes.length > 0) &&
        !hasPrefixes pkg.ImportPath c.onlyPrefixes) = true
    · rw [if_pos h1]
      simp only [true_iff]
      rw [Bool.and_eq_true, decide_eq_true_eq, Bool.not_eq_true', ← Bool.not_eq_true,
        hasPrefixes_iff] at h1
      exact Or.inl ⟨fun h => by rw [h] at h1; exact absurd h1.1 (by simp), h1.2⟩
    · rw [if_neg h1, Bool.or_eq_true, ignoredAt_iff, hasPrefixes_iff]
      constructor
      · intro h
        exact Or.inr h
      · rintro (⟨hne, hno⟩ | h)
        · exfalso
          apply h1
          rw [Bool.and_eq_true, decide_eq_true_eq, Bool.not_eq_true', ← Bool.not_eq_true,
            hasPrefixes_iff]
          exact ⟨List.length_pos.2 hne, hno⟩
        · exact h
  refine ⟨hgen cfg, rfl, ?_⟩
  rw [hgen]
  show ([] ≠ [] ∧ _) ∨ GoMap.get? [("C", true)] pkg.ImportPath = some true ∨
    (∃ p ∈ ([] : List String), _) ↔ _
  by_cases hc : pkg.ImportPath = "C"
  · simp [GoMap.get?, hc]
  · simp [GoMap.get?, hc]

theorem containsSub_iff (l sub : List Char) : containsSub l sub = true ↔ sub <:+: l := by
  induction l with
  | nil =>
    unfold containsSub
    rw [List.isEmpty_iff, List.infix_nil]
  | cons c cs ih =>
    unfold containsSub
    rw [Bool.or_eq_true, List.isPrefixOf_iff_prefix, ih, List.infix_cons_iff]

theorem isVendored_iff (path : String) :
    isVendored path = true ↔ "/vendor/".data <:+: path.data := by
  unfold isVendored strContains
  exact containsSub_iff _ _

theorem GoMap.get?_eq_none_of_len {α : Type} (m : GoMap α) (h : m.len = 0) (key : String) :
    m.get? key = none := by
  cases hg : m.get? key with
  | none => rfl
  | some v =>
    have hm : key ∈ m.keys := (GoMap.mem_keys m key).2 ⟨v, hg⟩
    unfold GoMap.len at h
    rw [List.length_eq_zero.1 h] at hm
    cases hm

theorem hasBuildErrors_iff (erroredPkgs : GoMap Bool) (pkg : Package) :
    hasBuildErrors erroredPkgs pkg = true ↔ erroredPkgs.get? pkg.ImportPath = some true := by
  unfold hasBuildErrors
  by_cases h : erroredPkgs.len = 0
  · rw [if_pos h, GoMap.get?_eq_none_of_len erroredPkgs h]
    simp
  · rw [if_neg h]
    cases erroredPkgs.get? pkg.ImportPath with
    | none => simp
    | some v => simp

/-- The colour `switch` of `main`, read rule by rule. -/
theorem nodeColor_eq (erroredPkgs : GoMap Bool) (pkg : Package) :
    nodeColor erroredPkgs pkg =
      if pkg.Goroot = true then "palegreen"
      else if 1 ≤ pkg.CgoFiles.length then "darkgoldenrod1"
      else if "/vendor/".data <:+: pkg.ImportPath.data then "palegoldenrod"
      else if erroredPkgs.get? pkg.ImportPath = some true then "red"
      else "paleturquoise" := by
  unfold nodeColor
  by_cases h1 : pkg.Goroot = true
  · rw [if_pos h1, if_pos h1]
  · rw [if_neg h1, if_neg h1]
    by_cases h2 : pkg.CgoFiles.length > 0
    · rw [if_pos h2, if_pos (show 1 ≤ pkg.CgoFiles.length from h2)]
    · rw [if_neg h2, if_neg (show ¬ 1 ≤ pkg.CgoFiles.length from h2)]
      by_cases h3 : isVendored pkg.ImportPath = true
      · rw [if_pos h3, if_pos ((isVendored_iff _).1 h3)]
      · rw [if_neg h3, if_neg (fun h => h3 ((isVendored_iff _).2 h))]
        by_cases h4 : hasBuildErrors erroredPkgs pkg = true
        · rw [if_pos h4, if_pos ((hasBuildErrors_iff _ _).1 h4)]
        · rw [if_neg h4, if_neg (fun h => h4 ((hasBuildErrors_iff _ _).2 h))]

/-- C11 (style priority, first match wins).  For every mapping, failure set and
configuration, a node line carries the colour of the first rule that its package (the
descriptor stored under the label) matches: `palegreen` if standard-library, else
`darkgoldenrod1` if it has a cgo file, else `palegoldenrod` if its import path contains
`/vendor/`, else `red` if its import path is recorded (with `true`) in the failure
set, else `paleturquoise`; and two node lines with the same label carry the same
colour. -/
theorem C11_style_priority (cfg : Config) (pkgs : GoMap Package) (erroredPkgs : GoMap Bool)
    (i l c u : String) (h : Line.node i l c u ∈ renderLines cfg pkgs erroredPkgs) :
    (∃ p, pkgs.get? l = some p ∧
      c = if p.Goroot = true then "palegreen"
          else if 1 ≤ p.CgoFiles.length then "darkgoldenrod1"
          else if "/vendor/".data <:+: p.ImportPath.data then "palegoldenrod"
          else if erroredPkgs.get? p.ImportPath = some true then "red"
          else "paleturquoise") ∧
    (∀ i2 c2 u2, Line.node i2 l c2 u2 ∈ renderLines cfg pkgs erroredPkgs → c2 = c) := by
  obtain ⟨p, hg, _, _, hc, _⟩ := (node_mem_renderLines cfg pkgs erroredPkgs i l c u).1 h
  refine ⟨⟨p, hg, by rw [hc, nodeColor_eq]⟩, ?_⟩
  intro i2 c2 u2 h2
  obtain ⟨p2, hg2, _, _, hc2, _⟩ := (node_mem_renderLines cfg pkgs erroredPkgs i2 l c2 u2).1 h2
  rw [hg] at hg2
  rw [hc, hc2, Option.some.inj hg2]

/-- C11 at a package that is both standard-library and has a cgo file, and at one that
is vendored and recorded as failed: the earlier rule gives the colour. -/
theorem C11_style_priority_witness :
    (∃ p, GoMap.get? priorityPkgs "example.com/app/vendor/x" = some p ∧
      "palegoldenrod" =
        if p.Goroot = true then "palegreen"
        else if 1 ≤ p.CgoFiles.length then "darkgoldenrod1"
        else if "/vendor/".data <:+: p.ImportPath.data then "palegoldenrod"
        else if GoMap.get? priorityErrs p.ImportPath = some true then "red"
        else "paleturquoise") :=
  (C11_style_priority appCfg priorityPkgs priorityErrs
    (deriveNodeID "example.com/app/vendor/x") "example.com/app/vendor/x" "palegoldenrod"
    (pkgDocsURL "example.com/app/vendor/x") (by decide)).1

/-! ## Error propagation -/

theorem importsLoop_fst_none (recurse : String → State → Option String × State)
    (hrec : ∀ imp s, (recurse imp s).1 = none) :
    ∀ (l : List String) (st : State), (importsLoop recurse l st).1 = none := by
  intro l
  induction l with
  | nil => intro st; rfl
  | cons imp rest ih =>
    intro st
    unfold importsLoop
    cases st.pkgs.get? imp with
    | some q => exact ih st
    | none =>
      have hr := hrec imp st
      rcases hre : recurse imp st with ⟨e, s1⟩
      rw [hre] at hr
      simp only at hr
      subst hr
      exact ih s1

/-- When no resolution can abort (the policy is continue-on-error, or the resolver
raises no error), every call returns nil. -/
theorem processPackageAux_fst_none (res : Resolver) (cfg : Config) (stopOnError : Bool)
    (hok : ∀ name dir, ((res name dir).2.isSome && stopOnError) = false) :
    ∀ (n : Nat) (root pkgName : String) (level : Nat) (importedBy : String) (st : State),
      (processPackageAux res cfg stopOnError n root pkgName level importedBy st).1 = none := by
  intro n
  induction n with
  | zero => intro root pkgName level importedBy st; rfl
  | succ n ih =>
    intro root pkgName level importedBy st
    unfold processPackageAux
    by_cases hl : level + 1 > maxLevel
    · rw [if_pos hl]
    · rw [if_neg hl]
      by_cases hig : ignoredAt cfg pkgName = true
      · rw [if_pos hig]
      · rw [if_neg hig]
        dsimp only
        rw [hok pkgName root]
        simp only [Bool.false_eq_true, if_false]
        by_cases hs : (!(inScope cfg (res pkgName root).1.ImportPath)) = true
        · rw [if_pos hs]
        · rw [if_neg hs]
          by_cases hgo : (res pkgName root).1.Goroot = true
          · rw [if_pos hgo]
          · rw [if_neg hgo]
            exact importsLoop_fst_none _ (fun imp s => ih _ imp _ _ s) _ _

/-- C12 (continue-on-error never fails).  For every resolver, configuration, root,
package name, depth, importer and state of the globals, `processPackage` called with
`stopOnError = false` returns nil; and under either policy it returns nil whenever the
resolver raises no error, so the depth ceiling, the pseudo-package skip, the scope
filter and the skipping of known packages never produce an error. -/
theorem C12_continue_on_error_succeeds (res : Resolver) (cfg : Config) (root pkgName : String)
    (level : Nat) (importedBy : String) (st : State) :
    (processPackage res cfg root pkgName level importedBy false st).1 = none ∧
    ((∀ name dir, (res name dir).2 = none) →
      ∀ stopOnError, (processPackage res cfg root pkgName level importedBy stopOnError st).1 =
        none) :=
  ⟨processPackageAux_fst_none res cfg false (fun _ _ => Bool.and_false _) _ root pkgName
      level importedBy st,
    fun h stopOnError =>
      processPackageAux_fst_none res cfg stopOnError
        (fun name dir => by rw [h name dir]; rfl) _ root pkgName level importedBy st⟩

/-- C12 at the chain resolver, which raises no error: the traversal returns nil under
abort-on-error. -/
theorem C12_continue_on_error_succeeds_witness :
    (processPackage chainRes (defaultConfig "m") "" "./" 0 "" true State.empty).1 = none :=
  (C12_continue_on_error_succeeds chainRes (defaultConfig "m") "" "./" 0 "" State.empty).2
    (fun name dir => by
      unfold chainRes
      split_ifs
      · rfl
      · cases chainIndex name <;> rfl)
    true

/-! ## Abort-on-error and the failure set -/

/-- An invariant of the globals that is kept by noting a resolver call and by
recording a resolved, in-scope package is kept by `processPackage`, whatever the state
it is called in. -/
theorem processPackageAux_inv_any (res : Resolver) (cfg : Config) (stopOnError : Bool)
    (I : State → Prop)
    (hlog : ∀ st pkgName root, I st → ignoredAt cfg pkgName = false →
      I (st.logCall pkgName root))
    (hrec : ∀ st pkgName root, I st →
      ignoredAt cfg pkgName = false → inScope cfg (res pkgName root).1.ImportPath = true →
      ((res pkgName root).2.isSome = true → stopOnError = false) →
      I (st.record pkgName (res pkgName root).1 (res pkgName root).2.isSome)) :
    ∀ (n : Nat) (root pkgName : String) (level : Nat) (importedBy : String) (st : State),
      I st → I (processPackageAux res cfg stopOnError n root pkgName level importedBy st).2 := by
  intro n
  induction n with
  | zero => intro root pkgName level importedBy st h; exact h
  | succ n ih =>
    intro root pkgName level importedBy st h
    unfold processPackageAux
    by_cases hl : level + 1 > maxLevel
    · rw [if_pos hl]; exact h
    · rw [if_neg hl]
      by_cases hig : ignoredAt cfg pkgName = true
      · rw [if_pos hig]; exact h
      · rw [if_neg hig]
        have hig2 : ignoredAt cfg pkgName = false := by simpa using hig
        have h1 := hlog st pkgName root h hig2
        dsimp only
        by_cases he : ((res pkgName root).2.isSome && stopOnError) = true
        · rw [if_pos he]; exact h1
        · rw [if_neg he]
          by_cases hs : (!(inScope cfg (res pkgName root).1.ImportPath)) = true
          · rw [if_pos hs]; exact h1
          · rw [if_neg hs]
            have hs2 : inScope cfg (res pkgName root).1.ImportPath = true := by simpa using hs
            have he2 : (res pkgName root).2.isSome = true → stopOnError = false := by
              intro hsome
              cases hstop : stopOnError with
              | false => rfl
              | true => rw [hsome, hstop] at he; exact absurd rfl he
            have h2 := hrec (st.logCall pkgName root) pkgName root h1 hig2 hs2 he2
            by_cases hgo : (res pkgName root).1.Goroot = true
            · rw [if_pos hgo]; exact h2
            · rw [if_neg hgo]
              exact importsLoop_inv I _ (fun imp s hI _ => ih _ imp _ _ s hI) _ _ h2

theorem nodeColor_ne_red_of_no_errors (erroredPkgs : GoMap Bool) (pkg : Package)
    (h : hasBuildErrors erroredPkgs pkg = false) : nodeColor erroredPkgs pkg ≠ "red" := by
  unfold nodeColor
  rw [h]
  simp only [Bool.false_eq_true, if_false]
  split_ifs <;> decide

/-- C20 (abort-on-error never records a failure).  For every resolver and state of the
globals, `processPackage` called with `stopOnError = true` leaves the failure set as it
was, whether it returns nil or an error.  So when the driver, which calls it with
`stopOnError = true` on fresh maps, prints a document, the failure set is empty at
render time, `hasBuildErrors` is false for every package, and no node line has the
colour `red`. -/
theorem C20_abort_records_no_failure (res : Resolver) (cfg : Config) :
    (∀ (root pkgName : String) (level : Nat) (importedBy : String) (st : State),
      (processPackage res cfg root pkgName level importedBy true st).2.erroredPkgs =
        st.erroredPkgs) ∧
    (∀ (cwd out : String), runMain res cfg cwd = Except.ok out →
      ∃ st, processPackage res cfg cwd "./" 0 "" true State.empty = (none, st) ∧
        st.erroredPkgs = [] ∧ out = documentOf (renderLines cfg st.pkgs st.erroredPkgs) ∧
        (∀ p, hasBuildErrors st.erroredPkgs p = false) ∧
        ∀ i l c u, Line.node i l c u ∈ renderLines cfg st.pkgs st.erroredPkgs → c ≠ "red") := by
  have hkeep : ∀ (root pkgName : String) (level : Nat) (importedBy : String) (st : State),
      (processPackage res cfg root pkgName level importedBy true st).2.erroredPkgs =
        st.erroredPkgs := by
    intro root pkgName level importedBy st
    exact processPackageAux_inv_any res cfg true (fun s => s.erroredPkgs = st.erroredPkgs)
      (fun s _ _ hI _ => hI)
      (fun s name dir hI _ _ he => by
        cases hsome : (res name dir).2.isSome with
        | false => exact hI
        | true => exact absurd (he hsome) (by decide))
      _ root pkgName level importedBy st rfl
  refine ⟨hkeep, ?_⟩
  intro cwd out hout
  unfold runMain at hout
  have hk := hkeep cwd "./" 0 "" State.empty
  rcases hr : processPackage res cfg cwd "./" 0 "" true State.empty with ⟨e, st⟩
  rw [hr] at hout hk
  cases e with
  | some err => cases hout
  | none =>
    simp only at hout hk
    have he : st.erroredPkgs = [] := hk
    have hb : ∀ p, hasBuildErrors st.erroredPkgs p = false := by
      intro p
      rw [he]
      rfl
    refine ⟨st, rfl, he, ?_, hb, ?_⟩
    · injection hout with h1
      exact h1.symm
    · intro i l c u hm
      obtain ⟨p, _, _, _, hc, _⟩ :=
        (node_mem_renderLines cfg st.pkgs st.erroredPkgs i l c u).1 hm
      rw [hc]
      exact nodeColor_ne_red_of_no_errors _ _ (hb p)

/-- C20 at the failing root of C6, now under the policy of `main`: the call returns an
error and the failure set stays empty. -/
theorem C20_abort_records_no_failure_witness :
    (processPackage (gopathRootRes [] (some "no buildable Go source files")) appCfg
      "/gopath/src/example.com/app" "./" 0 "" true State.empty).2.erroredPkgs = [] ∧
    ∃ st, processPackage appRes appCfg "/src/app" "./" 0 "" true State.empty = (none, st) ∧
      st.erroredPkgs = [] :=
  ⟨(C20_abort_records_no_failure (gopathRootRes [] (some "no buildable Go source files"))
      appCfg).1 "/gopath/src/example.com/app" "./" 0 "" State.empty,
    (fun ⟨st, h1, h2, _⟩ => ⟨st, h1, h2⟩)
      ((C20_abort_records_no_failure appRes appCfg).2 "/src/app"
        (render appCfg
          (processPackage appRes appCfg "/src/app" "./" 0 "" true State.empty).2.pkgs
          (processPackage appRes appCfg "/src/app" "./" 0 "" true State.empty).2.erroredPkgs)
        rfl)⟩

/-! ## `getImports` against its description -/

theorem getImportsLoop_eq (ip : String) (l found : List String) :
    getImportsLoop ip l found =
      (dropLaterDuplicates (l.filter (fun imp => imp ≠ ip))).filter (fun y => y ∉ found) := by
  induction l generalizing found with
  | nil => rfl
  | cons imp rest ih =>
    unfold getImportsLoop
    by_cases h1 : imp = ip
    · rw [if_pos h1, ih, List.filter_cons_of_neg (by simpa using h1)]
    · rw [if_neg h1, List.filter_cons_of_pos (by simpa using h1)]
      unfold dropLaterDuplicates
      by_cases h2 : imp ∈ found
      · rw [if_pos h2, ih, List.filter_cons_of_neg (by simpa using h2), List.filter_filter]
        apply List.filter_congr
        intro y _
        by_cases hy : y = imp
        · subst hy
          simp [h2]
        · simp [hy]
      · rw [if_neg h2, ih, List.filter_cons_of_pos (by simpa using h2), List.filter_filter]
        congr 1
        apply List.filter_congr
        intro y _
        by_cases hy : y = imp
        · subst hy
          simp
        · simp [hy]

theorem getImports_eq_spec (pkg : Package) : getImports pkg = getImportsSpec pkg := by
  unfold getImports getImportsSpec
  rw [getImportsLoop_eq]
  simp

theorem dropLaterDuplicates_of_nodup (l : List String) (h : l.Nodup) :
    dropLaterDuplicates l = l := by
  induction l with
  | nil => rfl
  | cons x xs ih =>
    rw [List.nodup_cons] at h
    unfold dropLaterDuplicates
    rw [ih h.2, List.filter_eq_self.2]
    intro y hy
    have : y ≠ x := fun e => h.1 (e ▸ hy)
    simpa using this

theorem filter_flatMap_unique {α β : Type} (q : β → Bool) (f : α → List β) (k : α)
    (L : List α) (hnd : L.Nodup) (hk : k ∈ L)
    (honly : ∀ a ∈ L, a ≠ k → (f a).filter q = []) :
    (L.flatMap f).filter q = (f k).filter q := by
  induction L with
  | nil => cases hk
  | cons a L ih =>
    rw [List.flatMap_cons, List.filter_append]
    rw [List.nodup_cons] at hnd
    by_cases hak : a = k
    · subst hak
      have hz : (L.flatMap f).filter q = [] := by
        rw [List.filter_eq_nil_iff]
        intro b hb
        obtain ⟨c, hc, hbc⟩ := List.mem_flatMap.1 hb
        have := honly c (List.mem_cons_of_mem _ hc) (fun e => hnd.1 (e ▸ hc))
        rw [List.filter_eq_nil_iff] at this
        exact this b hbc
      rw [hz, List.append_nil]
    · have hk2 : k ∈ L := by
        rcases List.mem_cons.1 hk with e | e
        · exact absurd e.symm hak
        · exact e
      rw [honly a (List.mem_cons_self _ _) hak,
        ih hnd.2 hk2 (fun b hb => honly b (List.mem_cons_of_mem _ hb)), List.nil_append]

theorem filter_isEdgeFrom_linesFor_ne (cfg : Config) (pkgs : GoMap Package)
    (erroredPkgs : GoMap Bool) (a k : String) (h : a ≠ k) :
    (linesFor cfg pkgs erroredPkgs a).filter (Line.isEdgeFrom (deriveNodeID k)) = [] := by
  rw [List.filter_eq_nil_iff]
  intro x hx
  unfold linesFor at hx
  cases hg : pkgs.get? a with
  | none => simp [hg] at hx
  | some p =>
    simp only [hg] at hx
    by_cases hi : isIgnored cfg p = true
    · simp [hi] at hx
    · have hi2 : isIgnored cfg p = false := by simpa using hi
      simp only [hi2, Bool.false_eq_true, if_false, List.mem_cons] at hx
      rcases hx with hx | hx
      · rw [hx]
        simp [Line.isEdgeFrom]
      · by_cases hgo : p.Goroot = true
        · simp [hgo] at hx
        · simp only [hgo, Bool.false_eq_true, if_false, List.mem_map] at hx
          obtain ⟨imp, _, he⟩ := hx
          rw [← he]
          simp only [Line.isEdgeFrom, beq_iff_eq]
          exact fun e => h (deriveNodeID_injective e)

theorem filter_isEdgeFrom_linesFor_self (cfg : Config) (pkgs : GoMap Package)
    (erroredPkgs : GoMap Bool) (k : String) (p : Package) (hg : pkgs.get? k = some p)
    (hi : isIgnored cfg p = false) (hgo : p.Goroot = false) :
    (linesFor cfg pkgs erroredPkgs k).filter (Line.isEdgeFrom (deriveNodeID k)) =
      (edgeTargets cfg pkgs p).map
        (fun imp => Line.edge (deriveNodeID k) (deriveNodeID imp)) := by
  unfold linesFor
  simp only [hg, hi, hgo, Bool.false_eq_true, if_false]
  rw [List.filter_cons_of_neg (by simp [Line.isEdgeFrom]), List.filter_eq_self]
  intro x hx
  obtain ⟨imp, _, he⟩ := List.mem_map.1 hx
  rw [← he]
  simp [Line.isEdgeFrom]

/-- The edge lines that leave a retained, non-standard-library key, in output order. -/
theorem filter_isEdgeFrom_renderLines (cfg : Config) (pkgs : GoMap Package)
    (erroredPkgs : GoMap Bool) (k : String) (p : Package) (hg : pkgs.get? k = some p)
    (hi : isIgnored cfg p = false) (hgo : p.Goroot = false) :
    (renderLines cfg pkgs erroredPkgs).filter (Line.isEdgeFrom (deriveNodeID k)) =
      (edgeTargets cfg pkgs p).map
        (fun imp => Line.edge (deriveNodeID k) (deriveNodeID imp)) := by
  rw [renderLines_eq,
    filter_flatMap_unique _ _ k _ (nodup_sortStrings _ (GoMap.nodup_keys _))
      ((mem_sortStrings _ _).2 ((GoMap.mem_keys _ _).2 ⟨p, hg⟩))
      (fun a _ ha => filter_isEdgeFrom_linesFor_ne cfg pkgs erroredPkgs a k ha)]
  exact filter_isEdgeFrom_linesFor_self cfg pkgs erroredPkgs k p hg hi hgo

/-- C18 (`getImports`, reference definition).  For every package descriptor,
`getImports` returns the package's import list with every occurrence of its own import
path removed and every later duplicate removed, in the order of first occurrence.  The
result has no duplicates, does not contain the own import path, has the elements of
the import list other than the own path, and is returned unchanged by `getImports` on
a descriptor whose import list it is.  The edge lines leaving a retained,
non-standard-library key of a mapping are, in output order, those of the accepted
elements of this list, in the order of the list. -/
theorem C18_getImports_reference (pkg : Package) :
    getImports pkg = getImportsSpec pkg ∧
    (getImports pkg).Nodup ∧
    pkg.ImportPath ∉ getImports pkg ∧
    (∀ x, x ∈ getImports pkg ↔ x ∈ pkg.Imports ∧ x ≠ pkg.ImportPath) ∧
    getImports { pkg with Imports := getImports pkg } = getImports pkg ∧
    (∀ (cfg : Config) (pkgs : GoMap Package) (erroredPkgs : GoMap Bool) (k : String),
      pkgs.get? k = some pkg → isIgnored cfg pkg = false → pkg.Goroot = false →
      (renderLines cfg pkgs erroredPkgs).filter (Line.isEdgeFrom (deriveNodeID k)) =
        ((getImports pkg).filter (fun imp =>
          match pkgs.get? imp with
          | none => false
          | some impPkg => !isIgnored cfg impPkg)).map
          (fun imp => Line.edge (deriveNodeID k) (deriveNodeID imp))) := by
  refine ⟨getImports_eq_spec pkg, nodup_getImports pkg, ?_, mem_getImports pkg, ?_, ?_⟩
  · intro h
    exact ((mem_getImports pkg _).1 h).2 rfl
  · have hself : pkg.ImportPath ∉ getImports pkg :=
      fun h => ((mem_getImports pkg _).1 h).2 rfl
    rw [getImports_eq_spec { pkg with Imports := getImports pkg }]
    show dropLaterDuplicates ((getImports pkg).filter (fun imp => imp ≠ pkg.ImportPath)) = _
    rw [List.filter_eq_self.2, dropLaterDuplicates_of_nodup _ (nodup_getImports pkg)]
    intro y hy
    have : y ≠ pkg.ImportPath := fun e => hself (e ▸ hy)
    simpa using this
  · intro cfg pkgs erroredPkgs k hg hi hgo
    exact filter_isEdgeFrom_renderLines cfg pkgs erroredPkgs k pkg hg hi hgo

/-- C18 at a package importing `b`, itself, `c` and `b` again: two edges, to `b` and
then to `c`. -/
theorem C18_getImports_reference_witness :
    getImports mixedImportsPkg = ["example.com/app/b", "example.com/app/c"] ∧
    (renderLines appCfg mixedImportsPkgs []).filter
        (Line.isEdgeFrom (deriveNodeID "example.com/app/a")) =
      [Line.edge (deriveNodeID "example.com/app/a") (deriveNodeID "example.com/app/b"),
       Line.edge (deriveNodeID "example.com/app/a") (deriveNodeID "example.com/app/c")] :=
  ⟨by decide,
    ((C18_getImports_reference mixedImportsPkg).2.2.2.2.2 appCfg mixedImportsPkgs []
      "example.com/app/a" (by decide) (by decide) (by decide)).trans (by decide)⟩

/-! ## The order of `sort.Strings` -/

theorem lexLe_total : ∀ (a b : List Nat), lexLe a b = true ∨ lexLe b a = true
  | [], _ => Or.inl (by unfold lexLe; rfl)
  | _ :: _, [] => Or.inr (by unfold lexLe; rfl)
  | a :: as, b :: bs => by
    unfold lexLe
    by_cases h1 : a < b
    · left; rw [if_pos h1]
    · by_cases h2 : b < a
      · right; rw [if_pos h2]
      · rw [if_neg h1, if_neg h2, if_neg h2, if_neg h1]
        exact lexLe_total as bs

theorem lexLe_trans : ∀ (a b c : List Nat), lexLe a b = true → lexLe b c = true →
    lexLe a c = true
  | [], _, _ => fun _ _ => by unfold lexLe; rfl
  | _ :: _, [], _ => fun h _ => by unfold lexLe at h; cases h
  | _ :: _, _ :: _, [] => fun _ h => by unfold lexLe at h; cases h
  | a :: as, b :: bs, c :: cs => by
    intro h1 h2
    unfold lexLe at h1 h2 ⊢
    by_cases hab : a < b
    · by_cases hbc : b < c
      · rw [if_pos (lt_trans hab hbc)]
      · by_cases hcb : c < b
        · rw [if_neg hbc, if_pos hcb] at h2; cases h2
        · have : b = c := by omega
          rw [if_pos (this ▸ hab)]
    · by_cases hba : b < a
      · rw [if_neg hab, if_pos hba] at h1; cases h1
      · rw [if_neg hab, if_neg hba] at h1
        have hab2 : a = b := by omega
        subst hab2
        by_cases hbc : a < c
        · rw [if_pos hbc]
        · by_cases hcb : c < a
          · rw [if_neg hbc, if_pos hcb] at h2; cases h2
          · rw [if_neg hbc, if_neg hcb] at h2
            rw [if_neg hbc, if_neg hcb]
            exact lexLe_trans as bs cs h1 h2

theorem lexLe_antisymm : ∀ (a b : List Nat), lexLe a b = true → lexLe b a = true → a = b
  | [], [] => fun _ _ => rfl
  | [], _ :: _ => fun _ h => by unfold lexLe at h; cases h
  | _ :: _, [] => fun h _ => by unfold lexLe at h; cases h
  | a :: as, b :: bs => by
    intro h1 h2
    unfold lexLe at h1 h2
    by_cases hab : a < b
    · rw [if_neg (by omega), if_pos hab] at h2; cases h2
    · by_cases hba : b < a
      · rw [if_neg hab, if_pos hba] at h1; cases h1
      · rw [if_neg hab, if_neg hba] at h1
        rw [if_neg hba, if_neg hab] at h2
        have : a = b := by omega
        rw [this, lexLe_antisymm as bs h1 h2]

theorem lex_of_lexLe_of_ne : ∀ (a b : List Nat), lexLe a b = true → a ≠ b →
    List.Lex (fun x y : Nat => x < y) a b
  | [], [] => fun _ h => absurd rfl h
  | [], _ :: _ => fun _ _ => List.Lex.nil
  | _ :: _, [] => fun h _ => by unfold lexLe at h; cases h
  | a :: as, b :: bs => by
    intro h hne
    unfold lexLe at h
    by_cases hab : a < b
    · exact List.Lex.rel hab
    · by_cases hba : b < a
      · rw [if_neg hab, if_pos hba] at h; cases h
      · rw [if_neg hab, if_neg hba] at h
        have hab2 : a = b := by omega
        subst hab2
        exact List.Lex.cons (lex_of_lexLe_of_ne as bs h (fun e => hne (by rw [e])))

theorem codes_injective {a b : String}
    (h : a.data.map Char.toNat = b.data.map Char.toNat) : a = b := by
  apply String.ext
  refine List.map_injective_iff.2 ?_ h
  intro c d hcd
  apply Char.ext
  exact UInt32.eq_of_val_eq (Fin.eq_of_val_eq hcd)

theorem strLe_isTotal : IsTotal String (fun a b => strLe a b = true) :=
  ⟨fun _ _ => lexLe_total _ _⟩

theorem strLe_isTrans : IsTrans String (fun a b => strLe a b = true) :=
  ⟨fun _ _ _ h1 h2 => lexLe_trans _ _ _ h1 h2⟩

theorem strLe_isAntisymm : IsAntisymm String (fun a b => strLe a b = true) :=
  ⟨fun _ _ h1 h2 => codes_injective (lexLe_antisymm _ _ h1 h2)⟩

theorem strLt_of_strLe_of_ne (a b : String) (h : strLe a b = true) (hne : a ≠ b) :
    strLt a b :=
  lex_of_lexLe_of_ne _ _ h (fun e => hne (codes_injective e))

theorem sorted_sortStrings (l : List String) :
    (sortStrings l).Sorted (fun a b => strLe a b = true) :=
  @List.sorted_insertionSort _ _ _ strLe_isTotal strLe_isTrans l

/-- The sorted keys are strictly ascending. -/
theorem pairwise_strLt_sortStrings (l : List String) (h : l.Nodup) :
    (sortStrings l).Pairwise strLt := by
  have h1 : (sortStrings l).Pairwise (fun a b => strLe a b = true) := sorted_sortStrings l
  have h2 : (sortStrings l).Pairwise (fun a b => a ≠ b) := nodup_sortStrings l h
  exact (h1.and h2).imp (fun hab => strLt_of_strLe_of_ne _ _ hab.1 hab.2)

/-- Sorting does not depend on the order in which the keys are enumerated. -/
theorem sortStrings_eq_of_perm (l1 l2 : List String) (h : l1.Perm l2) :
    sortStrings l1 = sortStrings l2 :=
  @List.eq_of_perm_of_sorted _ _ strLe_isAntisymm _ _
    (((List.perm_insertionSort _ l1).trans h).trans (List.perm_insertionSort _ l2).symm)
    (sorted_sortStrings l1) (sorted_sortStrings l2)

/-! ## Blocks of the output, idempotence -/

theorem linesFor_eq_blockFor (cfg : Config) (pkgs : GoMap Package) (erroredPkgs : GoMap Bool)
    (k : String) :
    linesFor cfg pkgs erroredPkgs k =
      match blockFor cfg pkgs erroredPkgs k with
      | none => []
      | some b => b.lines := by
  unfold linesFor blockFor
  cases pkgs.get? k with
  | none => rfl
  | some p =>
    by_cases hi : isIgnored cfg p = true
    · simp [hi]
    · have hi2 : isIgnored cfg p = false := by simpa using hi
      simp only [hi2, Bool.false_eq_true, if_false, Block.lines]
      by_cases hgo : p.Goroot = true
      · simp [hgo]
      · simp [hgo]

theorem blockFor_label (cfg : Config) (pkgs : GoMap Package) (erroredPkgs : GoMap Bool)
    (k : String) (b : Block) (h : blockFor cfg pkgs erroredPkgs k = some b) : b.label = k := by
  unfold blockFor at h
  cases hg : pkgs.get? k with
  | none => rw [hg] at h; cases h
  | some p =>
    rw [hg] at h
    by_cases hi : isIgnored cfg p = true
    · simp [hi] at h
    · have hi2 : isIgnored cfg p = false := by simpa using hi
      simp only [hi2, Bool.false_eq_true, if_false] at h
      rw [← Option.some.inj h]

theorem blockFor_isSome_iff (cfg : Config) (pkgs : GoMap Package) (erroredPkgs : GoMap Bool)
    (k : String) :
    (∃ b, blockFor cfg pkgs erroredPkgs k = some b) ↔
      ∃ p, pkgs.get? k = some p ∧ isIgnored cfg p = false := by
  unfold blockFor
  cases pkgs.get? k with
  | none => simp
  | some p =>
    by_cases hi : isIgnored cfg p = true
    · simp [hi]
    · have hi2 : isIgnored cfg p = false := by simpa using hi
      simp [hi2]

theorem flatMap_linesFor_eq_blocks (cfg : Config) (pkgs : GoMap Package)
    (erroredPkgs : GoMap Bool) (L : List String) :
    L.flatMap (linesFor cfg pkgs erroredPkgs) =
      (L.filterMap (blockFor cfg pkgs erroredPkgs)).flatMap Block.lines := by
  induction L with
  | nil => rfl
  | cons k L ih =>
    rw [List.flatMap_cons, ih, linesFor_eq_blockFor, List.filterMap_cons]
    cases blockFor cfg pkgs erroredPkgs k with
    | none => rfl
    | some b => rw [List.flatMap_cons]

theorem pairwise_labels_filterMap (cfg : Config) (pkgs : GoMap Package)
    (erroredPkgs : GoMap Bool) (L : List String) (h : L.Pairwise strLt) :
    ((L.filterMap (blockFor cfg pkgs erroredPkgs)).map Block.label).Pairwise strLt := by
  have hsub : ((L.filterMap (blockFor cfg pkgs erroredPkgs)).map Block.label).Sublist L := by
    clear h
    induction L with
    | nil => exact List.Sublist.slnil
    | cons k L ih =>
      rw [List.filterMap_cons]
      cases hb : blockFor cfg pkgs erroredPkgs k with
      | none => exact List.Sublist.cons _ ih
      | some b =>
        simp only [List.map_cons]
        rw [blockFor_label cfg pkgs erroredPkgs k b hb]
        exact List.Sublist.cons₂ _ ih
  exact h.sublist hsub

/-- C15 (sorted node order).  For every mapping, failure set and configuration the
lines printed are a sequence of blocks, one per retained key of the mapping: each block
is the node line of its label followed directly by the edge lines leaving that node,
and the labels of the blocks are strictly ascending in the lexicographic order of
`sort.Strings`. -/
theorem C15_sorted_node_order (cfg : Config) (pkgs : GoMap Package) (erroredPkgs : GoMap Bool) :
    ∃ blocks : List Block,
      renderLines cfg pkgs erroredPkgs = blocks.flatMap Block.lines ∧
      (blocks.map Block.label).Pairwise strLt ∧
      ∀ k, k ∈ blocks.map Block.label ↔ ∃ p, pkgs.get? k = some p ∧ isIgnored cfg p = false := by
  refine ⟨(sortStrings pkgs.keys).filterMap (blockFor cfg pkgs erroredPkgs), ?_, ?_, ?_⟩
  · rw [renderLines_eq, flatMap_linesFor_eq_blocks]
  · exact pairwise_labels_filterMap cfg pkgs erroredPkgs _
      (pairwise_strLt_sortStrings _ (GoMap.nodup_keys _))
  · intro k
    rw [← blockFor_isSome_iff cfg pkgs erroredPkgs k, List.mem_map]
    constructor
    · rintro ⟨b, hb, rfl⟩
      obtain ⟨k2, _, hk2⟩ := List.mem_filterMap.1 hb
      rw [blockFor_label cfg pkgs erroredPkgs k2 b hk2]
      exact ⟨b, hk2⟩
    · rintro ⟨b, hb⟩
      have hk : k ∈ sortStrings pkgs.keys := by
        obtain ⟨p, hp, _⟩ := (blockFor_isSome_iff cfg pkgs erroredPkgs k).1 ⟨b, hb⟩
        exact (mem_sortStrings _ _).2 ((GoMap.mem_keys _ _).2 ⟨p, hp⟩)
      exact ⟨b, List.mem_filterMap.2 ⟨k, hk, hb⟩, blockFor_label cfg pkgs erroredPkgs k b hb⟩

theorem GoMap.keys_perm_of_get? {α : Type} (m1 m2 : GoMap α)
    (h : ∀ k, m1.get? k = m2.get? k) : m1.keys.Perm m2.keys := by
  rw [List.perm_ext_iff_of_nodup (GoMap.nodup_keys m1) (GoMap.nodup_keys m2)]
  intro k
  rw [GoMap.mem_keys, GoMap.mem_keys, h k]

theorem hasBuildErrors_congr (e1 e2 : GoMap Bool) (h : ∀ k, e1.get? k = e2.get? k)
    (p : Package) : hasBuildErrors e1 p = hasBuildErrors e2 p := by
  have h1 := hasBuildErrors_iff e1 p
  have h2 := hasBuildErrors_iff e2 p
  rw [h p.ImportPath] at h1
  cases hb1 : hasBuildErrors e1 p with
  | true => exact (h2.2 (h1.1 hb1)).symm
  | false =>
    cases hb2 : hasBuildErrors e2 p with
    | false => rfl
    | true => rw [h1.2 (h2.1 hb2)] at hb1; cases hb1

theorem linesFor_congr (cfg : Config) (m1 m2 : GoMap Package) (e1 e2 : GoMap Bool)
    (hm : ∀ k, m1.get? k = m2.get? k) (he : ∀ k, e1.get? k = e2.get? k) (k : String) :
    linesFor cfg m1 e1 k = linesFor cfg m2 e2 k := by
  have hcol : ∀ p, nodeColor e1 p = nodeColor e2 p := by
    intro p
    unfold nodeColor
    rw [hasBuildErrors_congr e1 e2 he p]
  have hedge : ∀ p, edgeTargets cfg m1 p = edgeTargets cfg m2 p := by
    intro p
    unfold edgeTargets
    apply List.filter_congr
    intro imp _
    rw [hm imp]
  unfold linesFor
  rw [hm k]
  cases m2.get? k with
  | none => rfl
  | some p => simp only [hcol p, hedge p]

/-- C14 (render idempotence).  Rendering a mapping and failure set a second time,
starting from the identifier cache left by a first rendering that started from an
empty cache, writes the same text as the first; and the text is the same for any two
mappings, and any two failure sets, that hold the same bindings, however they
enumerate their keys. -/
theorem C14_render_idempotent (cfg : Config) (pkgs : GoMap Package) (erroredPkgs : GoMap Bool) :
    documentOf (renderFrom cfg pkgs erroredPkgs (renderFrom cfg pkgs erroredPkgs []).2).1 =
      render cfg pkgs erroredPkgs ∧
    (∀ (pkgs2 : GoMap Package) (erroredPkgs2 : GoMap Bool),
      (∀ k, pkgs.get? k = pkgs2.get? k) → (∀ k, erroredPkgs.get? k = erroredPkgs2.get? k) →
      render cfg pkgs2 erroredPkgs2 = render cfg pkgs erroredPkgs) := by
  constructor
  · have h1 := renderPkgs_eq cfg pkgs erroredPkgs (sortStrings pkgs.keys) [] IdsOk_nil
    have h2 := renderPkgs_eq cfg pkgs erroredPkgs (sortStrings pkgs.keys) _ h1.2
    unfold render renderLines renderFrom
    rw [h2.1, h1.1]
  · intro pkgs2 erroredPkgs2 hm he
    unfold render
    rw [renderLines_eq, renderLines_eq,
      sortStrings_eq_of_perm _ _ (GoMap.keys_perm_of_get? pkgs pkgs2 hm)]
    congr 2
    funext k
    exact (linesFor_congr cfg pkgs pkgs2 erroredPkgs erroredPkgs2 hm he k).symm

/-- C14 at two mappings that list the same two packages in opposite orders. -/
theorem C14_render_idempotent_witness :
    render appCfg twiceImportPkgsSwapped [] = render appCfg twiceImportPkgs [] :=
  (C14_render_idempotent appCfg twiceImportPkgs []).2 twiceImportPkgsSwapped []
    (fun k => by
      unfold twiceImportPkgs twiceImportPkgsSwapped
      by_cases ha : k = "example.com/app/a"
      · subst ha
        decide
      · by_cases hb : k = "example.com/app/b"
        · subst hb
          decide
        · simp [GoMap.get?, ha, hb])
    (fun _ => rfl)

/-! ## Import closure, first write wins -/

/-- C19 (import closure below the ceiling; implicit).  For every resolver and either
policy, with the exact-match set of the program (`"C"` alone): if the traversal from
the empty mapping at depth 0 returns nil and ends with fewer than 256 entries, then for
every entry with a descriptor `p` that is not standard-library and every element `i`
of `getImports p`, `i` is a key of the final mapping, or `i` is `"C"`, or the
resolver's descriptor for `i`, searched from the directory of `p`, has an import path
that is neither `"./"` nor prefixed by the module name.  And no entry is overwritten:
the globals at return are reached from the empty ones by noting resolver calls and by
writing keys that are absent, so whatever such steps preserve holds at return; in
particular no key was written twice (the list of bindings written has no duplicate
key). -/
theorem C19_import_closure (res : Resolver) (cfg : Config) (root pkgName importedBy : String)
    (stopOnError : Bool) (hC : cfg.ignored = [("C", true)]) :
    ((processPackage res cfg root pkgName 0 importedBy stopOnError State.empty).1 = none →
      (processPackage res cfg root pkgName 0 importedBy stopOnError State.empty).2.pkgs.len < 256 →
      ∀ k p, (processPackage res cfg root pkgName 0 importedBy stopOnError State.empty).2.pkgs.get? k =
          some p → p.Goroot = false →
        ∀ i ∈ getImports p,
          (∃ q, (processPackage res cfg root pkgName 0 importedBy stopOnError State.empty).2.pkgs.get? i =
            some q) ∨ i = "C" ∨
          ¬((res i p.Dir).1.ImportPath = "./" ∨
            cfg.moduleName.data <+: (res i p.Dir).1.ImportPath.data)) ∧
    (∀ I : State → Prop, I State.empty →
      (∀ s name dir, I s → I (s.logCall name dir)) →
      (∀ s name p failed, I s → s.pkgs.get? name = none → I (s.record name p failed)) →
      I (processPackage res cfg root pkgName 0 importedBy stopOnError State.empty).2) ∧
    ((processPackage res cfg root pkgName 0 importedBy stopOnError State.empty).2.pkgs.map Prod.fst).Nodup := by
  have hreach : ∀ I : State → Prop, I State.empty →
      (∀ s name dir, I s → I (s.logCall name dir)) →
      (∀ s name p failed, I s → s.pkgs.get? name = none → I (s.record name p failed)) →
      I (processPackage res cfg root pkgName 0 importedBy stopOnError State.empty).2 := by
    intro I h0 hlog hrec
    exact processPackage_inv res cfg stopOnError I
      (fun s name dir hI _ => hlog s name dir hI)
      (fun s name dir hI hab _ _ _ => hrec s name _ _ hI hab)
      root pkgName 0 importedBy State.empty rfl h0
  refine ⟨?_, hreach, ?_⟩
  rotate_left
  · apply hreach (fun s => (s.pkgs.map Prod.fst).Nodup)
    · exact List.nodup_nil
    · intro s _ _ hI
      exact hI
    · intro s name p _ hI hab
      show ((s.pkgs.set name p).map Prod.fst).Nodup
      unfold GoMap.set
      rw [List.map_cons, List.nodup_cons]
      refine ⟨fun hm => ?_, hI⟩
      have := (GoMap.get?_isSome_iff_mem s.pkgs name).2 hm
      rw [hab] at this
      cases this
  · intro hnone hlt k p hk hgo i hi
    have hcl := (processPackage_closed res cfg root pkgName importedBy stopOnError hnone hlt).1 k p hk
    rcases hcl with h | h
    · rw [hgo] at h; cases h
    · rcases h i hi with h | h | h
      · exact Or.inl h
      · right; left
        rw [ignoredAt_iff, hC] at h
        by_cases hc : i = "C"
        · exact hc
        · simp [GoMap.get?, hc] at h
      · right; right
        intro hs
        rw [(inScope_iff cfg _).2 hs] at h
        cases h

/-- C19 at the example resolver: of the imports of the root, `fmt` is accounted for as
out of scope; and no key of the final mapping was written twice. -/
theorem C19_import_closure_witness :
    ((∃ q, (processPackage appRes appCfg "/src/app" "./" 0 "" true State.empty).2.pkgs.get?
        "fmt" = some q) ∨ "fmt" = "C" ∨
      ¬((appRes "fmt" appRoot.Dir).1.ImportPath = "./" ∨
        appCfg.moduleName.data <+: (appRes "fmt" appRoot.Dir).1.ImportPath.data)) ∧
    ((processPackage appRes appCfg "/src/app" "./" 0 "" true State.empty).2.pkgs.map
      Prod.fst).Nodup :=
  ⟨(C19_import_closure appRes appCfg "/src/app" "./" "" true rfl).1 (by decide) (by decide) "./"
      appRoot (by decide) rfl "fmt" (by decide),
    (C19_import_closure appRes appCfg "/src/app" "./" "" true rfl).2.2⟩

/-! ## Abort-on-error -/

theorem AbortsAt.of_extends (res : Resolver) (cfg : Config) {st0 st : State}
    {r : Option String × State} (hx : Extends st0 st) (h : AbortsAt res cfg st r) :
    AbortsAt res cfg st0 r := by
  refine ⟨h.1, fun e he => ?_⟩
  obtain ⟨s, name, dir, lvl, importer, msg, h1, h2⟩ := h.2 e he
  exact ⟨s, name, dir, lvl, importer, msg, hx.trans h1, h2⟩

theorem importsLoop_abortsAt (res : Resolver) (cfg : Config)
    (recurse : String → State → Option String × State)
    (hext : ∀ imp s, s.pkgs.get? imp = none → Extends s (recurse imp s).2)
    (hrec : ∀ imp s, CallsOk res s → s.pkgs.get? imp = none →
      AbortsAt res cfg s (recurse imp s)) :
    ∀ (l : List String) (st : State), CallsOk res st →
      AbortsAt res cfg st (importsLoop recurse l st) := by
  intro l
  induction l with
  | nil =>
    intro st hok
    exact ⟨fun _ => hok, fun e he => by cases he⟩
  | cons imp rest ih =>
    intro st hok
    unfold importsLoop
    cases hg : st.pkgs.get? imp with
    | some q => exact ih st hok
    | none =>
      have hr := hrec imp st hok hg
      have hx := hext imp st hg
      rcases hre : recurse imp st with ⟨e, s1⟩
      rw [hre] at hr hx
      cases e with
      | some err => exact hr
      | none => exact AbortsAt.of_extends res cfg hx (ih s1 (hr.1 rfl))

/-- Under abort-on-error every call on an absent key, made when no noted resolution
has failed, ends as `AbortsAt` describes. -/
theorem processPackageAux_abortsAt (res : Resolver) (cfg : Config) :
    ∀ (n : Nat) (root pkgName : String) (level : Nat) (importedBy : String) (st : State),
      CallsOk res st → st.pkgs.get? pkgName = none →
      AbortsAt res cfg st (processPackageAux res cfg true n root pkgName level importedBy st) := by
  intro n
  induction n with
  | zero =>
    intro root pkgName level importedBy st hok _
    exact ⟨fun _ => hok, fun e he => by cases he⟩
  | succ n ih =>
    intro root pkgName level importedBy st hok habs
    unfold processPackageAux
    by_cases hl : level + 1 > maxLevel
    · rw [if_pos hl]
      exact ⟨fun _ => hok, fun e he => by cases he⟩
    · rw [if_neg hl]
      by_cases hig : ignoredAt cfg pkgName = true
      · rw [if_pos hig]
        exact ⟨fun _ => hok, fun e he => by cases he⟩
      · rw [if_neg hig]
        have hig2 : ignoredAt cfg pkgName = false := by simpa using hig
        dsimp only
        cases herr : (res pkgName root).2 with
        | some msg =>
          simp only [Option.isSome_some, Bool.and_self, if_true, Option.getD_some]
          refine ⟨fun h => (by cases h), fun e he => ?_⟩
          refine ⟨st, pkgName, root, level, importedBy, msg, Extends.refl st, hok, habs,
            by omega, hig2, herr, ?_, rfl⟩
          exact (Option.some.inj he).symm
        | none =>
          simp only [Option.isSome_none, Bool.false_and, Bool.false_eq_true, if_false]
          have hok1 : CallsOk res (st.logCall pkgName root) := by
            intro c hc
            rcases List.mem_append.1 hc with hc | hc
            · exact hok c hc
            · rw [List.mem_singleton.1 hc]
              exact herr
          by_cases hs : (!(inScope cfg (res pkgName root).1.ImportPath)) = true
          · rw [if_pos hs]
            exact ⟨fun _ => hok1, fun e he => by cases he⟩
          · rw [if_neg hs]
            have hx : Extends st ((st.logCall pkgName root).record pkgName (res pkgName root).1
                false) :=
              (Extends.logCall st pkgName root).trans (Extends.record _ _ _ _ habs)
            have hok2 : CallsOk res ((st.logCall pkgName root).record pkgName
                (res pkgName root).1 false) := hok1
            by_cases hgo : (res pkgName root).1.Goroot = true
            · rw [if_pos hgo]
              exact ⟨fun _ => hok2, fun e he => by cases he⟩
            · rw [if_neg hgo]
              exact AbortsAt.of_extends res cfg hx
                (importsLoop_abortsAt res cfg _
                  (fun imp s hab => processPackageAux_extends res cfg true n _ imp _ _ s hab)
                  (fun imp s hs hab => ih _ imp _ _ s hs hab) _ _ hok2)

/-- C13 (abort-on-error propagates immediately).  With `stopOnError = true`, for a
call on an absent key made when no resolution noted so far has failed (as the call of
`main` on fresh maps): if any resolution attempted by the traversal raises an error,
the call returns an error; and when it returns an error `e`, then `e` and the globals
at return are exactly what the failing call itself returned: that call resolved a
package `name` that was absent from the mapping, it is the last resolver call noted
and the only one that failed, the mapping at return is the mapping in which it was
made, and `name` is not in it. -/
theorem C13_abort_propagates (res : Resolver) (cfg : Config) (root pkgName : String)
    (level : Nat) (importedBy : String) (st : State)
    (hok : CallsOk res st) (habs : st.pkgs.get? pkgName = none) :
    ((∃ c ∈ (processPackage res cfg root pkgName level importedBy true st).2.calls,
        (res c.1 c.2).2.isSome = true) →
      (processPackage res cfg root pkgName level importedBy true st).1.isSome = true) ∧
    (∀ e, (processPackage res cfg root pkgName level importedBy true st).1 = some e →
      ∃ (s : State) (name dir : String) (lvl : Nat) (importer msg : String),
        (res name dir).2 = some msg ∧ e = importError name (lvl + 1) importer msg ∧
        processPackage res cfg dir name lvl importer true s = (some e, s.logCall name dir) ∧
        processPackage res cfg root pkgName level importedBy true st =
          (some e, s.logCall name dir) ∧
        (processPackage res cfg root pkgName level importedBy true st).2.pkgs = s.pkgs ∧
        (processPackage res cfg root pkgName level importedBy true st).2.calls =
          s.calls ++ [(name, dir)] ∧
        (processPackage res cfg root pkgName level importedBy true st).2.pkgs.get? name = none ∧
        CallsOk res s ∧ Extends st s) := by
  have h := processPackageAux_abortsAt res cfg (maxLevel - level) root pkgName level importedBy
    st hok habs
  change AbortsAt res cfg st (processPackage res cfg root pkgName level importedBy true st) at h
  constructor
  · rintro ⟨c, hc, hce⟩
    cases hr : (processPackage res cfg root pkgName level importedBy true st).1 with
    | some e => rfl
    | none =>
      rw [h.1 hr c hc] at hce
      cases hce
  · intro e he
    obtain ⟨s, name, dir, lvl, importer, msg, hx, hoks, hab, hlvl, hig, hmsg, hemsg, hst⟩ :=
      h.2 e he
    have hfail : processPackage res cfg dir name lvl importer true s =
        (some e, s.logCall name dir) := by
      rw [processPackage_unfold, if_neg (by omega), hig, hmsg, hemsg]
      rfl
    have hall : processPackage res cfg root pkgName level importedBy true st =
        (some e, s.logCall name dir) := Prod.ext he hst
    refine ⟨s, name, dir, lvl, importer, msg, hmsg, hemsg, hfail, hall, ?_, ?_, ?_, hoks, hx⟩
    · rw [hst]; rfl
    · rw [hst]; rfl
    · rw [hst]; exact hab

/-- C13 at a resolver for which the import `broken` of `util` fails: the traversal from
fresh maps returns an error, `broken` is not in the mapping, and `other`, the import
of `util` that follows `broken`, was never resolved. -/
theorem C13_abort_propagates_witness :
    (processPackage brokenDepRes appCfg "/src/app" "./" 0 "" true State.empty).1.isSome = true ∧
    (processPackage brokenDepRes appCfg "/src/app" "./" 0 "" true State.empty).2.calls =
      [("./", "/src/app"), ("example.com/app/util", "/src/app"),
       ("example.com/app/broken", "/src/app/util")] :=
  ⟨(C13_abort_propagates brokenDepRes appCfg "/src/app" "./" 0 "" State.empty
      (fun c hc => by cases hc) rfl).1
      ⟨("example.com/app/broken", "/src/app/util"), by decide, by decide⟩,
    by decide⟩

/-! ## The depth ceiling -/

/-- The resolver calls noted before a call are still noted, in order, after it. -/
theorem processPackageAux_calls_prefix (res : Resolver) (cfg : Config) (stopOnError : Bool)
    (base : List (String × String)) (n : Nat) (root pkgName : String) (level : Nat)
    (importedBy : String) (st : State) (h : base <+: st.calls) :
    base <+: (processPackageAux res cfg stopOnError n root pkgName level importedBy st).2.calls :=
  processPackageAux_inv_any res cfg stopOnError (fun s => base <+: s.calls)
    (fun _ _ _ hI _ => hI.trans (List.prefix_append _ _))
    (fun _ _ _ hI _ _ _ => hI)
    n root pkgName level importedBy st h

/-- A call at a depth below the ceiling on a name that is not a pseudo-package
consults the resolver for that name first. -/
theorem processPackage_consults (res : Resolver) (cfg : Config) (root pkgName : String)
    (level : Nat) (importedBy : String) (stopOnError : Bool) (st : State)
    (hl : level < maxLevel) (hig : ignoredAt cfg pkgName = false) :
    (st.calls ++ [(pkgName, root)]) <+:
      (processPackage res cfg root pkgName level importedBy stopOnError st).2.calls := by
  rw [processPackage_unfold, if_neg (by omega), hig]
  simp only [Bool.false_eq_true, if_false]
  by_cases he : ((res pkgName root).2.isSome && stopOnError) = true
  · rw [if_pos he]
    exact List.prefix_refl _
  · rw [if_neg he]
    by_cases hs : (!(inScope cfg (res pkgName root).1.ImportPath)) = true
    · rw [if_pos hs]
      exact List.prefix_refl _
    · rw [if_neg hs]
      by_cases hgo : (res pkgName root).1.Goroot = true
      · rw [if_pos hgo]
        exact List.prefix_refl _
      · rw [if_neg hgo]
        exact importsLoop_inv (fun s => (st.calls ++ [(pkgName, root)]) <+: s.calls) _
          (fun imp s hI _ =>
            processPackageAux_calls_prefix res cfg stopOnError _ _ _ imp _ _ s hI)
          _ _ (List.prefix_refl _)

/-- The traversal of a chain from its `k`-th package, entered at depth `k` in a state
that holds none of the packages from the `k`-th on: it returns nil, records the
packages at positions `k` to 255 and leaves every other key as it was. -/
theorem importChain_segment (res : Resolver) (cfg : Config) (stopOnError : Bool)
    (c d : Nat → String) (hch : ImportChain res cfg stopOnError c d) :
    ∀ (m k : Nat), k + m = 255 → ∀ (st : State) (importedBy : String),
      (∀ j, k ≤ j → j ≤ 256 → st.pkgs.get? (c j) = none) →
      (processPackage res cfg (d k) (c k) k importedBy stopOnError st).1 = none ∧
      (∀ j, k ≤ j → j ≤ 255 →
        (processPackage res cfg (d k) (c k) k importedBy stopOnError st).2.pkgs.get? (c j) =
          some (res (c j) (d j)).1) ∧
      (∀ x, (∀ j, k ≤ j → j ≤ 255 → x ≠ c j) →
        (processPackage res cfg (d k) (c k) k importedBy stopOnError st).2.pkgs.get? x =
          st.pkgs.get? x) := by
  intro m
  induction m with
  | zero =>
    intro k hk st importedBy habs
    have hk255 : k = 255 := by omega
    subst hk255
    obtain ⟨hig, herr, hs, hgo, himp, hdir⟩ := hch.1 255 (le_refl _)
    have hne : c 256 ≠ c 255 := fun h => by
      have := hch.2 256 255 (le_refl _) (by omega) h
      omega
    have hcut : ∀ s, processPackage res cfg (res (c 255) (d 255)).1.Dir (c (255 + 1)) (255 + 1)
        (c 255) stopOnError s = (none, s) := by
      intro s
      rw [processPackage_unfold, if_pos (by decide)]
    rw [processPackage_unfold, if_neg (by decide), hig, herr, hs, hgo, himp]
    simp only [Bool.false_eq_true, if_false, Bool.not_true]
    have hg : ((st.logCall (c 255) (d 255)).record (c 255) (res (c 255) (d 255)).1
        (res (c 255) (d 255)).2.isSome).pkgs.get? (c (255 + 1)) = none := by
      show (st.pkgs.set (c 255) (res (c 255) (d 255)).1).get? (c 256) = none
      rw [GoMap.get?_set, if_neg hne]
      exact habs 256 (by omega) (le_refl _)
    unfold importsLoop
    rw [hg]
    simp only [hcut]
    unfold importsLoop
    refine ⟨rfl, ?_, ?_⟩
    · intro j hj1 hj2
      have hj : j = 255 := by omega
      subst hj
      show (st.pkgs.set (c 255) (res (c 255) (d 255)).1).get? (c 255) = _
      rw [GoMap.get?_set, if_pos rfl]
    · intro x hx
      show (st.pkgs.set (c 255) (res (c 255) (d 255)).1).get? x = _
      rw [GoMap.get?_set, if_neg (hx 255 (le_refl _) (le_refl _))]
  | succ m ih =>
    intro k hk st importedBy habs
    obtain ⟨hig, herr, hs, hgo, himp, hdir⟩ := hch.1 k (by omega)
    have hl : ¬ (k + 1 > maxLevel) := by unfold maxLevel; omega
    have hne : ∀ j, k + 1 ≤ j → j ≤ 256 → c j ≠ c k := by
      intro j hj1 hj2 h
      have := hch.2 j k hj2 (by omega) h
      omega
    rw [processPackage_unfold, if_neg hl, hig, herr, hs, hgo, himp, ← hdir]
    simp only [Bool.false_eq_true, if_false, Bool.not_true]
    have hst2 : ∀ x, x ≠ c k →
        ((st.logCall (c k) (d k)).record (c k) (res (c k) (d k)).1
          (res (c k) (d k)).2.isSome).pkgs.get? x = st.pkgs.get? x := by
      intro x hx
      show (st.pkgs.set (c k) (res (c k) (d k)).1).get? x = _
      rw [GoMap.get?_set, if_neg hx]
    have hself : ((st.logCall (c k) (d k)).record (c k) (res (c k) (d k)).1
        (res (c k) (d k)).2.isSome).pkgs.get? (c k) = some (res (c k) (d k)).1 := by
      show (st.pkgs.set (c k) (res (c k) (d k)).1).get? (c k) = _
      rw [GoMap.get?_set, if_pos rfl]
    have hg : ∀ j, k + 1 ≤ j → j ≤ 256 →
        ((st.logCall (c k) (d k)).record (c k) (res (c k) (d k)).1
          (res (c k) (d k)).2.isSome).pkgs.get? (c j) = none := by
      intro j hj1 hj2
      rw [hst2 _ (hne j hj1 hj2)]
      exact habs j (by omega) hj2
    have hrec := ih (k + 1) (by omega) _ (c k) hg
    unfold importsLoop
    rw [hg (k + 1) (le_refl _) (by omega)]
    simp only
    rcases hr : processPackage res cfg (d (k + 1)) (c (k + 1)) (k + 1) (c k) stopOnError
      ((st.logCall (c k) (d k)).record (c k) (res (c k) (d k)).1 (res (c k) (d k)).2.isSome)
      with ⟨e, s1⟩
    rw [hr] at hrec
    simp only at hrec
    obtain ⟨he, h1, h2⟩ := hrec
    subst he
    simp only
    unfold importsLoop
    refine ⟨rfl, ?_, ?_⟩
    · intro j hj1 hj2
      by_cases hjk : j = k
      · subst hjk
        show s1.pkgs.get? (c j) = _
        rw [h2 (c j) (fun i hi1 hi2 => (hne i hi1 (by omega)).symm), hself]
      · exact h1 j (by omega) hj2
    · intro x hx
      show s1.pkgs.get? x = _
      rw [h2 x (fun i hi1 hi2 => hx i (by omega) hi2), hst2 x (hx k (le_refl _) (by omega))]

set_option maxRecDepth 100000 in
/-- The packages of the chain `lineName`, resolved by `lineRes`, fit `ImportChain`
position by position. -/
theorem lineChain_steps : ∀ k, k ≤ 255 →
    ignoredAt (defaultConfig "m") (lineName k) = false ∧
    ((lineRes (lineName k) "").2.isSome && true) = false ∧
    inScope (defaultConfig "m") (lineRes (lineName k) "").1.ImportPath = true ∧
    (lineRes (lineName k) "").1.Goroot = false ∧
    getImports (lineRes (lineName k) "").1 = [lineName (k + 1)] ∧
    "" = (lineRes (lineName k) "").1.Dir := by
  decide

theorem lineName_injective (i j : Nat) (hi : i ≤ 256) (hj : j ≤ 256)
    (h : lineName i = lineName j) : i = j := by
  unfold lineName at h
  by_cases hi0 : i = 0
  · by_cases hj0 : j = 0
    · omega
    · rw [if_pos hi0, if_neg hj0] at h
      by_cases hj6 : j = 256
      · rw [if_pos hj6] at h
        exact absurd h (by decide)
      · rw [if_neg hj6] at h
        exact absurd h.symm (chain_facts j (by omega)).2.1
  · rw [if_neg hi0] at h
    by_cases hi6 : i = 256
    · rw [if_pos hi6] at h
      by_cases hj0 : j = 0
      · rw [if_pos hj0] at h
        exact absurd h (by decide)
      · rw [if_neg hj0] at h
        by_cases hj6 : j = 256
        · omega
        · rw [if_neg hj6] at h
          exact absurd h.symm (chain_facts j (by omega)).2.2.1
    · rw [if_neg hi6] at h
      by_cases hj0 : j = 0
      · rw [if_pos hj0] at h
        exact absurd h (chain_facts i (by omega)).2.1
      · rw [if_neg hj0] at h
        by_cases hj6 : j = 256
        · rw [if_pos hj6] at h
          exact absurd h (chain_facts i (by omega)).2.2.1
        · rw [if_neg hj6] at h
          exact chainName_injective (by omega) (by omega) h

theorem lineChain : ImportChain lineRes (defaultConfig "m") true lineName (fun _ => "") :=
  ⟨lineChain_steps, lineName_injective⟩

/-! ## The depth as a Go `int` -/

theorem wrapInt_succ (x : Int) (h1 : minInt ≤ x) (h2 : x < maxInt) :
    wrapInt (x + 1) = x + 1 := by
  unfold minInt at h1
  unfold maxInt at h2
  unfold wrapInt
  omega

theorem wrapInt_maxInt_succ : wrapInt (maxInt + 1) = minInt := by decide

/-- The recursion equation of `processPackageFuel`: the body of the source, the level
incremented with wrap-around. -/
theorem processPackageFuel_succ (res : Resolver) (cfg : Config) (stopOnError : Bool)
    (fuel : Nat) (root pkgName : String) (level : Int) (importedBy : String) (st : State) :
    processPackageFuel res cfg stopOnError (fuel + 1) root pkgName level importedBy st =
      if wrapInt (level + 1) > (maxLevel : Int) then some (none, st)
      else if ignoredAt cfg pkgName then some (none, st)
      else
        if (res pkgName root).2.isSome && stopOnError then
          some (some (importErrorInt pkgName (wrapInt (level + 1)) importedBy
            ((res pkgName root).2.getD "")), st.logCall pkgName root)
        else if !(inScope cfg (res pkgName root).1.ImportPath) then
          some (none, st.logCall pkgName root)
        else if (res pkgName root).1.Goroot then
          some (none, (st.logCall pkgName root).record pkgName (res pkgName root).1
            (res pkgName root).2.isSome)
        else importsLoopFuel
            (fun imp s => processPackageFuel res cfg stopOnError fuel (res pkgName root).1.Dir
              imp (wrapInt (level + 1)) pkgName s)
            (getImports (res pkgName root).1)
            ((st.logCall pkgName root).record pkgName (res pkgName root).1
              (res pkgName root).2.isSome) := rfl

/-- The loop returns what it returned once its recursive calls return more often. -/
theorem importsLoopFuel_mono (f g : String → State → Option (Option String × State))
    (h : ∀ imp s r, f imp s = some r → g imp s = some r) :
    ∀ (l : List String) (st : State) (r : Option String × State),
      (importsLoopFuel f l st = some r) → importsLoopFuel g l st = some r := by
  intro l
  induction l with
  | nil => intro st r hr; exact hr
  | cons imp rest ih =>
    intro st r
    unfold importsLoopFuel
    cases hg : st.pkgs.get? imp with
    | some q => exact ih st r
    | none =>
      cases hf : f imp st with
      | none => intro hr; cases hr
      | some p =>
        rw [h imp st p hf]
        obtain ⟨e, s1⟩ := p
        cases e with
        | some err => exact fun hr => hr
        | none => exact ih s1 r

/-- A call that returned within some nesting returns the same within a deeper one. -/
theorem processPackageFuel_mono_succ (res : Resolver) (cfg : Config) (stopOnError : Bool) :
    ∀ (fuel : Nat) (root pkgName : String) (level : Int) (importedBy : String) (st : State)
      (r : Option String × State),
      processPackageFuel res cfg stopOnError fuel root pkgName level importedBy st = some r →
      processPackageFuel res cfg stopOnError (fuel + 1) root pkgName level importedBy st =
        some r := by
  intro fuel
  induction fuel with
  | zero => intro root pkgName level importedBy st r hr; cases hr
  | succ n ih =>
    intro root pkgName level importedBy st r
    rw [processPackageFuel_succ res cfg stopOnError n,
      processPackageFuel_succ res cfg stopOnError (n + 1)]
    by_cases hl : wrapInt (level + 1) > (maxLevel : Int)
    · rw [if_pos hl, if_pos hl]; exact fun hr => hr
    · rw [if_neg hl, if_neg hl]
      by_cases hig : ignoredAt cfg pkgName = true
      · rw [if_pos hig, if_pos hig]; exact fun hr => hr
      · rw [if_neg hig, if_neg hig]
        by_cases he : ((res pkgName root).2.isSome && stopOnError) = true
        · rw [if_pos he, if_pos he]; exact fun hr => hr
        · rw [if_neg he, if_neg he]
          by_cases hs : (!(inScope cfg (res pkgName root).1.ImportPath)) = true
          · rw [if_pos hs, if_pos hs]; exact fun hr => hr
          · rw [if_neg hs, if_neg hs]
            by_cases hgo : (res pkgName root).1.Goroot = true
            · rw [if_pos hgo, if_pos hgo]; exact fun hr => hr
            · rw [if_neg hgo, if_neg hgo]
              exact importsLoopFuel_mono _ _ (fun imp s p hp => ih _ imp _ _ s p hp) _ _ r

theorem processPackageFuel_mono (res : Resolver) (cfg : Config) (stopOnError : Bool)
    (fuel fuel2 : Nat) (hle : fuel ≤ fuel2) (root pkgName : String) (level : Int)
    (importedBy : String) (st : State) (r : Option String × State)
    (hr : processPackageFuel res cfg stopOnError fuel root pkgName level importedBy st =
      some r) :
    processPackageFuel res cfg stopOnError fuel2 root pkgName level importedBy st = some r := by
  induction fuel2, hle using Nat.le_induction with
  | base => exact hr
  | succ m _ ih =>
    exact processPackageFuel_mono_succ res cfg stopOnError m root pkgName level importedBy st r ih

/-- The loop returns when every recursive call does. -/
theorem importsLoopFuel_returns (f : String → State → Option (Option String × State))
    (h : ∀ imp s, ∃ r, f imp s = some r) :
    ∀ (l : List String) (st : State), ∃ r, importsLoopFuel f l st = some r := by
  intro l
  induction l with
  | nil => intro st; exact ⟨(none, st), rfl⟩
  | cons imp rest ih =>
    intro st
    unfold importsLoopFuel
    cases hg : st.pkgs.get? imp with
    | some q => exact ih st
    | none =>
      obtain ⟨⟨e, s1⟩, hp⟩ := h imp st
      rw [hp]
      cases e with
      | some err => exact ⟨_, rfl⟩
      | none => exact ih s1

/-- A call on the branches of the body that follow the depth guard returns when the
calls it makes do. -/
theorem processPackageFuel_returns_of (res : Resolver) (cfg : Config) (stopOnError : Bool)
    (fuel : Nat) (root pkgName : String) (level : Int) (importedBy : String) (st : State)
    (h : ∀ dir imp by2 s, ∃ r, processPackageFuel res cfg stopOnError fuel dir imp
      (wrapInt (level + 1)) by2 s = some r) :
    ∃ r, processPackageFuel res cfg stopOnError (fuel + 1) root pkgName level importedBy st =
      some r := by
  rw [processPackageFuel_succ]
  by_cases hl : wrapInt (level + 1) > (maxLevel : Int)
  · rw [if_pos hl]; exact ⟨_, rfl⟩
  · rw [if_neg hl]
    by_cases hig : ignoredAt cfg pkgName = true
    · rw [if_pos hig]; exact ⟨_, rfl⟩
    · rw [if_neg hig]
      by_cases he : ((res pkgName root).2.isSome && stopOnError) = true
      · rw [if_pos he]; exact ⟨_, rfl⟩
      · rw [if_neg he]
        by_cases hs : (!(inScope cfg (res pkgName root).1.ImportPath)) = true
        · rw [if_pos hs]; exact ⟨_, rfl⟩
        · rw [if_neg hs]
          by_cases hgo : (res pkgName root).1.Goroot = true
          · rw [if_pos hgo]; exact ⟨_, rfl⟩
          · rw [if_neg hgo]
            exact importsLoopFuel_returns _ (fun imp s => h _ imp _ s) _ _

/-- A call entered below `maxInt` returns within a nesting of `256 - level + 1` calls
(of one call, from the ceiling on). -/
theorem processPackageFuel_returns_below (res : Resolver) (cfg : Config) (stopOnError : Bool) :
    ∀ (fuel : Nat) (level : Int), minInt ≤ level → level < maxInt →
      (256 - level).toNat + 1 ≤ fuel →
      ∀ (root pkgName importedBy : String) (st : State),
        ∃ r, processPackageFuel res cfg stopOnError fuel root pkgName level importedBy st =
          some r := by
  intro fuel
  induction fuel with
  | zero => intro level _ _ h; omega
  | succ n ih =>
    intro level h1 h2 hf root pkgName importedBy st
    have hw := wrapInt_succ level h1 h2
    by_cases hl : wrapInt (level + 1) > (maxLevel : Int)
    · rw [processPackageFuel_succ, if_pos hl]; exact ⟨_, rfl⟩
    · refine processPackageFuel_returns_of res cfg stopOnError n root pkgName level importedBy st
        (fun dir imp by2 s => ?_)
      rw [hw] at hl ⊢
      have hm : ((maxLevel : Nat) : Int) = 256 := rfl
      rw [hm] at hl
      unfold minInt at h1
      unfold maxInt at h2
      exact ih (level + 1) (by unfold minInt; omega) (by unfold maxInt; omega) (by omega)
        dir imp by2 s

/-- Every call returns: within a nesting of `fuelFor level` calls, and then within
every deeper one, with one and the same result. -/
theorem processPackageFuel_returns (res : Resolver) (cfg : Config) (stopOnError : Bool)
    (root pkgName : String) (level : Int) (importedBy : String) (st : State)
    (h1 : minInt ≤ level) (h2 : level ≤ maxInt) :
    ∃ r, ∀ fuel, fuelFor level ≤ fuel →
      processPackageFuel res cfg stopOnError fuel root pkgName level importedBy st =
        some r := by
  have hone : ∃ r, processPackageFuel res cfg stopOnError (fuelFor level) root pkgName
      level importedBy st = some r := by
    by_cases hmax : level = maxInt
    · subst hmax
      have hf : fuelFor maxInt = 9223372036854776065 + 1 := by decide
      rw [hf]
      refine processPackageFuel_returns_of res cfg stopOnError _ root pkgName maxInt importedBy
        st (fun dir imp by2 s => ?_)
      rw [wrapInt_maxInt_succ]
      exact processPackageFuel_returns_below res cfg stopOnError _ minInt (le_refl _)
        (by decide) (by decide) dir imp by2 s
    · have hf : fuelFor level = (256 - level).toNat + 1 := by
        unfold fuelFor
        rw [if_neg hmax]
      rw [hf]
      exact processPackageFuel_returns_below res cfg stopOnError _ level h1
        (lt_of_le_of_ne h2 hmax) (le_refl _) root pkgName importedBy st
  obtain ⟨r, hr⟩ := hone
  exact ⟨r, fun fuel hfuel =>
    processPackageFuel_mono res cfg stopOnError _ fuel hfuel root pkgName level importedBy st r hr⟩

/-- An invariant of the globals kept by every recursive call that returns is kept by
the import loop. -/
theorem importsLoopFuel_inv (I : State → Prop)
    (recurse : String → State → Option (Option String × State))
    (hrec : ∀ imp s r, I s → recurse imp s = some r → I r.2) :
    ∀ (l : List String) (st : State) (r : Option String × State), I st →
      (importsLoopFuel recurse l st = some r) → I r.2 := by
  intro l
  induction l with
  | nil =>
    intro st r h hr
    cases hr
    exact h
  | cons imp rest ih =>
    intro st r h
    unfold importsLoopFuel
    cases hg : st.pkgs.get? imp with
    | some q => exact ih st r h
    | none =>
      cases hf : recurse imp st with
      | none => intro hr; cases hr
      | some p =>
        have hp := hrec imp st p h hf
        obtain ⟨e, s1⟩ := p
        cases e with
        | some err =>
          intro hr
          cases hr
          exact hp
        | none => exact ih s1 r hp

/-- The resolver calls noted before a call are still noted, in order, after it. -/
theorem processPackageFuel_calls_prefix (res : Resolver) (cfg : Config) (stopOnError : Bool)
    (base : List (String × String)) :
    ∀ (fuel : Nat) (root pkgName : String) (level : Int) (importedBy : String) (st : State)
      (r : Option String × State), base <+: st.calls →
      processPackageFuel res cfg stopOnError fuel root pkgName level importedBy st = some r →
      base <+: r.2.calls := by
  intro fuel
  induction fuel with
  | zero => intro root pkgName level importedBy st r _ hr; cases hr
  | succ n ih =>
    intro root pkgName level importedBy st r h
    have h1 : base <+: (st.logCall pkgName root).calls := h.trans (List.prefix_append _ _)
    rw [processPackageFuel_succ]
    by_cases hl : wrapInt (level + 1) > (maxLevel : Int)
    · rw [if_pos hl]; intro hr; cases hr; exact h
    · rw [if_neg hl]
      by_cases hig : ignoredAt cfg pkgName = true
      · rw [if_pos hig]; intro hr; cases hr; exact h
      · rw [if_neg hig]
        by_cases he : ((res pkgName root).2.isSome && stopOnError) = true
        · rw [if_pos he]; intro hr; cases hr; exact h1
        · rw [if_neg he]
          by_cases hs : (!(inScope cfg (res pkgName root).1.ImportPath)) = true
          · rw [if_pos hs]; intro hr; cases hr; exact h1
          · rw [if_neg hs]
            by_cases hgo : (res pkgName root).1.Goroot = true
            · rw [if_pos hgo]; intro hr; cases hr; exact h1
            · rw [if_neg hgo]
              exact importsLoopFuel_inv (fun s => base <+: s.calls) _
                (fun imp s p hI hp => ih _ imp _ _ s p hI hp) _ _ r h1

/-- A call that passes the depth guard on a name that is not a pseudo-package consults
the resolver for that name before anything else. -/
theorem processPackageFuel_consults (res : Resolver) (cfg : Config) (stopOnError : Bool)
    (fuel : Nat) (root pkgName : String) (level : Int) (importedBy : String) (st : State)
    (r : Option String × State) (hl : ¬ wrapInt (level + 1) > (maxLevel : Int))
    (hig : ignoredAt cfg pkgName = false)
    (hr : processPackageFuel res cfg stopOnError fuel root pkgName level importedBy st =
      some r) :
    (st.calls ++ [(pkgName, root)]) <+: r.2.calls := by
  cases fuel with
  | zero => cases hr
  | succ n =>
    rw [processPackageFuel_succ, if_neg hl, hig] at hr
    simp only [Bool.false_eq_true, if_false] at hr
    by_cases he : ((res pkgName root).2.isSome && stopOnError) = true
    · rw [if_pos he] at hr; cases hr; exact List.prefix_refl _
    · rw [if_neg he] at hr
      by_cases hs : (!(inScope cfg (res pkgName root).1.ImportPath)) = true
      · rw [if_pos hs] at hr; cases hr; exact List.prefix_refl _
      · rw [if_neg hs] at hr
        by_cases hgo : (res pkgName root).1.Goroot = true
        · rw [if_pos hgo] at hr; cases hr; exact List.prefix_refl _
        · rw [if_neg hgo] at hr
          exact importsLoopFuel_inv (fun s => (st.calls ++ [(pkgName, root)]) <+: s.calls) _
            (fun imp s p hI hp =>
              processPackageFuel_calls_prefix res cfg stopOnError _ n _ imp _ _ s p hI hp)
            _ _ r (List.prefix_refl _) hr

theorem importsLoopFuel_some (g : String → State → Option String × State) :
    ∀ (l : List String) (st : State), importsLoopFuel (fun imp s => some (g imp s)) l st =
      some (importsLoop g l st) := by
  intro l
  induction l with
  | nil => intro st; rfl
  | cons imp rest ih =>
    intro st
    unfold importsLoopFuel importsLoop
    cases hg : st.pkgs.get? imp with
    | some q => exact ih st
    | none =>
      rcases hr : g imp st with ⟨e, s1⟩
      cases e with
      | some err => rfl
      | none => exact ih s1

theorem importErrorInt_natCast (pkgName : String) (level : Nat) (importedBy buildErr : String) :
    (importErrorInt pkgName (level : Int) importedBy buildErr) =
      (importError pkgName level importedBy buildErr) := rfl

/-- At the depths `0 ≤ level < maxInt`, where `level++` does not wrap, the function on
`int` levels returns, within a nesting of `maxLevel - level + 1` calls, what
`processPackage` on natural-number levels gives. -/
theorem processPackageFuel_eq_processPackage (res : Resolver) (cfg : Config)
    (stopOnError : Bool) :
    ∀ (fuel : Nat) (level : Nat), (level : Int) < maxInt → maxLevel - level + 1 ≤ fuel →
      ∀ (root pkgName importedBy : String) (st : State),
        processPackageFuel res cfg stopOnError fuel root pkgName (level : Int) importedBy st =
          some (processPackage res cfg root pkgName level importedBy stopOnError st) := by
  intro fuel
  induction fuel with
  | zero => intro level _ h; omega
  | succ n ih =>
    intro level hmax hf root pkgName importedBy st
    have hw : wrapInt ((level : Int) + 1) = ((level + 1 : Nat) : Int) := by
      rw [wrapInt_succ _ (by unfold minInt; omega) hmax]
      rfl
    rw [processPackageFuel_succ, processPackage_unfold, hw]
    by_cases hl : level + 1 > maxLevel
    · rw [if_pos hl, if_pos (Int.ofNat_lt.2 hl)]
    · rw [if_neg hl, if_neg (fun h => hl (Int.ofNat_lt.1 h))]
      by_cases hig : ignoredAt cfg pkgName = true
      · rw [if_pos hig, if_pos hig]
      · rw [if_neg hig, if_neg hig]
        by_cases he : ((res pkgName root).2.isSome && stopOnError) = true
        · rw [if_pos he, if_pos he, importErrorInt_natCast]
        · rw [if_neg he, if_neg he]
          by_cases hs : (!(inScope cfg (res pkgName root).1.ImportPath)) = true
          · rw [if_pos hs, if_pos hs]
          · rw [if_neg hs, if_neg hs]
            by_cases hgo : (res pkgName root).1.Goroot = true
            · rw [if_pos hgo, if_pos hgo]
            · rw [if_neg hgo, if_neg hgo]
              have hfun : (fun imp s => processPackageFuel res cfg stopOnError n
                  (res pkgName root).1.Dir imp ((level + 1 : Nat) : Int) pkgName s) =
                  (fun imp s => some (processPackage res cfg (res pkgName root).1.Dir imp
                    (level + 1) pkgName stopOnError s)) := by
                funext imp s
                have hm : maxLevel = 256 := rfl
                exact ih (level + 1) (by unfold maxInt; push_cast; omega) (by omega) _ imp
                  pkgName s
              rw [hfun]
              exact importsLoopFuel_some _ _ _

/-- The part of C17 on chains, for natural-number levels. -/
theorem importChain_recorded (res : Resolver) (cfg : Config) (stopOnError : Bool)
    (c d : Nat → String) (importedBy : String) (hch : ImportChain res cfg stopOnError c d) :
    (processPackage res cfg (d 0) (c 0) 0 importedBy stopOnError State.empty).1 = none ∧
    (∀ x, (∃ p, (processPackage res cfg (d 0) (c 0) 0 importedBy stopOnError
        State.empty).2.pkgs.get? x = some p) ↔ ∃ k, k ≤ 255 ∧ x = c k) ∧
    (∀ k, k ≤ 255 →
      (processPackage res cfg (d 0) (c 0) 0 importedBy stopOnError
        State.empty).2.pkgs.get? (c k) = some (res (c k) (d k)).1) ∧
    (processPackage res cfg (d 0) (c 0) 0 importedBy stopOnError
      State.empty).2.pkgs.get? (c 256) = none ∧
    (processPackage res cfg (d 0) (c 0) 0 importedBy stopOnError State.empty).2.pkgs.len =
      256 := by
  obtain ⟨h1, h2, h3⟩ := importChain_segment res cfg stopOnError c d hch 255 0 (by omega)
    State.empty importedBy (fun _ _ _ => rfl)
  have hmem : ∀ x, (∃ p, (processPackage res cfg (d 0) (c 0) 0 importedBy stopOnError
      State.empty).2.pkgs.get? x = some p) ↔ ∃ k, k ≤ 255 ∧ x = c k := by
    intro x
    constructor
    · rintro ⟨p, hp⟩
      by_contra hno
      have hx : ∀ j, 0 ≤ j → j ≤ 255 → x ≠ c j := fun j _ hj e => hno ⟨j, hj, e⟩
      rw [h3 x hx] at hp
      cases hp
    · rintro ⟨k, hk, rfl⟩
      exact ⟨_, h2 k (Nat.zero_le _) hk⟩
  have h256 : (processPackage res cfg (d 0) (c 0) 0 importedBy stopOnError
      State.empty).2.pkgs.get? (c 256) = none := by
    rw [h3 (c 256) (fun j _ hj e => by
      have := hch.2 256 j (le_refl _) (by omega) e
      omega)]
    rfl
  refine ⟨h1, hmem, fun k hk => h2 k (Nat.zero_le _) hk, h256, ?_⟩
  have hnd : ((List.range 256).map c).Nodup := by
    refine List.Nodup.map_on ?_ (List.nodup_range 256)
    intro i hi j hj hij
    exact hch.2 i j (by have := List.mem_range.1 hi; omega)
      (by have := List.mem_range.1 hj; omega) hij
  have hperm : (processPackage res cfg (d 0) (c 0) 0 importedBy stopOnError
      State.empty).2.pkgs.keys.Perm ((List.range 256).map c) := by
    rw [List.perm_ext_iff_of_nodup (GoMap.nodup_keys _) hnd]
    intro x
    rw [GoMap.mem_keys, hmem x, List.mem_map]
    constructor
    · rintro ⟨k, hk, rfl⟩
      exact ⟨k, List.mem_range.2 (by omega), rfl⟩
    · rintro ⟨k, hk, rfl⟩
      exact ⟨k, by have := List.mem_range.1 hk; omega, rfl⟩
  unfold GoMap.len
  rw [hperm.length_eq, List.length_map, List.length_range]

/-- C17, as stated, fails at the greatest depth an `int` holds.  Called at depth
`maxInt`, which is 256 or more, on the root of the example module, `level++` wraps to
`minInt`, the guard `level > maxLevel` lets the call through, and the call returns nil
after consulting the resolver three times and recording the root and `util`: the
globals are not left as they were. -/
theorem C17_counterexample :
    (maxLevel : Int) ≤ maxInt ∧
    (∀ fuel, 3 ≤ fuel →
      processPackageFuel appRes appCfg true fuel "/src/app" "./" maxInt "" State.empty =
        some (none,
          { pkgs := [("example.com/app/util", appUtil), ("./", appRoot)],
            erroredPkgs := [],
            calls := [("./", "/src/app"), ("example.com/app/util", "/src/app"),
              ("fmt", "/src/app")] })) ∧
    State.empty ≠
      { pkgs := [("example.com/app/util", appUtil), ("./", appRoot)],
        erroredPkgs := [],
        calls := [("./", "/src/app"), ("example.com/app/util", "/src/app"),
          ("fmt", "/src/app")] } :=
  ⟨by decide,
    fun fuel hfuel => processPackageFuel_mono appRes appCfg true 3 fuel hfuel "/src/app" "./"
      maxInt "" State.empty _ (by decide),
    by decide⟩

/-- C17 (amended).  With the depth a Go `int` of 64 bits, for every resolver,
configuration and policy: (a) a call at a depth `d` with `256 ≤ d < maxInt` returns
nil, within any nesting of calls, with the globals, the noted resolver calls included,
exactly as they were; (b) a call at any depth `d ≤ 255`, negative depths included, on
a name that is not a pseudo-package returns and has consulted the resolver for that
name before anything else; (c) along a chain of pairwise distinct, in-scope packages
each importing only the next, the traversal started at depth 0 from fresh maps returns
nil, within a nesting of 257 calls, and records exactly the packages at positions 0 to
255 of the chain, 256 entries; (d) every call returns, be the graph of imports infinite
or cyclic: there is a nesting of calls, `fuelFor d` (at most 257 at the depths
`0 ≤ d < maxInt`), within which and beyond which the call has returned one and the
same result. -/
theorem C17_depth_ceiling_int (res : Resolver) (cfg : Config) (stopOnError : Bool) :
    (∀ (root pkgName : String) (level : Int) (importedBy : String) (st : State) (fuel : Nat),
      (maxLevel : Int) ≤ level → level < maxInt → 1 ≤ fuel →
      processPackageFuel res cfg stopOnError fuel root pkgName level importedBy st =
        some (none, st)) ∧
    (∀ (root pkgName : String) (level : Int) (importedBy : String) (st : State),
      minInt ≤ level → level ≤ 255 → ignoredAt cfg pkgName = false →
      ∃ r, (∀ fuel, fuelFor level ≤ fuel →
          processPackageFuel res cfg stopOnError fuel root pkgName level importedBy st =
            some r) ∧
        (st.calls ++ [(pkgName, root)]) <+: r.2.calls) ∧
    (∀ (c d : Nat → String) (importedBy : String), ImportChain res cfg stopOnError c d →
      ∃ r, (∀ fuel, 257 ≤ fuel →
          processPackageFuel res cfg stopOnError fuel (d 0) (c 0) 0 importedBy State.empty =
            some r) ∧
        r.1 = none ∧
        (∀ x, (∃ p, r.2.pkgs.get? x = some p) ↔ ∃ k, k ≤ 255 ∧ x = c k) ∧
        (∀ k, k ≤ 255 → r.2.pkgs.get? (c k) = some (res (c k) (d k)).1) ∧
        r.2.pkgs.get? (c 256) = none ∧
        r.2.pkgs.len = 256) ∧
    (∀ (root pkgName : String) (level : Int) (importedBy : String) (st : State),
      minInt ≤ level → level ≤ maxInt →
      ∃ r, ∀ fuel, fuelFor level ≤ fuel →
        processPackageFuel res cfg stopOnError fuel root pkgName level importedBy st =
          some r) := by
  refine ⟨?_, ?_, ?_, ?_⟩
  · intro root pkgName level importedBy st fuel h1 h2 hfuel
    obtain ⟨n, rfl⟩ : ∃ n, fuel = n + 1 := ⟨fuel - 1, by omega⟩
    have hm : ((maxLevel : Nat) : Int) = 256 := rfl
    rw [hm] at h1
    rw [processPackageFuel_succ, wrapInt_succ level (by unfold minInt; omega) h2,
      if_pos (by rw [hm]; omega)]
  · intro root pkgName level importedBy st h1 h2 hig
    obtain ⟨r, hr⟩ := processPackageFuel_returns res cfg stopOnError root pkgName
      level importedBy st h1 (by unfold maxInt; omega)
    refine ⟨r, hr, ?_⟩
    have hm : ((maxLevel : Nat) : Int) = 256 := rfl
    refine processPackageFuel_consults res cfg stopOnError (fuelFor level) root pkgName
      level importedBy st r ?_ hig (hr _ (le_refl _))
    rw [wrapInt_succ level h1 (by unfold maxInt; omega), hm]
    omega
  · intro c d importedBy hch
    refine ⟨processPackage res cfg (d 0) (c 0) 0 importedBy stopOnError State.empty,
      fun fuel hfuel => ?_, importChain_recorded res cfg stopOnError c d importedBy hch⟩
    exact processPackageFuel_eq_processPackage res cfg stopOnError fuel 0 (by decide)
      (by unfold maxLevel; omega) (d 0) (c 0) importedBy State.empty
  · intro root pkgName level importedBy st h1 h2
    exact processPackageFuel_returns res cfg stopOnError root pkgName level importedBy st h1 h2

/-- C17 (amended) at the chain `lineName` of module `m`: within any nesting of 257 calls
or more the traversal has returned, with 256 packages recorded and not the 257th,
`m/end`. -/
theorem C17_depth_ceiling_int_witness :
    ∃ r, (∀ fuel, 257 ≤ fuel →
        processPackageFuel lineRes (defaultConfig "m") true fuel "" "./" 0 "" State.empty =
          some r) ∧
      r.2.pkgs.len = 256 ∧ r.2.pkgs.get? "m/end" = none := by
  have h0 := C17_depth_ceiling_int lineRes (defaultConfig "m") true
  have h1 := h0.2.2.1
  have h2 := h1 lineName (fun _ => "") ""
  obtain ⟨r, hr, h⟩ := h2 lineChain
  have e0 : lineName 0 = "./" := by decide
  have e6 : lineName 256 = "m/end" := by decide
  rw [e0] at hr
  rw [e6] at h
  exact ⟨r, hr, h.2.2.2.2, h.2.2.2.1⟩

/-! ## Calls refused at the depth ceiling -/

theorem importsLoopCut_fst
    (rc : String → State → (Option String × State) × List (String × String))
    (r : String → State → Option String × State) (h : ∀ imp s, (rc imp s).1 = r imp s) :
    ∀ (l : List String) (st : State), (importsLoopCut rc l st).1 = importsLoop r l st := by
  intro l
  induction l with
  | nil => intro st; rfl
  | cons imp rest ih =>
    intro st
    unfold importsLoopCut importsLoop
    cases hg : st.pkgs.get? imp with
    | some q => exact ih st
    | none =>
      have hr := h imp st
      rcases hrc : rc imp st with ⟨⟨e, s1⟩, cut⟩
      rw [hrc] at hr
      rw [← hr]
      cases e with
      | some err => rfl
      | none => exact ih s1

/-- The ghost list changes nothing: the first component is `processPackageAux`. -/
theorem processPackageAuxCut_fst (res : Resolver) (cfg : Config) (stopOnError : Bool) :
    ∀ (n : Nat) (root pkgName : String) (level : Nat) (importedBy : String) (st : State),
      (processPackageAuxCut res cfg stopOnError n root pkgName level importedBy st).1 =
        processPackageAux res cfg stopOnError n root pkgName level importedBy st := by
  intro n
  induction n with
  | zero => intro root pkgName level importedBy st; rfl
  | succ n ih =>
    intro root pkgName level importedBy st
    unfold processPackageAuxCut processPackageAux
    by_cases hl : level + 1 > maxLevel
    · rw [if_pos hl, if_pos hl]
    · rw [if_neg hl, if_neg hl]
      by_cases hig : ignoredAt cfg pkgName = true
      · rw [if_pos hig, if_pos hig]
      · rw [if_neg hig, if_neg hig]
        dsimp only
        by_cases he : ((res pkgName root).2.isSome && stopOnError) = true
        · rw [if_pos he, if_pos he]
        · rw [if_neg he, if_neg he]
          by_cases hs : (!(inScope cfg (res pkgName root).1.ImportPath)) = true
          · rw [if_pos hs, if_pos hs]
          · rw [if_neg hs, if_neg hs]
            by_cases hgo : (res pkgName root).1.Goroot = true
            · rw [if_pos hgo, if_pos hgo]
            · rw [if_neg hgo, if_neg hgo]
              exact importsLoopCut_fst _ _ (fun imp s => ih _ imp _ _ s) _ _

/-- The ghost list changes nothing: the first component is `processPackage`. -/
theorem processPackageCut_fst (res : Resolver) (cfg : Config) (root pkgName : String)
    (level : Nat) (importedBy : String) (stopOnError : Bool) (st : State) :
    (processPackageCut res cfg root pkgName level importedBy stopOnError st).1 =
      processPackage res cfg root pkgName level importedBy stopOnError st :=
  processPackageAuxCut_fst res cfg stopOnError _ root pkgName level importedBy st

/-- The recursion equation of `processPackageCut`: the body of the source, with the
call noted where the depth guard returns nil and nowhere else. -/
theorem processPackageCut_unfold (res : Resolver) (cfg : Config) (root pkgName : String)
    (level : Nat) (importedBy : String) (stopOnError : Bool) (st : State) :
    processPackageCut res cfg root pkgName level importedBy stopOnError st =
      if level + 1 > maxLevel then ((none, st), [(pkgName, importedBy)])
      else if ignoredAt cfg pkgName then ((none, st), [])
      else
        if (res pkgName root).2.isSome && stopOnError then
          ((some (importError pkgName (level + 1) importedBy ((res pkgName root).2.getD "")),
            st.logCall pkgName root), [])
        else if !(inScope cfg (res pkgName root).1.ImportPath) then
          ((none, st.logCall pkgName root), [])
        else if (res pkgName root).1.Goroot then
          ((none, (st.logCall pkgName root).record pkgName (res pkgName root).1
            (res pkgName root).2.isSome), [])
        else importsLoopCut
            (fun imp s => processPackageCut res cfg (res pkgName root).1.Dir imp (level + 1)
              pkgName stopOnError s)
            (getImports (res pkgName root).1)
            ((st.logCall pkgName root).record pkgName (res pkgName root).1
              (res pkgName root).2.isSome) := by
  unfold processPackageCut
  by_cases hl : level + 1 > maxLevel
  · have h0 : maxLevel - level = 0 := by omega
    rw [h0, if_pos hl]
    rfl
  · obtain ⟨n, hn⟩ : ∃ n, maxLevel - level = n + 1 := ⟨maxLevel - level - 1, by omega⟩
    have hn2 : maxLevel - (level + 1) = n := by omega
    rw [hn, hn2]
    rfl

theorem importsClosedOrCut_weaken (res : Resolver) (cfg : Config) {M M2 : GoMap Package}
    {cut cut2 : List (String × String)} {k : String} {p : Package}
    (hM : ∀ k q, M.get? k = some q → M2.get? k = some q) (hc : ∀ x ∈ cut, x ∈ cut2)
    (h : ImportsClosedOrCut res cfg M cut k p) : ImportsClosedOrCut res cfg M2 cut2 k p := by
  rcases h with h | h
  · exact Or.inl h
  · refine Or.inr (fun i hi => ?_)
    rcases h i hi with ⟨q, hq⟩ | h2 | h2 | h2
    · exact Or.inl ⟨q, hM i q hq⟩
    · exact Or.inr (Or.inl h2)
    · exact Or.inr (Or.inr (Or.inl h2))
    · exact Or.inr (Or.inr (Or.inr (hc _ h2)))

/-- The import loop of the package recorded under `name`, given what the recursive
call guarantees. -/
theorem importsLoopCut_closed (res : Resolver) (cfg : Config) (dir name : String)
    (rc : String → State → (Option String × State) × List (String × String))
    (hext : ∀ imp s, s.pkgs.get? imp = none → Extends s (rc imp s).1.2)
    (hrec : ∀ imp s, s.pkgs.get? imp = none → (rc imp s).1.1 = none →
      (∀ k p, (rc imp s).1.2.pkgs.get? k = some p → s.pkgs.get? k = none →
        ImportsClosedOrCut res cfg (rc imp s).1.2.pkgs (rc imp s).2 k p) ∧
      ((∃ q, (rc imp s).1.2.pkgs.get? imp = some q) ∨ ignoredAt cfg imp = true ∨
        inScope cfg (res imp dir).1.ImportPath = false ∨ (imp, name) ∈ (rc imp s).2)) :
    ∀ (l : List String) (st : State), (importsLoopCut rc l st).1.1 = none →
      (∀ k p, (importsLoopCut rc l st).1.2.pkgs.get? k = some p → st.pkgs.get? k = none →
        ImportsClosedOrCut res cfg (importsLoopCut rc l st).1.2.pkgs
          (importsLoopCut rc l st).2 k p) ∧
      (∀ i ∈ l, (∃ q, (importsLoopCut rc l st).1.2.pkgs.get? i = some q) ∨
        ignoredAt cfg i = true ∨ inScope cfg (res i dir).1.ImportPath = false ∨
        (i, name) ∈ (importsLoopCut rc l st).2) := by
  intro l
  induction l with
  | nil =>
    intro st _
    refine ⟨fun k p h1 h2 => ?_, fun i hi => absurd hi (List.not_mem_nil i)⟩
    change st.pkgs.get? k = some p at h1
    rw [h2] at h1
    cases h1
  | cons imp rest ih =>
    intro st
    have hloopext : ∀ s, Extends s (importsLoopCut rc rest s).1.2 := by
      intro s
      rw [importsLoopCut_fst rc (fun imp s => (rc imp s).1) (fun _ _ => rfl) rest s]
      exact importsLoop_extends _ hext rest s
    unfold importsLoopCut
    cases hg : st.pkgs.get? imp with
    | some q0 =>
      intro hnone
      have := ih st hnone
      refine ⟨this.1, fun i hi => ?_⟩
      rcases List.mem_cons.1 hi with rfl | hi
      · exact Or.inl ⟨q0, (hloopext st).1 _ _ hg⟩
      · exact this.2 i hi
    | none =>
      have hr := hrec imp st hg
      have he := hext imp st hg
      rcases hre : rc imp st with ⟨⟨e, s1⟩, cut⟩
      rw [hre] at hr he
      cases e with
      | some err => intro hnone; cases hnone
      | none =>
        intro hnone
        have hx := hloopext s1
        have h1 := hr rfl
        have h2 := ih s1 hnone
        refine ⟨fun k p hk hab => ?_, fun i hi => ?_⟩
        · cases hk1 : s1.pkgs.get? k with
          | none =>
            exact importsClosedOrCut_weaken res cfg (fun _ _ h => h)
              (fun x hx2 => List.mem_append_right _ hx2) (h2.1 k p hk hk1)
          | some p1 =>
            have hk2 := hx.1 k p1 hk1
            simp only at hk hk2
            rw [hk] at hk2
            have hpp : p = p1 := Option.some.inj hk2
            rw [hpp]
            exact importsClosedOrCut_weaken res cfg hx.1
              (fun x hx2 => List.mem_append_left _ hx2) (h1.1 k p1 hk1 hab)
        · rcases List.mem_cons.1 hi with rfl | hi
          · rcases h1.2 with ⟨q, hq⟩ | h3 | h3 | h3
            · exact Or.inl ⟨q, hx.1 _ _ hq⟩
            · exact Or.inr (Or.inl h3)
            · exact Or.inr (Or.inr (Or.inl h3))
            · exact Or.inr (Or.inr (Or.inr (List.mem_append_left _ h3)))
          · rcases h2.2 i hi with h3 | h3 | h3 | h3
            · exact Or.inl h3
            · exact Or.inr (Or.inl h3)
            · exact Or.inr (Or.inr (Or.inl h3))
            · exact Or.inr (Or.inr (Or.inr (List.mem_append_right _ h3)))

/-- A successful call on an absent key: every entry it added has its import list
accounted for in the final mapping up to the refused calls, and so has the package it
was called on; when the call itself passed the depth guard, that package is accounted
for without more. -/
theorem processPackageAuxCut_closed (res : Resolver) (cfg : Config) (stopOnError : Bool) :
    ∀ (n : Nat) (root pkgName : String) (level : Nat) (importedBy : String) (st : State),
      st.pkgs.get? pkgName = none →
      (processPackageAuxCut res cfg stopOnError n root pkgName level importedBy st).1.1 = none →
      (∀ k p, (processPackageAuxCut res cfg stopOnError n root pkgName level importedBy
          st).1.2.pkgs.get? k = some p → st.pkgs.get? k = none →
        ImportsClosedOrCut res cfg
          (processPackageAuxCut res cfg stopOnError n root pkgName level importedBy st).1.2.pkgs
          (processPackageAuxCut res cfg stopOnError n root pkgName level importedBy st).2 k p) ∧
      ((∃ q, (processPackageAuxCut res cfg stopOnError n root pkgName level importedBy
          st).1.2.pkgs.get? pkgName = some q) ∨ ignoredAt cfg pkgName = true ∨
        inScope cfg (res pkgName root).1.ImportPath = false ∨
        ((n = 0 ∨ level + 1 > maxLevel) ∧
          (pkgName, importedBy) ∈
            (processPackageAuxCut res cfg stopOnError n root pkgName level importedBy st).2)) := by
  intro n
  induction n with
  | zero =>
    intro root pkgName level importedBy st habs _
    refine ⟨fun k p h1 h2 => ?_, Or.inr (Or.inr (Or.inr ⟨Or.inl rfl, List.mem_singleton.2 rfl⟩))⟩
    change st.pkgs.get? k = some p at h1
    rw [h2] at h1
    cases h1
  | succ n ih =>
    intro root pkgName level importedBy st habs
    have hvac : ∀ (cut : List (String × String)) k p, st.pkgs.get? k = some p →
        st.pkgs.get? k = none → ImportsClosedOrCut res cfg st.pkgs cut k p := by
      intro cut k p h1 h2
      rw [h2] at h1
      cases h1
    unfold processPackageAuxCut
    by_cases hl : level + 1 > maxLevel
    · rw [if_pos hl]
      intro _
      exact ⟨hvac _, Or.inr (Or.inr (Or.inr ⟨Or.inr hl, List.mem_singleton.2 rfl⟩))⟩
    · rw [if_neg hl]
      by_cases hig : ignoredAt cfg pkgName = true
      · rw [if_pos hig]
        intro _
        exact ⟨hvac _, Or.inr (Or.inl hig)⟩
      · rw [if_neg hig]
        dsimp only
        by_cases he : ((res pkgName root).2.isSome && stopOnError) = true
        · rw [if_pos he]
          intro hnone
          cases hnone
        · rw [if_neg he]
          by_cases hs : (!(inScope cfg (res pkgName root).1.ImportPath)) = true
          · rw [if_pos hs]
            intro _
            exact ⟨hvac _, Or.inr (Or.inr (Or.inl (by simpa using hs)))⟩
          · rw [if_neg hs]
            have hself : ((st.logCall pkgName root).record pkgName (res pkgName root).1
                (res pkgName root).2.isSome).pkgs.get? pkgName = some (res pkgName root).1 := by
              show (st.pkgs.set pkgName (res pkgName root).1).get? pkgName = _
              rw [GoMap.get?_set, if_pos rfl]
            have hother : ∀ k, k ≠ pkgName →
                ((st.logCall pkgName root).record pkgName (res pkgName root).1
                  (res pkgName root).2.isSome).pkgs.get? k = st.pkgs.get? k := by
              intro k hk
              show (st.pkgs.set pkgName (res pkgName root).1).get? k = _
              rw [GoMap.get?_set, if_neg hk]
            by_cases hgo : (res pkgName root).1.Goroot = true
            · rw [if_pos hgo]
              intro _
              refine ⟨fun k p hk hab => ?_, Or.inl ⟨_, hself⟩⟩
              by_cases hkn : k = pkgName
              · simp only at hk
                rw [hkn, hself] at hk
                rw [← Option.some.inj hk]
                exact Or.inl hgo
              · simp only at hk
                rw [hother k hkn, hab] at hk
                cases hk
            · rw [if_neg hgo]
              intro hnone
              have hext : ∀ imp s, s.pkgs.get? imp = none →
                  Extends s (processPackageAuxCut res cfg stopOnError n
                    (res pkgName root).1.Dir imp (level + 1) pkgName s).1.2 := by
                intro imp s hab
                rw [processPackageAuxCut_fst]
                exact processPackageAux_extends res cfg stopOnError n _ imp _ _ s hab
              have hloop := importsLoopCut_closed res cfg (res pkgName root).1.Dir pkgName
                (fun imp s => processPackageAuxCut res cfg stopOnError n
                  (res pkgName root).1.Dir imp (level + 1) pkgName s)
                hext
                (fun imp s hab h1 => by
                  have h := ih (res pkgName root).1.Dir imp (level + 1) pkgName s hab h1
                  refine ⟨h.1, ?_⟩
                  rcases h.2 with h3 | h3 | h3 | h3
                  · exact Or.inl h3
                  · exact Or.inr (Or.inl h3)
                  · exact Or.inr (Or.inr (Or.inl h3))
                  · exact Or.inr (Or.inr (Or.inr h3.2)))
                (getImports (res pkgName root).1) _ hnone
              have hx : Extends ((st.logCall pkgName root).record pkgName (res pkgName root).1
                  (res pkgName root).2.isSome)
                  (importsLoopCut (fun imp s => processPackageAuxCut res cfg stopOnError n
                    (res pkgName root).1.Dir imp (level + 1) pkgName s)
                    (getImports (res pkgName root).1)
                    ((st.logCall pkgName root).record pkgName (res pkgName root).1
                      (res pkgName root).2.isSome)).1.2 := by
                rw [importsLoopCut_fst _ (fun imp s => (processPackageAuxCut res cfg stopOnError
                  n (res pkgName root).1.Dir imp (level + 1) pkgName s).1) (fun _ _ => rfl)]
                exact importsLoop_extends _ hext _ _
              have hfin := hx.1 pkgName _ hself
              refine ⟨fun k p hk hab => ?_, Or.inl ⟨_, hfin⟩⟩
              by_cases hkn : k = pkgName
              · rw [hkn, hfin] at hk
                rw [← Option.some.inj hk, hkn]
                exact Or.inr hloop.2
              · exact hloop.1 k p hk ((hother k hkn).trans hab)

/-- After a successful traversal from the empty mapping, started at depth 0: the import
list of every recorded descriptor is accounted for up to the calls refused at the depth
ceiling, and so is, without more, the package the traversal was started on. -/
theorem processPackage_closed_or_cut (res : Resolver) (cfg : Config) (root pkgName : String)
    (importedBy : String) (stopOnError : Bool)
    (hnone : (processPackage res cfg root pkgName 0 importedBy stopOnError State.empty).1 =
      none) :
    (∀ k p, (processPackage res cfg root pkgName 0 importedBy stopOnError
        State.empty).2.pkgs.get? k = some p →
      ImportsClosedOrCut res cfg
        (processPackage res cfg root pkgName 0 importedBy stopOnError State.empty).2.pkgs
        (refusedCalls res cfg root pkgName 0 importedBy stopOnError State.empty) k p) ∧
    ((∃ q, (processPackage res cfg root pkgName 0 importedBy stopOnError
        State.empty).2.pkgs.get? pkgName = some q) ∨ ignoredAt cfg pkgName = true ∨
      inScope cfg (res pkgName root).1.ImportPath = false) := by
  have hfst := processPackageAuxCut_fst res cfg stopOnError (maxLevel - 0) root pkgName
    0 importedBy State.empty
  have h := processPackageAuxCut_closed res cfg stopOnError (maxLevel - 0) root pkgName
    0 importedBy State.empty rfl (by rw [hfst]; exact hnone)
  rw [hfst] at h
  refine ⟨fun k p hk => h.1 k p hk rfl, ?_⟩
  rcases h.2 with h3 | h3 | h3 | h3
  · exact Or.inl h3
  · exact Or.inr (Or.inl h3)
  · exact Or.inr (Or.inr h3)
  · exact absurd h3.1 (by decide)

theorem importsLoopCut_snd_nil
    (rc : String → State → (Option String × State) × List (String × String)) :
    ∀ (l : List String), (∀ imp ∈ l, ∀ s, (rc imp s).2 = []) →
      ∀ (st : State), (importsLoopCut rc l st).2 = [] := by
  intro l
  induction l with
  | nil => intro _ st; rfl
  | cons imp rest ih =>
    intro h st
    have ih2 := ih (fun i hi s => h i (List.mem_cons_of_mem _ hi) s)
    unfold importsLoopCut
    cases hg : st.pkgs.get? imp with
    | some q => exact ih2 st
    | none =>
      have hc := h imp (List.mem_cons_self _ _) st
      rcases hrc : rc imp st with ⟨⟨e, s1⟩, cut⟩
      rw [hrc] at hc
      cases e with
      | some err => exact hc
      | none =>
        show cut ++ (importsLoopCut rc rest s1).2 = []
        rw [ih2 s1, List.append_nil]
        exact hc

/-- A call that passes the depth guard on a package without imports to walk refuses no
call. -/
theorem processPackageAuxCut_leaf (res : Resolver) (cfg : Config) (stopOnError : Bool)
    (n : Nat) (root pkgName : String) (level : Nat) (importedBy : String) (st : State)
    (hl : level + 1 ≤ maxLevel) (himp : getImports (res pkgName root).1 = []) :
    (processPackageAuxCut res cfg stopOnError (n + 1) root pkgName level importedBy st).2 =
      [] := by
  unfold processPackageAuxCut
  rw [if_neg (by omega)]
  by_cases hig : ignoredAt cfg pkgName = true
  · rw [if_pos hig]
  · rw [if_neg hig]
    dsimp only
    by_cases he : ((res pkgName root).2.isSome && stopOnError) = true
    · rw [if_pos he]
    · rw [if_neg he]
      by_cases hs : (!(inScope cfg (res pkgName root).1.ImportPath)) = true
      · rw [if_pos hs]
      · rw [if_neg hs]
        by_cases hgo : (res pkgName root).1.Goroot = true
        · rw [if_pos hgo]
        · rw [if_neg hgo, himp]
          rfl

/-- In a flat module, where the packages the root imports have no imports to walk, the
traversal from depth 0 refuses no call at the depth ceiling, however many packages the
root imports. -/
theorem refusedCalls_flat (res : Resolver) (cfg : Config) (cwd : String) (stopOnError : Bool)
    (st : State)
    (hleaf : ∀ i ∈ getImports (res "./" cwd).1,
      getImports (res i (res "./" cwd).1.Dir).1 = []) :
    refusedCalls res cfg cwd "./" 0 "" stopOnError st = [] := by
  unfold refusedCalls processPackageCut
  have hn : maxLevel - 0 = 255 + 1 := rfl
  rw [hn]
  unfold processPackageAuxCut
  rw [if_neg (by decide)]
  by_cases hig : ignoredAt cfg "./" = true
  · rw [if_pos hig]
  · rw [if_neg hig]
    dsimp only
    by_cases he : ((res "./" cwd).2.isSome && stopOnError) = true
    · rw [if_pos he]
    · rw [if_neg he]
      by_cases hs : (!(inScope cfg (res "./" cwd).1.ImportPath)) = true
      · rw [if_pos hs]
      · rw [if_neg hs]
        by_cases hgo : (res "./" cwd).1.Goroot = true
        · rw [if_pos hgo]
        · rw [if_neg hgo]
          exact importsLoopCut_snd_nil _ _
            (fun imp himp s => processPackageAuxCut_leaf res cfg stopOnError 254 _ imp (0 + 1)
              "./" s (by decide) (hleaf imp himp)) _

/-- C3 (amended).  For every resolver, configuration and policy, after a successful
traversal from the root at depth 0: every name `P` that (i) is met when walking the
lists of imports of recorded, non-standard-library packages from the root, along
steps on none of which the traversal was refused at the depth ceiling, (ii) resolves,
from the directory of the package importing it, to a descriptor in module scope, and
(iii) is not a pseudo-package, is a key of the mapping and, when its recorded
descriptor matches no ignore rule, is the label of exactly one node line; in
particular, when the traversal refused no call at the ceiling, so is every such `P`
met when walking those lists from the root; and (for every mapping) no label is
declared by two node lines. -/
theorem C3_nodes_complete_unless_refused (res : Resolver) (cfg : Config) (cwd : String)
    (stopOnError : Bool)
    (hnone : (processPackage res cfg cwd "./" 0 "" stopOnError State.empty).1 = none) :
    (∀ (P dir : String) (d : Nat),
      ReachKept (processPackage res cfg cwd "./" 0 "" stopOnError State.empty).2.pkgs
        (refusedCalls res cfg cwd "./" 0 "" stopOnError State.empty) cwd P dir d →
      inScope cfg (res P dir).1.ImportPath = true → ignoredAt cfg P = false →
      ∃ q, (processPackage res cfg cwd "./" 0 "" stopOnError State.empty).2.pkgs.get? P =
          some q ∧
        (isIgnored cfg q = false →
          (renderLines cfg (processPackage res cfg cwd "./" 0 "" stopOnError State.empty).2.pkgs
            (processPackage res cfg cwd "./" 0 "" stopOnError
              State.empty).2.erroredPkgs).countP (Line.isNodeOf P) = 1)) ∧
    (refusedCalls res cfg cwd "./" 0 "" stopOnError State.empty = [] →
      ∀ (P dir : String) (d : Nat),
        Reach (processPackage res cfg cwd "./" 0 "" stopOnError State.empty).2.pkgs cwd P dir
          d →
        inScope cfg (res P dir).1.ImportPath = true → ignoredAt cfg P = false →
        ∃ q, (processPackage res cfg cwd "./" 0 "" stopOnError State.empty).2.pkgs.get? P =
            some q ∧
          (isIgnored cfg q = false →
            (renderLines cfg
              (processPackage res cfg cwd "./" 0 "" stopOnError State.empty).2.pkgs
              (processPackage res cfg cwd "./" 0 "" stopOnError
                State.empty).2.erroredPkgs).countP (Line.isNodeOf P) = 1)) ∧
    (∀ (pkgs : GoMap Package) (erroredPkgs : GoMap Bool) (P : String),
      (renderLines cfg pkgs erroredPkgs).countP (Line.isNodeOf P) ≤ 1) := by
  have hcl := processPackage_closed_or_cut res cfg cwd "./" "" stopOnError hnone
  have hroot : inScope cfg (res "./" cwd).1.ImportPath = true → ignoredAt cfg "./" = false →
      ∃ q, (processPackage res cfg cwd "./" 0 "" stopOnError State.empty).2.pkgs.get? "./" =
        some q := by
    intro hs hig
    rcases hcl.2 with h | h | h
    · exact h
    · rw [hig] at h; cases h
    · rw [hs] at h; cases h
  refine ⟨?_, ?_, fun pkgs erroredPkgs P => countP_isNodeOf_renderLines_le cfg pkgs erroredPkgs P⟩
  · intro P dir d hreach hs hig
    have hkey : ∃ q, (processPackage res cfg cwd "./" 0 "" stopOnError
        State.empty).2.pkgs.get? P = some q := by
      cases hreach with
      | root => exact hroot hs hig
      | step hprev hk hgo himp hkept =>
        rcases hcl.1 _ _ hk with h | h
        · rw [hgo] at h; cases h
        · rcases h P himp with h | h | h | h
          · exact h
          · rw [hig] at h; cases h
          · rw [hs] at h; cases h
          · exact absurd h hkept
    obtain ⟨q, hq⟩ := hkey
    exact ⟨q, hq, fun hi => countP_isNodeOf_renderLines cfg _ _ P q hq hi⟩
  · intro hcut P dir d hreach hs hig
    have hkey : ∃ q, (processPackage res cfg cwd "./" 0 "" stopOnError
        State.empty).2.pkgs.get? P = some q := by
      cases hreach with
      | root => exact hroot hs hig
      | step hprev hk hgo himp =>
        rcases hcl.1 _ _ hk with h | h
        · rw [hgo] at h; cases h
        · rcases h P himp with h | h | h | h
          · exact h
          · rw [hig] at h; cases h
          · rw [hs] at h; cases h
          · rw [hcut] at h; cases h
    obtain ⟨q, hq⟩ := hkey
    exact ⟨q, hq, fun hi => countP_isNodeOf_renderLines cfg _ _ P q hq hi⟩

/-- C3 (amended) at the flat module `m`, whose root imports 256 packages that import
nothing: the traversal succeeds, with 257 packages to record, and refuses no call at
the depth ceiling, and the package `chainName 200`, met one step from the root, is the
label of exactly one node line. -/
theorem C3_nodes_complete_unless_refused_witness :
    (processPackage flatRes (defaultConfig "m") "" "./" 0 "" true State.empty).1 = none ∧
    refusedCalls flatRes (defaultConfig "m") "" "./" 0 "" true State.empty = [] ∧
    (renderLines (defaultConfig "m")
      (processPackage flatRes (defaultConfig "m") "" "./" 0 "" true State.empty).2.pkgs
      (processPackage flatRes (defaultConfig "m") "" "./" 0 "" true
        State.empty).2.erroredPkgs).countP (Line.isNodeOf (chainName 200)) = 1 := by
  have hnone : (processPackage flatRes (defaultConfig "m") "" "./" 0 "" true State.empty).1 =
      none :=
    processPackageAux_fst_none flatRes (defaultConfig "m") true
      (fun name dir => by unfold flatRes; split_ifs <;> rfl) _ _ _ _ _ _
  have h := C3_nodes_complete_unless_refused flatRes (defaultConfig "m") "" true hnone
  have hrootres : ∀ dir, (flatRes "./" dir).1 = flatRoot := fun _ => rfl
  have hleafres : ∀ i dir, i ≠ "./" → (flatRes i dir).1 =
      { ImportPath := i, Dir := "", Imports := [], Goroot := false, CgoFiles := [] } := by
    intro i dir hi
    unfold flatRes
    rw [if_neg hi]
  have hcut : refusedCalls flatRes (defaultConfig "m") "" "./" 0 "" true State.empty = [] := by
    refine refusedCalls_flat flatRes (defaultConfig "m") "" true State.empty (fun i hi => ?_)
    rw [hrootres] at hi ⊢
    rw [hleafres i _ ((mem_getImports _ _).1 hi).2]
    rfl
  refine ⟨hnone, hcut, ?_⟩
  obtain ⟨q0, hq0, _⟩ := h.1 "./" "" 0 ReachKept.root (by decide) (by decide)
  obtain ⟨_, dir0, hd0⟩ := recorded_in_scope flatRes (defaultConfig "m") "" "./" 0 "" true
    "./" q0 hq0
  rw [hd0, hrootres] at hq0
  have hne : chainName 200 ≠ "./" := by decide
  have hmem : chainName 200 ∈ getImports flatRoot :=
    (mem_getImports _ _).2 ⟨List.mem_map.2 ⟨200, List.mem_range.2 (by omega), rfl⟩, hne⟩
  obtain ⟨q, hq, hcount⟩ := h.2.1 hcut (chainName 200) flatRoot.Dir 1
    (Reach.step Reach.root hq0 rfl hmem) (by decide) (by decide)
  obtain ⟨_, dir, hd⟩ := recorded_in_scope flatRes (defaultConfig "m") "" "./" 0 "" true
    (chainName 200) q hq
  refine hcount ?_
  rw [hd, hleafres _ _ hne]
  decide

end Godepgraph
